import Mathlib

/-!
# A shallow embedding of `basic_interpreter.c`

The interpreter's global variables become the fields of one record, `Interp`, and every C
function becomes a Lean function that takes the record and returns the updated one.

Conventions of the embedding:

* A C string is the list of its characters before the terminating NUL.  The cursor
  `current_pos` is the not yet consumed remainder of the line, so `*current_pos` is the head
  of that list (`peek`), NUL when the list is empty, and `current_pos++` drops the head.
* `int` is `Int` reduced to the signed 32-bit range by `wrap32` after every arithmetic
  operation (two's complement wraparound).
* `malloc` and `calloc` are taken to succeed; `free` has no counterpart.
* The recursive-descent functions call each other without a syntactic bound, so each takes a
  `fuel : Nat` that decreases at every call, and returns `none` when it is used up.
* `stdout` and `stderr` are the lists of characters written so far; `stdin` is the list of
  characters not yet read.
-/

namespace BasicInterp

/-! ## Constants -/

def MAX_LINES : Nat := 1000
def MAX_LINE_LENGTH : Nat := 256
def MAX_VARS : Nat := 26
def MAX_ARRAYS : Nat := 26
def MAX_ARRAY_SIZE : Int := 1000
def MAX_FOR_STACK : Int := 10

/-! ## Machine integers and `<ctype.h>` -/

/-- The least value of `int`. -/
def INT_MIN : Int := -2147483648

/-- The greatest value of `int`. -/
def INT_MAX : Int := 2147483647

/-- Reduction of an integer to the signed 32-bit range (two's complement wraparound). -/
def wrap32 (x : Int) : Int := (x + 2147483648) % 4294967296 - 2147483648

/-- The C library `isspace` in the "C" locale. -/
def isspace (c : Char) : Bool :=
  c = ' ' || c = '\t' || c = '\n' || c = '\x0b' || c = '\x0c' || c = '\r'

/-- The C library `isalpha` in the "C" locale. -/
def isalpha (c : Char) : Bool :=
  (65 ≤ c.toNat && c.toNat ≤ 90) || (97 ≤ c.toNat && c.toNat ≤ 122)

/-- The C library `isdigit`. -/
def isdigit (c : Char) : Bool := 48 ≤ c.toNat && c.toNat ≤ 57

/-- The C library `toupper` in the "C" locale. -/
def toupper (c : Char) : Char := c.toUpper

/-- The C library `tolower` in the "C" locale. -/
def tolower (c : Char) : Char := c.toLower

/-- The test `strncasecmp(p, kw, strlen(kw)) == 0`: the keyword `kw` is a case-insensitive
prefix of the text `p`. -/
def strncasecmp0 : List Char → List Char → Bool
  | _, [] => true
  | [], _ :: _ => false
  | c :: cs, k :: ks => tolower c = tolower k && strncasecmp0 cs ks

/-- The C library `strcmp`, as the sign of the comparison. -/
def strcmp : List Char → List Char → Int
  | [], [] => 0
  | [], _ :: _ => -1
  | _ :: _, [] => 1
  | a :: as, b :: bs =>
    if a.toNat < b.toNat then -1 else if b.toNat < a.toNat then 1 else strcmp as bs

/-- The test `strncmp(h, n, strlen(n)) == 0`: `n` is a prefix of `h`. -/
def starts_with : List Char → List Char → Bool
  | _, [] => true
  | [], _ :: _ => false
  | c :: cs, k :: ks => c = k && starts_with cs ks

/-- The C library `strstr`, as the offset of the first occurrence of `needle` in
`haystack`, counted from `off`; `none` is the NULL result.  An empty needle is found at
the start. -/
def strstr_from (needle : List Char) : List Char → Nat → Option Nat
  | [], off => if needle = [] then some off else none
  | c :: cs, off =>
    if starts_with (c :: cs) needle then some off else strstr_from needle cs (off + 1)

/-- The C library `strstr`: offset of the first occurrence, `none` for NULL. -/
def strstr (haystack needle : List Char) : Option Nat := strstr_from needle haystack 0

/-- The text written by `printf("%d", v)`. -/
def fmt_d (v : Int) : List Char :=
  if v < 0 then '-' :: Nat.toDigits 10 (-v).toNat else Nat.toDigits 10 v.toNat

/-! ## Data model -/

/-- A stored program line. -/
structure ProgramLine where
  line_number : Int
  text : List Char

/-- An integer array `A`..`Z`. -/
structure Array where
  data : List Int
  size : Int
  allocated : Bool

/-- A frame of the FOR stack. -/
structure ForStackEntry where
  var_name : Char
  end_value : Int
  step_value : Int
  line_index : Int

/-- The global state of the interpreter.  `program_size` is the length of `program`. -/
structure Interp where
  program : List ProgramLine
  «variables» : Nat → Int
  string_variables : Nat → Option (List Char)
  arrays : Nat → Array
  for_stack : Nat → ForStackEntry
  for_stack_ptr : Int
  current_pos : List Char
  current_line_index : Int
  stdin : List Char
  stdout : List Char
  stderr : List Char

/-- The global `program_size`. -/
def program_size (s : Interp) : Int := s.program.length

/-- The text `program[i].text`. -/
def line_text (s : Interp) (i : Int) : List Char :=
  match s.program.get? i.toNat with
  | some l => l.text
  | none => []

/-- The state set up by `init_interpreter` at start-up, with the given standard input. -/
def init_interpreter (input : List Char) : Interp :=
  { program := [], «variables» := fun _ => 0,
    string_variables := fun _ => none,
    arrays := fun _ => ⟨[], 0, false⟩,
    for_stack := fun _ => ⟨'\x00', 0, 0, 0⟩,
    for_stack_ptr := 0,
    current_pos := [],
    current_line_index := 0,
    stdin := input,
    stdout := [],
    stderr := [] }

/-- The character `*p`; NUL at the end of the text. -/
def peek (p : List Char) : Char := p.headD '\x00'

/-- The assignment `current_pos = p`. -/
def set_pos (s : Interp) (p : List Char) : Interp := { s with current_pos := p }

/-- The statement `current_pos += n`. -/
def advance (n : Nat) (s : Interp) : Interp := set_pos s (s.current_pos.drop n)

/-- Output written by `printf`. -/
def printf (s : Interp) (txt : List Char) : Interp := { s with stdout := s.stdout ++ txt }

/-- Output written by `fprintf(stderr, ...)`. -/
def eprintf (s : Interp) (txt : List Char) : Interp := { s with stderr := s.stderr ++ txt }

/-- The index `var_name - 'A'`. -/
def var_index (var_name : Char) : Nat := var_name.toNat - 65

/-- Assignment to one slot of a table indexed by letter. -/
def set_slot {α : Type} (f : Nat → α) (i : Nat) (v : α) : Nat → α :=
  fun j => if j = i then v else f j

/-! ## Lexical cursor -/

/-- The loop of `skip_whitespace` on the text. -/
def skip_ws : List Char → List Char
  | [] => []
  | c :: cs => if isspace c then skip_ws cs else c :: cs

/-- Skip whitespace at the cursor. -/
def skip_whitespace (s : Interp) : Interp := set_pos s (skip_ws s.current_pos)

/-- The digit loop of `parse_factor`: `result = result * 10 + (*current_pos - '0')`. -/
def parse_digits (result : Int) : List Char → Int × List Char
  | [] => (result, [])
  | c :: cs =>
    if isdigit c then parse_digits (wrap32 (result * 10 + ((c.toNat : Int) - 48))) cs
    else (result, c :: cs)

/-- The copy loop of `read_string_literal`; `i` is the number of characters already in the
buffer.  Returns the characters copied and the remaining text. -/
def read_literal_loop (i : Nat) : List Char → List Char × List Char
  | [] => ([], [])
  | c :: cs =>
    if c ≠ '\x00' ∧ c ≠ '"' ∧ i < MAX_LINE_LENGTH - 1 then
      ((c :: (read_literal_loop (i + 1) cs).1), (read_literal_loop (i + 1) cs).2)
    else ([], c :: cs)

/-- Read a quoted literal at the cursor; `none` is the NULL result. -/
def read_string_literal (s0 : Interp) : Option (List Char) × Interp :=
  let s := skip_whitespace s0
  if peek s.current_pos ≠ '"' then (none, s)
  else
    let r := read_literal_loop 0 (s.current_pos.drop 1)
    let s1 := set_pos s r.2
    (some r.1, if peek s1.current_pos = '"' then advance 1 s1 else s1)

/-! ## String functions -/

/-- The body of `LEFT$` once the operands are evaluated. -/
def left_str (str : List Char) (n : Int) : List Char :=
  let len : Int := str.length
  let n := if n < 0 then 0 else n
  let n := if n > len then len else n
  str.take n.toNat

/-- The body of `RIGHT$` once the operands are evaluated. -/
def right_str (str : List Char) (n : Int) : List Char :=
  let len : Int := str.length
  let n := if n < 0 then 0 else n
  let n := if n > len then len else n
  str.drop (len - n).toNat

/-- The body of `MID$` once the operands are evaluated. -/
def mid_str (str : List Char) (start n : Int) : List Char :=
  let len : Int := str.length
  let start := if start < 1 then 1 else start
  if start > len then []
  else
    let available := len - (start - 1)
    let n := if n < 0 then 0 else n
    let n := if n > available then available else n
    (str.drop (start - 1).toNat).take n.toNat

/-- The result computed by `INSTR` once both operands are evaluated. -/
def instr_result (haystack needle : Option (List Char)) : Int :=
  match haystack, needle with
  | some h, some n =>
    match strstr h n with
    | some off => wrap32 ((off : Int) + 1)
    | none => 0
  | _, _ => 0

/-! ## Expression and string-operand evaluators -/

mutual

/-- Parse a factor: number, variable, array element, `INSTR` or parenthesised expression. -/
def parse_factor : Nat → Interp → Option (Int × Interp)
  | 0, _ => none
  | fuel + 1, s0 =>
    let s := skip_whitespace s0
    if peek s.current_pos = '(' then
      match parse_expression fuel (advance 1 s) with
      | none => none
      | some (result, s1) =>
        let s2 := skip_whitespace s1
        some (result, if peek s2.current_pos = ')' then advance 1 s2 else s2)
    else if isalpha (peek s.current_pos) then
      if strncasecmp0 s.current_pos "INSTR".toList then
        let s1 := skip_whitespace (advance 5 s)
        if peek s1.current_pos = '(' then
          match parse_string_operand fuel (advance 1 s1) with
          | none => none
          | some (haystack, s2) =>
            let s3 := skip_whitespace s2
            if peek s3.current_pos = ',' then
              match parse_string_operand fuel (advance 1 s3) with
              | none => none
              | some (needle, s4) =>
                let s5 := skip_whitespace s4
                if peek s5.current_pos = ')' then
                  some (instr_result haystack needle, advance 1 s5)
                else some (0, s5)
            else some (0, s3)
        else some (0, s1)
      else
        let var_name := toupper (peek s.current_pos)
        let s1 := skip_whitespace (advance 1 s)
        if peek s1.current_pos = '[' ∨ peek s1.current_pos = '(' then
          let closing := if peek s1.current_pos = '[' then ']' else ')'
          match parse_expression fuel (advance 1 s1) with
          | none => none
          | some (index, s2) =>
            let s3 := skip_whitespace s2
            let s4 := if peek s3.current_pos = closing then advance 1 s3 else s3
            let arr_idx := var_index var_name
            if (s4.arrays arr_idx).allocated = false then
              some (0, eprintf s4
                ("Error: Array ".toList ++ [var_name] ++ " not dimensioned\n".toList))
            else if index < 0 ∨ index ≥ (s4.arrays arr_idx).size then
              some (0, eprintf s4
                ("Error: Array index ".toList ++ fmt_d index ++ " out of bounds for ".toList
                  ++ [var_name] ++ "\n".toList))
            else some ((s4.arrays arr_idx).data.getD index.toNat 0, s4)
        else some (s1.variables (var_index var_name), s1)
    else if isdigit (peek s.current_pos)
        ∨ (peek s.current_pos = '-' ∧ isdigit (peek (s.current_pos.drop 1))) then
      let sign : Int := if peek s.current_pos = '-' then -1 else 1
      let s1 := if peek s.current_pos = '-' then advance 1 s else s
      let r := parse_digits 0 s1.current_pos
      some (wrap32 (sign * r.1), set_pos s1 r.2)
    else some (0, s)

/-- The loop of `parse_term`, with the accumulator `result`. -/
def parse_term_loop : Nat → Int → Interp → Option (Int × Interp)
  | 0, _, _ => none
  | fuel + 1, result, s0 =>
    let s := skip_whitespace s0
    if peek s.current_pos = '*' then
      match parse_factor fuel (advance 1 s) with
      | none => none
      | some (f, s1) => parse_term_loop fuel (wrap32 (result * f)) s1
    else if peek s.current_pos = '/' then
      match parse_factor fuel (advance 1 s) with
      | none => none
      | some (divisor, s1) =>
        if divisor ≠ 0 then parse_term_loop fuel (wrap32 (Int.tdiv result divisor)) s1
        else parse_term_loop fuel result (eprintf s1 "Error: Division by zero\n".toList)
    else some (result, s)

/-- Parse a term: factors joined by `*` and `/`. -/
def parse_term : Nat → Interp → Option (Int × Interp)
  | 0, _ => none
  | fuel + 1, s =>
    match parse_factor fuel s with
    | none => none
    | some (result, s1) => parse_term_loop fuel result s1

/-- The loop of `parse_expression`, with the accumulator `result`. -/
def parse_expression_loop : Nat → Int → Interp → Option (Int × Interp)
  | 0, _, _ => none
  | fuel + 1, result, s0 =>
    let s := skip_whitespace s0
    if peek s.current_pos = '+' then
      match parse_term fuel (advance 1 s) with
      | none => none
      | some (t, s1) => parse_expression_loop fuel (wrap32 (result + t)) s1
    else if peek s.current_pos = '-' then
      match parse_term fuel (advance 1 s) with
      | none => none
      | some (t, s1) => parse_expression_loop fuel (wrap32 (result - t)) s1
    else some (result, s)

/-- Parse an expression: terms joined by `+` and `-`. -/
def parse_expression : Nat → Interp → Option (Int × Interp)
  | 0, _ => none
  | fuel + 1, s =>
    match parse_term fuel s with
    | none => none
    | some (result, s1) => parse_expression_loop fuel result s1

/-- Parse a string operand; the inner `none` is the NULL result "not a string operand". -/
def parse_string_operand : Nat → Interp → Option (Option (List Char) × Interp)
  | 0, _ => none
  | fuel + 1, s0 =>
    let s := skip_whitespace s0
    if peek s.current_pos = '"' then
      some (read_string_literal s)
    else if strncasecmp0 s.current_pos "LEFT$".toList then
      let s1 := skip_whitespace (advance 5 s)
      if peek s1.current_pos = '(' then
        match parse_string_operand fuel (advance 1 s1) with
        | none => none
        | some (str, s2) =>
          let s3 := skip_whitespace s2
          if peek s3.current_pos = ',' then
            match parse_expression fuel (advance 1 s3) with
            | none => none
            | some (n, s4) =>
              let s5 := skip_whitespace s4
              if peek s5.current_pos = ')' then
                some (str.map (fun x => left_str x n), advance 1 s5)
              else some (none, s5)
          else some (none, s3)
      else some (none, s1)
    else if strncasecmp0 s.current_pos "RIGHT$".toList then
      let s1 := skip_whitespace (advance 6 s)
      if peek s1.current_pos = '(' then
        match parse_string_operand fuel (advance 1 s1) with
        | none => none
        | some (str, s2) =>
          let s3 := skip_whitespace s2
          if peek s3.current_pos = ',' then
            match parse_expression fuel (advance 1 s3) with
            | none => none
            | some (n, s4) =>
              let s5 := skip_whitespace s4
              if peek s5.current_pos = ')' then
                some (str.map (fun x => right_str x n), advance 1 s5)
              else some (none, s5)
          else some (none, s3)
      else some (none, s1)
    else if strncasecmp0 s.current_pos "MID$".toList then
      let s1 := skip_whitespace (advance 4 s)
      if peek s1.current_pos = '(' then
        match parse_string_operand fuel (advance 1 s1) with
        | none => none
        | some (str, s2) =>
          let s3 := skip_whitespace s2
          if peek s3.current_pos = ',' then
            match parse_expression fuel (advance 1 s3) with
            | none => none
            | some (start, s4) =>
              let s5 := skip_whitespace s4
              if peek s5.current_pos = ',' then
                match parse_expression fuel (advance 1 s5) with
                | none => none
                | some (n, s6) =>
                  let s7 := skip_whitespace s6
                  if peek s7.current_pos = ')' then
                    some (str.map (fun x => mid_str x start n), advance 1 s7)
                  else some (none, s7)
              else some (none, s5)
          else some (none, s3)
      else some (none, s1)
    else if isalpha (peek s.current_pos) then
      let var := toupper (peek s.current_pos)
      let s1 := advance 1 s
      if peek s1.current_pos = '$' then
        match s.string_variables (var_index var) with
        | some val => some (some val, advance 1 s1)
        | none => some (some [], advance 1 s1)
      else some (none, s)
    else some (none, s)

end

/-! ## Statement handlers -/

/-- The operand loop of `execute_print`; `first` is the local flag of the C function. -/
def execute_print_loop : Nat → Bool → Interp → Option Interp
  | 0, _, _ => none
  | fuel + 1, first, s0 =>
    let s := skip_whitespace s0
    if peek s.current_pos = '\x00' ∨ peek s.current_pos = '\n' then
      some (printf s "\n".toList)
    else
      let s1 := if first then s else printf s " ".toList
      match parse_string_operand fuel s1 with
      | none => none
      | some (some str, s2) =>
        let s3 := skip_whitespace (printf s2 str)
        execute_print_loop fuel false (if peek s3.current_pos = ',' then advance 1 s3 else s3)
      | some (none, s2) =>
        match parse_expression fuel (set_pos s2 s1.current_pos) with
        | none => none
        | some (v, s3) =>
          let s4 := skip_whitespace (printf s3 (fmt_d v))
          execute_print_loop fuel false
            (if peek s4.current_pos = ',' then advance 1 s4 else s4)

/-- Execute a PRINT statement; the cursor is just after the keyword. -/
def execute_print (fuel : Nat) (s : Interp) : Option Interp := execute_print_loop fuel true s

/-- Execute a LET statement; the cursor is just after the keyword, if there was one. -/
def execute_let (fuel : Nat) (s0 : Interp) : Option Interp :=
  let s := skip_whitespace s0
  if isalpha (peek s.current_pos) = false then
    some (eprintf s "Error: Expected variable name\n".toList)
  else
    let var_name := toupper (peek s.current_pos)
    let s1 := skip_whitespace (advance 1 s)
    if peek s1.current_pos = '$' then
      let s2 := skip_whitespace (advance 1 s1)
      let s3 := if peek s2.current_pos = '=' then advance 1 s2 else s2
      match parse_string_operand fuel s3 with
      | none => none
      | some (val, s4) =>
        some { s4 with
          string_variables := set_slot s4.string_variables (var_index var_name)
            (some (val.getD [])) }
    else if peek s1.current_pos = '[' ∨ peek s1.current_pos = '(' then
      let closing := if peek s1.current_pos = '[' then ']' else ')'
      match parse_expression fuel (advance 1 s1) with
      | none => none
      | some (index, s2) =>
        let s3 := skip_whitespace s2
        let s4 := skip_whitespace (if peek s3.current_pos = closing then advance 1 s3 else s3)
        let s5 := if peek s4.current_pos = '=' then advance 1 s4 else s4
        let arr_idx := var_index var_name
        if (s5.arrays arr_idx).allocated = false then
          some (eprintf s5
            ("Error: Array ".toList ++ [var_name] ++ " not dimensioned\n".toList))
        else if index < 0 ∨ index ≥ (s5.arrays arr_idx).size then
          some (eprintf s5
            ("Error: Array index ".toList ++ fmt_d index ++ " out of bounds for ".toList
              ++ [var_name] ++ "\n".toList))
        else
          match parse_expression fuel s5 with
          | none => none
          | some (v, s6) =>
            some { s6 with
              arrays := set_slot s6.arrays arr_idx
                { s6.arrays arr_idx with
                  data := (s6.arrays arr_idx).data.set index.toNat v } }
    else
      let s2 := if peek s1.current_pos = '=' then advance 1 s1 else s1
      match parse_expression fuel s2 with
      | none => none
      | some (v, s3) =>
        some { s3 with «variables» := set_slot s3.variables (var_index var_name) v }

/-- Execute a DIM statement; the cursor is just after the keyword. -/
def execute_dim (fuel : Nat) (s0 : Interp) : Option Interp :=
  let s := skip_whitespace s0
  if isalpha (peek s.current_pos) = false then
    some (eprintf s "Error: Expected array name\n".toList)
  else
    let var_name := toupper (peek s.current_pos)
    let s1 := skip_whitespace (advance 1 s)
    let closing : Char :=
      if peek s1.current_pos = '[' ∨ peek s1.current_pos = '(' then
        (if peek s1.current_pos = '[' then ']' else ')')
      else '\x00'
    let s2 := if peek s1.current_pos = '[' ∨ peek s1.current_pos = '(' then advance 1 s1 else s1
    match parse_expression fuel s2 with
    | none => none
    | some (size, s3) =>
      let s4 := skip_whitespace s3
      let s5 := if closing ≠ '\x00' ∧ peek s4.current_pos = closing then advance 1 s4 else s4
      let arr_idx := var_index var_name
      if (s5.arrays arr_idx).allocated = true then
        some (eprintf s5
          ("Error: Array ".toList ++ [var_name] ++ " already dimensioned\n".toList))
      else if size ≤ 0 ∨ size > MAX_ARRAY_SIZE then
        some (eprintf s5
          ("Error: Invalid array size ".toList ++ fmt_d size ++ "\n".toList))
      else
        some { s5 with
          arrays := set_slot s5.arrays arr_idx
            { data := List.replicate size.toNat 0, size := size, allocated := true } }

/-! ### INPUT and the standard input stream -/

/-- The input left after the rest of the current input line has been read and dropped. -/
def drain_line : List Char → List Char
  | [] => []
  | c :: cs => if c = '\n' then cs else drain_line cs

/-- The characters of one `%255s` token and the input left after it. -/
def scan_token (room : Nat) : List Char → List Char × List Char
  | [] => ([], [])
  | c :: cs =>
    if isspace c = false ∧ 0 < room then
      ((c :: (scan_token (room - 1) cs).1), (scan_token (room - 1) cs).2)
    else ([], c :: cs)

/-- The call `scanf("%255s", buffer)`: the token read (`none` when the input is exhausted)
and the input left. -/
def scanf_s (input : List Char) : Option (List Char) × List Char :=
  let i := skip_ws input
  if i = [] then (none, []) else (some (scan_token 255 i).1, (scan_token 255 i).2)

/-- The call `scanf("%d", target)`: the integer read (`none` when no integer starts the
input) and the input left.  A value outside the `int` range is reduced by `wrap32`. -/
def scanf_d (input : List Char) : Option Int × List Char :=
  let i := skip_ws input
  let neg := peek i = '-'
  let j := if peek i = '-' ∨ peek i = '+' then i.drop 1 else i
  if isdigit (peek j) then
    let r := parse_digits 0 j
    (some (wrap32 (if neg then -r.1 else r.1)), r.2)
  else (none, i)

/-- The destination loop of `execute_input`. The result `(s, true)` means that the loop was
left normally, `(s, false)` that the function returned from inside the loop. -/
def execute_input_loop : Nat → Interp → Option (Interp × Bool)
  | 0, _ => none
  | fuel + 1, s0 =>
    let s := skip_whitespace s0
    if peek s.current_pos = '\x00' ∨ peek s.current_pos = '\n' then some (s, true)
    else if isalpha (peek s.current_pos) = false then
      some (eprintf s "Error: Expected variable name in INPUT\n".toList, false)
    else
      let var_name := toupper (peek s.current_pos)
      let s1 := advance 1 s
      if peek s1.current_pos = '$' then
        let s2 := advance 1 s1
        let r := scanf_s s2.stdin
        let s3 : Interp :=
          match r.1 with
          | some buffer =>
            { s2 with
              stdin := r.2
              string_variables := set_slot s2.string_variables (var_index var_name)
                (some (buffer.takeWhile (fun c => c ≠ '\x00'))) }
          | none => { s2 with stdin := r.2 }
        let s4 := skip_whitespace s3
        if peek s4.current_pos = ',' then execute_input_loop fuel (advance 1 s4)
        else some (s4, true)
      else
        let s2 := skip_whitespace s1
        if peek s2.current_pos = '[' ∨ peek s2.current_pos = '(' then
          let closing := if peek s2.current_pos = '[' then ']' else ')'
          match parse_expression fuel (advance 1 s2) with
          | none => none
          | some (index, s3) =>
            let s4 := skip_whitespace s3
            let s5 := if peek s4.current_pos = closing then advance 1 s4 else s4
            let arr_idx := var_index var_name
            if (s5.arrays arr_idx).allocated = false then
              some (eprintf s5
                ("Error: Array ".toList ++ [var_name] ++ " not dimensioned\n".toList), false)
            else if index < 0 ∨ index ≥ (s5.arrays arr_idx).size then
              some (eprintf s5
                ("Error: Array index ".toList ++ fmt_d index ++ " out of bounds for ".toList
                  ++ [var_name] ++ "\n".toList), false)
            else
              match scanf_d s5.stdin with
              | (none, rest) =>
                some (eprintf { s5 with stdin := drain_line rest }
                  "Error: Invalid input\n".toList, false)
              | (some v, rest) =>
                let s6 : Interp :=
                  { s5 with
                    stdin := rest
                    arrays := set_slot s5.arrays arr_idx
                      { s5.arrays arr_idx with
                        data := (s5.arrays arr_idx).data.set index.toNat v } }
                let s7 := skip_whitespace s6
                if peek s7.current_pos = ',' then execute_input_loop fuel (advance 1 s7)
                else some (s7, true)
        else
          match scanf_d s2.stdin with
          | (none, rest) =>
            some (eprintf { s2 with stdin := drain_line rest }
              "Error: Invalid input\n".toList, false)
          | (some v, rest) =>
            let s6 : Interp :=
              { s2 with
                stdin := rest
                «variables» := set_slot s2.variables (var_index var_name) v }
            let s7 := skip_whitespace s6
            if peek s7.current_pos = ',' then execute_input_loop fuel (advance 1 s7)
            else some (s7, true)

/-- Execute an INPUT statement; the cursor is just after the keyword. -/
def execute_input (fuel : Nat) (s0 : Interp) : Option Interp :=
  let s := skip_whitespace s0
  let s1 :=
    if peek s.current_pos = '"' then
      let r := read_string_literal s
      let s2 := skip_whitespace (printf r.2 (r.1.getD []))
      if peek s2.current_pos = ',' then advance 1 s2 else s2
    else s
  match execute_input_loop fuel s1 with
  | none => none
  | some (s3, true) => some { s3 with stdin := drain_line s3.stdin }
  | some (s3, false) => some s3

/-! ### FOR, NEXT and the forward skip scan -/

/-- The scan loop of `skip_to_next`, with the local counter `nesting`. -/
def skip_to_next_loop (var_name : Char) : Nat → Int → Interp → Option Interp
  | 0, _, _ => none
  | fuel + 1, nesting, s =>
    if s.current_line_index < program_size s then
      let s1 := { s with current_line_index := s.current_line_index + 1 }
      if s1.current_line_index ≥ program_size s1 then
        some (eprintf s1
          ("Error: Matching NEXT ".toList ++ [var_name] ++ " not found\n".toList))
      else
        let ptr := skip_ws (line_text s1 s1.current_line_index)
        if strncasecmp0 ptr "FOR".toList then
          skip_to_next_loop var_name fuel (nesting + 1) s1
        else if strncasecmp0 ptr "NEXT".toList then
          if nesting = 0 then
            let vptr := skip_ws (ptr.drop 4)
            if toupper (peek vptr) = var_name then some s1
            else skip_to_next_loop var_name fuel nesting s1
          else skip_to_next_loop var_name fuel (nesting - 1) s1
        else skip_to_next_loop var_name fuel nesting s1
    else
      some (eprintf s
        ("Error: Matching NEXT ".toList ++ [var_name] ++ " not found\n".toList))

/-- Skip to the matching NEXT statement. -/
def skip_to_next (fuel : Nat) (var_name : Char) (s : Interp) : Option Interp :=
  skip_to_next_loop var_name fuel 0 s

/-- The part of `execute_for` that follows the parsing of the header: re-entry test, push
of a new frame on initial entry, and the termination test with the skip to the matching
NEXT. -/
def for_loop_entry (fuel : Nat) (var_name : Char) (start_val end_val step_val : Int)
    (s7 : Interp) : Option Interp :=
  let entered : Option Interp :=
    if s7.for_stack_ptr > 0
        ∧ (s7.for_stack (s7.for_stack_ptr - 1).toNat).line_index = s7.current_line_index then
      some s7
    else if s7.for_stack_ptr ≥ MAX_FOR_STACK then none
    else
      some { s7 with
        «variables» := set_slot s7.variables (var_index var_name) start_val
        for_stack := set_slot s7.for_stack s7.for_stack_ptr.toNat
          { var_name := var_name, end_value := end_val, step_value := step_val,
            line_index := s7.current_line_index }
        for_stack_ptr := s7.for_stack_ptr + 1 }
  match entered with
  | none => some (eprintf s7 "Error: FOR stack overflow\n".toList)
  | some s8 =>
    let current_val := s8.variables (var_index var_name)
    let done : Bool :=
      if step_val > 0 ∧ current_val > end_val then true
      else if step_val < 0 ∧ current_val < end_val then true
      else false
    if done then
      skip_to_next fuel var_name { s8 with for_stack_ptr := s8.for_stack_ptr - 1 }
    else some s8

/-- Execute a FOR statement; the cursor is just after the keyword. -/
def execute_for (fuel : Nat) (s0 : Interp) : Option Interp :=
  let s := skip_whitespace s0
  if isalpha (peek s.current_pos) = false then
    some (eprintf s "Error: Expected variable name in FOR\n".toList)
  else
    let var_name := toupper (peek s.current_pos)
    let s1 := skip_whitespace (advance 1 s)
    let s2 := if peek s1.current_pos = '=' then advance 1 s1 else s1
    match parse_expression fuel s2 with
    | none => none
    | some (start_val, s3) =>
      let s4 := skip_whitespace s3
      if strncasecmp0 s4.current_pos "TO".toList = false then
        some (eprintf s4 "Error: Expected TO in FOR\n".toList)
      else
        match parse_expression fuel (advance 2 s4) with
        | none => none
        | some (end_val, s5) =>
          let s6 := skip_whitespace s5
          let stepped : Option (Int × Interp) :=
            if strncasecmp0 s6.current_pos "STEP".toList then
              parse_expression fuel (advance 4 s6)
            else some (1, s6)
          match stepped with
          | none => none
          | some (step_val, s7) => for_loop_entry fuel var_name start_val end_val step_val s7

/-- Execute a NEXT statement; the cursor is just after the keyword. -/
def execute_next (s0 : Interp) : Interp :=
  let s := skip_whitespace s0
  if isalpha (peek s.current_pos) = false then
    eprintf s "Error: Expected variable name in NEXT\n".toList
  else
    let var_name := toupper (peek s.current_pos)
    let s1 := advance 1 s
    if s1.for_stack_ptr > 0
        ∧ (s1.for_stack (s1.for_stack_ptr - 1).toNat).var_name = var_name then
      { s1 with
        «variables» := set_slot s1.variables (var_index var_name)
          (wrap32 (s1.variables (var_index var_name)
            + (s1.for_stack (s1.for_stack_ptr - 1).toNat).step_value))
        current_line_index := (s1.for_stack (s1.for_stack_ptr - 1).toNat).line_index - 1 }
    else eprintf s1 "Error: NEXT without matching FOR\n".toList

/-! ### GOTO and IF -/

/-- The search loop of `find_line` over the lines from index `i` on. -/
def find_line_from (line_number : Int) : List ProgramLine → Int → Int
  | [], _ => -1
  | l :: ls, i => if l.line_number = line_number then i else find_line_from line_number ls (i + 1)

/-- Find the index of the line with the given number, `-1` if there is none. -/
def find_line (s : Interp) (line_number : Int) : Int := find_line_from line_number s.program 0

/-- Execute a GOTO statement; the cursor is just after the keyword. -/
def execute_goto (fuel : Nat) (s : Interp) : Option Interp :=
  match parse_expression fuel s with
  | none => none
  | some (line_num, s1) =>
    let index := find_line s1 line_num
    if index ≥ 0 then some { s1 with current_line_index := index - 1 }
    else some (eprintf s1 ("Error: Line ".toList ++ fmt_d line_num ++ " not found\n".toList))

/-- The comparison operator read by `execute_if` and the state after it. -/
def read_operator (s : Interp) : List Char × Interp :=
  let c0 := peek s.current_pos
  if c0 = '=' ∨ c0 = '<' ∨ c0 = '>' then
    let s1 := advance 1 s
    let c1 := peek s1.current_pos
    if c1 = '=' ∨ (c1 = '>' ∧ c0 = '<') then ([c0, c1], advance 1 s1) else ([c0], s1)
  else ([], s)

/-- The truth value `execute_if` gives to `cmp op 0`, where `cmp` is the sign of the
comparison of the two sides. -/
def eval_condition (op : List Char) (cmp : Int) : Bool :=
  if op = "=".toList ∨ op = "==".toList then cmp = 0
  else if op = "<".toList then cmp < 0
  else if op = ">".toList then cmp > 0
  else if op = "<=".toList then cmp ≤ 0
  else if op = ">=".toList then cmp ≥ 0
  else if op = "<>".toList ∨ op = "!=".toList then cmp ≠ 0
  else false

/-- The sign of the comparison of two integers. -/
def int_cmp (a b : Int) : Int := if a < b then -1 else if a > b then 1 else 0

/-- The tail of `execute_if`: skip THEN and run the trailing statement if the condition
holds. -/
def execute_if_then (fuel : Nat) (condition : Bool) (s0 : Interp) : Option Interp :=
  let s1 := skip_whitespace s0
  let s := if strncasecmp0 s1.current_pos "THEN".toList then skip_whitespace (advance 4 s1) else s1
  if condition then
    if strncasecmp0 s.current_pos "GOTO".toList then execute_goto fuel (advance 4 s)
    else if strncasecmp0 s.current_pos "PRINT".toList then execute_print fuel (advance 5 s)
    else if strncasecmp0 s.current_pos "LET".toList then execute_let fuel (advance 3 s)
    else if isalpha (peek s.current_pos) then execute_let fuel s
    else some s
  else some s

/-- Execute an IF statement; the cursor is just after the keyword. -/
def execute_if (fuel : Nat) (s0 : Interp) : Option Interp :=
  let s := skip_whitespace s0
  match parse_string_operand fuel s with
  | none => none
  | some (some left_str, s1) =>
    let r := read_operator (skip_whitespace s1)
    match parse_string_operand fuel r.2 with
    | none => none
    | some (none, s2) => some (eprintf s2 "Error: Type mismatch in IF\n".toList)
    | some (some right_str, s2) =>
      execute_if_then fuel (eval_condition r.1 (strcmp left_str right_str)) s2
  | some (none, s1) =>
    match parse_expression fuel (set_pos s1 s.current_pos) with
    | none => none
    | some (left_val, s2) =>
      let r := read_operator (skip_whitespace s2)
      match parse_expression fuel r.2 with
      | none => none
      | some (right_val, s3) =>
        execute_if_then fuel (eval_condition r.1 (int_cmp left_val right_val)) s3

/-! ## Dispatcher and run loop -/

/-- Execute the program line at index `line_index`. -/
def execute_line (fuel : Nat) (line_index : Int) (s0 : Interp) : Option Interp :=
  let s := skip_whitespace (set_pos s0 (line_text s0 line_index))
  if strncasecmp0 s.current_pos "PRINT".toList then execute_print fuel (advance 5 s)
  else if strncasecmp0 s.current_pos "LET".toList then execute_let fuel (advance 3 s)
  else if strncasecmp0 s.current_pos "GOTO".toList then execute_goto fuel (advance 4 s)
  else if strncasecmp0 s.current_pos "IF".toList then execute_if fuel (advance 2 s)
  else if strncasecmp0 s.current_pos "DIM".toList then execute_dim fuel (advance 3 s)
  else if strncasecmp0 s.current_pos "INPUT".toList then execute_input fuel (advance 5 s)
  else if strncasecmp0 s.current_pos "FOR".toList then execute_for fuel (advance 3 s)
  else if strncasecmp0 s.current_pos "NEXT".toList then some (execute_next (advance 4 s))
  else if strncasecmp0 s.current_pos "END".toList then
    some { s with current_line_index := program_size s }
  else if peek s.current_pos ≠ '\x00' then execute_let fuel s
  else some s

/-- The `for` loop of `run_program`: `steps` bounds the number of lines executed, `fuel` is
handed to each of them. -/
def run_loop (fuel : Nat) : Nat → Interp → Option Interp
  | 0, _ => none
  | steps + 1, s =>
    if s.current_line_index < program_size s then
      match execute_line fuel s.current_line_index s with
      | none => none
      | some s1 => run_loop fuel steps { s1 with current_line_index := s1.current_line_index + 1 }
    else some s

/-- Run the program. -/
def run_program (fuel steps : Nat) (s : Interp) : Option Interp :=
  if program_size s = 0 then some (printf s "No program to run.\n".toList)
  else run_loop fuel steps { s with current_line_index := 0 }

/-! ## Program editing -/

/-- The scan loop of `insert_line` over the lines from index `i` on: the index of the line
that has the number, if there is one, and the insertion point `insert_pos` otherwise. -/
def insert_scan (line_number : Int) : List ProgramLine → Nat → Nat → Option Nat × Nat
  | [], _, insert_pos => (none, insert_pos)
  | l :: ls, i, insert_pos =>
    if l.line_number = line_number then (some i, insert_pos)
    else
      insert_scan line_number ls (i + 1)
        (if l.line_number < line_number then i + 1 else insert_pos)

/-- Insert or replace a line in the program; an empty text deletes the line. -/
def insert_line (s : Interp) (line_number : Int) (text : List Char) : Interp :=
  match insert_scan line_number s.program 0 0 with
  | (some i, _) =>
    if text.length = 0 then { s with program := s.program.eraseIdx i }
    else
      { s with
        program := s.program.modify
          (fun l => { l with text := text.take (MAX_LINE_LENGTH - 1) }) i }
  | (none, insert_pos) =>
    if text.length > 0 ∧ program_size s < MAX_LINES then
      { s with
        program := s.program.take insert_pos
          ++ ⟨line_number, text.take (MAX_LINE_LENGTH - 1)⟩ :: s.program.drop insert_pos }
    else s

/-! ## Immediate mode -/

/-- Direct execution of a statement typed at the prompt: the last branch of the loop of
`main`, for an input line that is neither a command nor a numbered line. -/
def execute_immediate (fuel : Nat) (input : List Char) (s0 : Interp) : Option Interp :=
  let s := { set_pos s0 input with current_line_index := 0 }
  if strncasecmp0 s.current_pos "PRINT".toList then execute_print fuel (advance 5 s)
  else if strncasecmp0 s.current_pos "LET".toList then execute_let fuel (advance 3 s)
  else if strncasecmp0 s.current_pos "DIM".toList then execute_dim fuel (advance 3 s)
  else if strncasecmp0 s.current_pos "INPUT".toList then execute_input fuel (advance 5 s)
  else if strncasecmp0 s.current_pos "FOR".toList then execute_for fuel (advance 3 s)
  else if strncasecmp0 s.current_pos "NEXT".toList then some (execute_next (advance 4 s))
  else some (printf s "Unknown command or invalid syntax\n".toList)

/-! ## Saving and loading -/

/-- Clear the program: `program_size = 0` and the resets of `init_interpreter`. -/
def clear_program (s : Interp) : Interp :=
  { s with
    program := []
    «variables» := fun _ => 0
    string_variables := fun _ => none
    arrays := fun _ => ⟨[], 0, false⟩
    for_stack_ptr := 0 }

/-- The write loop of `save_program`: one `fprintf(fp, "%d %s\n", ...)` for each line. -/
def save_loop : List ProgramLine → List Char
  | [] => []
  | l :: ls => fmt_d l.line_number ++ ' ' :: l.text ++ '\n' :: save_loop ls

/-- Save the program to a file: the content written (`none` when the file cannot be
opened for writing) and the state. -/
def save_program (filename : List Char) (writable : Bool) (s : Interp) :
    Option (List Char) × Interp :=
  if writable = false then
    (none, eprintf s
      ("Error: Cannot open file ".toList ++ filename ++ " for writing\n".toList))
  else
    (some (save_loop s.program),
      printf s ("Program saved to ".toList ++ filename ++ "\n".toList))

/-- The read loop of the C library `fgets` with room for `room` characters: the characters
stored, up to and including the first newline, and the input left. -/
def fgets_loop : Nat → List Char → List Char × List Char
  | 0, input => ([], input)
  | _ + 1, [] => ([], [])
  | room + 1, c :: cs =>
    if c = '\n' then (['\n'], cs)
    else ((c :: (fgets_loop room cs).1), (fgets_loop room cs).2)

/-- The call `fgets(line, size, fp)`: the line stored and the input left, `none` for NULL at
end of file. -/
def fgets (size : Nat) (input : List Char) : Option (List Char × List Char) :=
  if input = [] then none else some (fgets_loop (size - 1) input)

/-- The call `sscanf(line, "%d %[^\n]", &line_num, rest)`: the two values stored when the
call returns 2, `none` otherwise. -/
def sscanf_line (line : List Char) : Option (Int × List Char) :=
  match scanf_d line with
  | (some line_num, r) =>
    let rest := (skip_ws r).takeWhile (fun c => c ≠ '\n')
    if rest = [] then none else some (line_num, rest)
  | (none, _) => none

/-- The read loop of `load_program` over the content of the file that is left. -/
def load_loop : Nat → List Char → Interp → Option Interp
  | 0, _, _ => none
  | fuel + 1, input, s =>
    match fgets MAX_LINE_LENGTH input with
    | none => some s
    | some (line, input1) =>
      let line1 := line.takeWhile (fun c => c ≠ '\n')
      match sscanf_line line1 with
      | some (line_num, rest) => load_loop fuel input1 (insert_line s line_num rest)
      | none => load_loop fuel input1 s

/-- Load a program from a file with the given content (`none` when the file cannot be
opened for reading). -/
def load_program (fuel : Nat) (filename : List Char) (file : Option (List Char))
    (s : Interp) : Option Interp :=
  match file with
  | none =>
    some (eprintf s
      ("Error: Cannot open file ".toList ++ filename ++ " for reading\n".toList))
  | some content =>
    match load_loop fuel content (clear_program s) with
    | none => none
    | some s1 => some (printf s1 ("Program loaded from ".toList ++ filename ++ "\n".toList))

/-! ## Notions used to state the properties of runs -/

/-- The first `t` passes of the loop of `run_program`, started in `s`: the indices of the
lines executed, in order, and the state reached.  `none` if the index leaves the program or
a line runs out of fuel before `t` lines are executed. -/
def run_steps (fuel : Nat) : Nat → Interp → Option (List Int × Interp)
  | 0, s => some ([], s)
  | t + 1, s =>
    if s.current_line_index < program_size s then
      match execute_line fuel s.current_line_index s with
      | none => none
      | some s1 =>
        match run_steps fuel t { s1 with current_line_index := s1.current_line_index + 1 } with
        | none => none
        | some (tr, s2) => some (s.current_line_index :: tr, s2)
    else none

/-- The program `FOR I = a TO b STEP s`, a body, `NEXT I`, and further lines. -/
def for_program (a b s : Int) (body rest : List ProgramLine) : List ProgramLine :=
  ⟨10, "FOR I = ".toList ++ fmt_d a ++ " TO ".toList ++ fmt_d b ++ " STEP ".toList ++ fmt_d s⟩
    :: (body ++ ⟨20, "NEXT I".toList⟩ :: rest)

/-- The line indices executed by a run of `for_program` with a body of `k` lines that is
executed `N` times: the FOR line, then `N` times the body lines, the NEXT line and the FOR
line again. -/
def for_trace (k N : Nat) : List Int :=
  0 :: (List.replicate N
    ((List.range k).map (fun (j : Nat) => ((j : Int) + 1)) ++ [(k : Int) + 1, 0])).flatten

/-- The number of times the body of `FOR I = a TO b STEP s` is to be executed. -/
def for_count (a b s : Int) : Int :=
  if s > 0 then max 0 ((b - a) / s + 1) else max 0 ((a - b) / (-s) + 1)

/-- The five-line program with two nested loops. -/
def nested_program (m n : Int) : List ProgramLine :=
  [⟨10, "FOR I = 1 TO ".toList ++ fmt_d m⟩,
   ⟨20, "FOR J = 1 TO ".toList ++ fmt_d n⟩,
   ⟨30, "PRINT I, J".toList⟩,
   ⟨40, "NEXT J".toList⟩,
   ⟨50, "NEXT I".toList⟩]

/-- The lines `i 1`, ..., `i n`, each followed by a newline. -/
def inner_lines (i : Int) : Nat → List Char
  | 0 => []
  | j + 1 => inner_lines i j ++ (fmt_d i ++ ' ' :: (fmt_d ((j : Int) + 1) ++ ['\n']))

/-- The lines `i j` for `i = 1..m` and, within each `i`, `j = 1..n`, in that order. -/
def nested_lines (n : Nat) : Nat → List Char
  | 0 => []
  | i + 1 => nested_lines n i ++ inner_lines ((i : Int) + 1) n

/-- The states of a run of `nested_program m n` between the two loops: only the frame of
the `I` loop is on the FOR stack, `I` is `i`, the next line to execute is `cli` and the
output so far is `out`. -/
def nested_outer (m n i cli : Int) (out : List Char) (σ : Interp) : Prop :=
  σ.program = nested_program m n ∧ σ.variables 8 = i ∧ σ.for_stack_ptr = 1
    ∧ σ.for_stack 0 = ⟨'I', m, 1, 0⟩ ∧ σ.current_line_index = cli ∧ σ.stdout = out

/-- The states of a run of `nested_program m n` inside the `J` loop: both frames are on the
FOR stack, `I` is `i`, `J` is `j`, the next line to execute is `cli` and the output so far
is `out`. -/
def nested_inner (m n i j cli : Int) (out : List Char) (σ : Interp) : Prop :=
  σ.program = nested_program m n ∧ σ.variables 8 = i ∧ σ.variables 9 = j
    ∧ σ.for_stack_ptr = 2 ∧ σ.for_stack 0 = ⟨'I', m, 1, 0⟩ ∧ σ.for_stack 1 = ⟨'J', n, 1, 1⟩
    ∧ σ.current_line_index = cli ∧ σ.stdout = out

/-- The states in which a run of `nested_program m n` stops: the index is past the last
line, the FOR stack is empty and the output is `out`. -/
def nested_final (m n : Int) (out : List Char) (σ : Interp) : Prop :=
  σ.program = nested_program m n ∧ σ.for_stack_ptr = 0 ∧ σ.current_line_index = 5
    ∧ σ.stdout = out

/-- The states of a run of a program `P` inside the loop `FOR I = a TO b STEP s` of line
index 0: the frame of the loop is the only one on the FOR stack, `I` is `v` and the next
line to execute is `cli`. -/
def for_state (P : List ProgramLine) (b s v cli : Int) (σ : Interp) : Prop :=
  σ.program = P ∧ σ.variables 8 = v ∧ σ.for_stack_ptr = 1
    ∧ σ.for_stack 0 = ⟨'I', b, s, 0⟩ ∧ σ.current_line_index = cli

/-- The termination test of `execute_for` for the value `v` of the loop variable. -/
def for_done (b s v : Int) : Prop := (s > 0 ∧ v > b) ∨ (s < 0 ∧ v < b)

/-- The part of the state that the expression and string-operand evaluators leave alone:
everything but the cursor and the diagnostics written so far. -/
def frame (s : Interp) : Interp := { s with current_pos := [], stderr := [] }

/-- A three-line program whose first line jumps over the second. -/
def goto_example : Interp :=
  { init_interpreter [] with
    program := [⟨10, "GOTO 30".toList⟩, ⟨20, "PRINT 1".toList⟩, ⟨30, "END".toList⟩] }

/-- The line numbers of the program are strictly increasing. -/
def program_sorted (P : List ProgramLine) : Prop :=
  (P.map ProgramLine.line_number).Pairwise (fun a b => a < b)

/-- The last part of `execute_let` for an array element target, entered in state `s5`
behind the optional `=`: the two checks of the subscript and the store of the value of the
right-hand side. -/
def let_array_store (fuel : Nat) (var_name : Char) (index : Int) (s5 : Interp) :
    Option Interp :=
  let arr_idx := var_index var_name
  if (s5.arrays arr_idx).allocated = false then
    some (eprintf s5
      ("Error: Array ".toList ++ [var_name] ++ " not dimensioned\n".toList))
  else if index < 0 ∨ index ≥ (s5.arrays arr_idx).size then
    some (eprintf s5
      ("Error: Array index ".toList ++ fmt_d index ++ " out of bounds for ".toList
        ++ [var_name] ++ "\n".toList))
  else
    match parse_expression fuel s5 with
    | none => none
    | some (v, s6) =>
      some { s6 with
        arrays := set_slot s6.arrays arr_idx
          { s6.arrays arr_idx with
            data := (s6.arrays arr_idx).data.set index.toNat v } }

/-- The value of an operand of PRINT: a string or an integer. -/
inductive PrintValue where
  | str (s : List Char)
  | num (v : Int)

/-- An operand of PRINT as it stands in the statement: `lead` blanks, the text `op` of the
operand, and the value the operand evaluates to. -/
structure PrintItem where
  lead : Nat
  op : List Char
  value : PrintValue

/-- The characters PRINT writes for an operand: the characters of a string, the signed
decimal numeral of an integer. -/
def item_output (it : PrintItem) : List Char :=
  match it.value with
  | PrintValue.str s => s
  | PrintValue.num v => fmt_d v

/-- The text of an operand with its leading blanks. -/
def item_text (it : PrintItem) : List Char := List.replicate it.lead ' ' ++ it.op

/-- The operand list of a PRINT statement: the operand texts separated by commas. -/
def print_text : List PrintItem → List Char
  | [] => []
  | [it] => item_text it
  | it :: it2 :: its => item_text it ++ ',' :: print_text (it2 :: its)

/-- The outputs of the operands, separated by single spaces. -/
def print_output : List PrintItem → List Char
  | [] => []
  | [it] => item_output it
  | it :: it2 :: its => item_output it ++ ' ' :: print_output (it2 :: its)

/-- The operand is well formed in the state `st`, whatever has been printed since: its text
starts with a character that is neither blank nor NUL, and in front of a comma or of the end
of the line, with fuel `g0` or more, a string operand is evaluated by
`parse_string_operand` to its value, while a numeric operand is refused by
`parse_string_operand` and evaluated by `parse_expression` to its value; either way nothing
but the cursor changes. -/
def well_formed_item (g0 : Nat) (st : Interp) (it : PrintItem) : Prop :=
  (∃ c cs, it.op = c :: cs ∧ isspace c = false ∧ c ≠ '\x00')
  ∧ ∀ (g : Nat) (out r : List Char), g0 ≤ g → (r = [] ∨ peek r = ',') →
    match it.value with
    | PrintValue.str s =>
      parse_string_operand g (set_pos (printf st out) (it.op ++ r))
        = some (some s, set_pos (printf st out) r)
    | PrintValue.num v =>
      (∃ p, parse_string_operand g (set_pos (printf st out) (it.op ++ r))
        = some (none, set_pos (printf st out) p))
      ∧ parse_expression g (set_pos (printf st out) (it.op ++ r))
        = some (v, set_pos (printf st out) r)

/-- The steps by which the interpreter state changes: the execution of the program line of
some index by `execute_line`, an assignment to `current_line_index` (as the run loop does
between two lines and `run_program` does at the start), the execution of a statement typed
at the prompt, the entry of a numbered line, and a whole run of the program bounded by
`steps` lines. -/
inductive Action where
  | line (line_index : Int)
  | set_index (k : Int)
  | immediate (input : List Char)
  | insert (line_number : Int) (text : List Char)
  | run (steps : Nat)

/-- The effect of one step, executed with the given fuel; `none` when the fuel runs out. -/
def apply_action : Nat × Action → Interp → Option Interp
  | (fuel, Action.line i), s => execute_line fuel i s
  | (_, Action.set_index k), s => some { s with current_line_index := k }
  | (fuel, Action.immediate input), s => execute_immediate fuel input s
  | (_, Action.insert n text), s => some (insert_line s n text)
  | (fuel, Action.run steps), s => run_program fuel steps s

/-- The effect of a sequence of steps, each with its own fuel. -/
def run_actions : List (Nat × Action) → Interp → Option Interp
  | [], s => some s
  | a :: as, s =>
    match apply_action a s with
    | none => none
    | some s1 => run_actions as s1

/-- A state with ten active FOR frames, none of them entered at line index 0. -/
def full_stack_example : Interp :=
  { init_interpreter [] with
    for_stack := fun _ => ⟨'I', 5, 1, 7⟩
    for_stack_ptr := 10 }

/-- The lines that `load_program` reads back unchanged: the number is an `int`, the text is
not empty, starts with no whitespace character and has no newline, and the line written by
`save_program`, without its newline, fits the line buffer of `load_program`. -/
def Loadable (l : ProgramLine) : Prop :=
  INT_MIN ≤ l.line_number ∧ l.line_number ≤ INT_MAX ∧ l.text ≠ []
    ∧ isspace (peek l.text) = false ∧ '\n' ∉ l.text
    ∧ (fmt_d l.line_number).length + 1 + l.text.length ≤ 255

/-- The state in which the program is the given one. -/
def with_program (P : List ProgramLine) : Interp := { init_interpreter [] with program := P }

@[simp] theorem peek_nil : peek [] = '\x00' := rfl
@[simp] theorem peek_cons (c : Char) (cs : List Char) : peek (c :: cs) = c := rfl
@[simp] theorem skip_ws_nil : skip_ws [] = [] := rfl
theorem skip_ws_cons (c : Char) (cs : List Char) :
    skip_ws (c :: cs) = if isspace c then skip_ws cs else c :: cs := rfl

@[simp] theorem set_pos_current_pos (s : Interp) (p : List Char) : (set_pos s p).current_pos = p := rfl
@[simp] theorem set_pos_set_pos (s : Interp) (p q : List Char) : set_pos (set_pos s p) q = set_pos s q := rfl
@[simp] theorem set_pos_program (s : Interp) (p : List Char) : (set_pos s p).program = s.program := rfl
@[simp] theorem set_pos_variables (s : Interp) (p : List Char) : (set_pos s p).variables = s.variables := rfl
@[simp] theorem set_pos_string_variables (s : Interp) (p : List Char) :
    (set_pos s p).string_variables = s.string_variables := rfl
@[simp] theorem set_pos_arrays (s : Interp) (p : List Char) : (set_pos s p).arrays = s.arrays := rfl
@[simp] theorem set_pos_for_stack (s : Interp) (p : List Char) : (set_pos s p).for_stack = s.for_stack := rfl
@[simp] theorem set_pos_for_stack_ptr (s : Interp) (p : List Char) :
    (set_pos s p).for_stack_ptr = s.for_stack_ptr := rfl
@[simp] theorem set_pos_current_line_index (s : Interp) (p : List Char) :
    (set_pos s p).current_line_index = s.current_line_index := rfl
@[simp] theorem set_pos_stdin (s : Interp) (p : List Char) : (set_pos s p).stdin = s.stdin := rfl
@[simp] theorem set_pos_stdout (s : Interp) (p : List Char) : (set_pos s p).stdout = s.stdout := rfl
@[simp] theorem set_pos_stderr (s : Interp) (p : List Char) : (set_pos s p).stderr = s.stderr := rfl
@[simp] theorem advance_set_pos (n : Nat) (s : Interp) (p : List Char) :
    advance n (set_pos s p) = set_pos s (p.drop n) := rfl
@[simp] theorem skip_whitespace_set_pos (s : Interp) (p : List Char) :
    skip_whitespace (set_pos s p) = set_pos s (skip_ws p) := rfl
@[simp] theorem printf_set_pos (s : Interp) (p t : List Char) :
    printf (set_pos s p) t = set_pos (printf s t) p := rfl
@[simp] theorem eprintf_set_pos (s : Interp) (p t : List Char) :
    eprintf (set_pos s p) t = set_pos (eprintf s t) p := rfl

/-! ## 32-bit wraparound -/

theorem wrap32_of_range (x : Int) (h : INT_MIN ≤ x ∧ x ≤ INT_MAX) : wrap32 x = x := by
  unfold INT_MIN INT_MAX at h
  unfold wrap32
  omega

theorem wrap32_step (a d : Int) : wrap32 (wrap32 a * 10 + d) = wrap32 (a * 10 + d) := by
  unfold wrap32
  omega

/-! ## Decimal numerals -/

theorem digitChar_isdigit (d : Nat) (h : d < 10) :
    isdigit (Nat.digitChar d) = true ∧ ((Nat.digitChar d).toNat : Int) - 48 = d := by
  interval_cases d <;> exact ⟨by decide, by decide⟩

theorem toDigitsCore_append (n : Nat) : ∀ (f1 f2 : Nat) (ds : List Char), n < f1 → n < f2 →
    Nat.toDigitsCore 10 f1 n ds = Nat.toDigitsCore 10 f2 n [] ++ ds := by
  induction n using Nat.strong_induction_on with
  | _ n ih =>
    intro f1 f2 ds h1 h2
    obtain ⟨k, rfl⟩ : ∃ k, f1 = k + 1 := ⟨f1 - 1, by omega⟩
    obtain ⟨j, rfl⟩ : ∃ j, f2 = j + 1 := ⟨f2 - 1, by omega⟩
    simp only [Nat.toDigitsCore]
    by_cases h0 : n / 10 = 0
    · simp [h0]
    · simp only [h0, if_false]
      have hlt : n / 10 < n := by omega
      rw [ih (n / 10) hlt k j _ (by omega) (by omega),
        ih (n / 10) hlt j j [Nat.digitChar (n % 10)] (by omega) (by omega)]
      simp

theorem toDigits_small (n : Nat) (h : n < 10) : Nat.toDigits 10 n = [Nat.digitChar n] := by
  have h0 : n / 10 = 0 := by omega
  have h1 : n % 10 = n := by omega
  simp [Nat.toDigits, Nat.toDigitsCore, h0, h1]

theorem toDigits_step (n : Nat) (h : 10 ≤ n) :
    Nat.toDigits 10 n = Nat.toDigits 10 (n / 10) ++ [Nat.digitChar (n % 10)] := by
  have h0 : ¬ n / 10 = 0 := by omega
  simp only [Nat.toDigits, Nat.toDigitsCore, h0, if_false]
  exact toDigitsCore_append (n / 10) n (n / 10 + 1) _ (by omega) (by omega)

theorem toDigits_head (n : Nat) :
    ∃ c t, Nat.toDigits 10 n = c :: t ∧ isdigit c = true := by
  induction n using Nat.strong_induction_on with
  | _ n ih =>
    by_cases h : n < 10
    · exact ⟨_, [], toDigits_small n h, (digitChar_isdigit n h).1⟩
    · obtain ⟨c, t, hc, hd⟩ := ih (n / 10) (by omega)
      exact ⟨c, t ++ [Nat.digitChar (n % 10)], by rw [toDigits_step n (by omega), hc]; rfl, hd⟩

theorem parse_digits_toDigits (n : Nat) : ∀ (r0 : Int) (rest : List Char),
    ∃ k : Nat, parse_digits (wrap32 r0) (Nat.toDigits 10 n ++ rest)
      = parse_digits (wrap32 (r0 * 10 ^ k + n)) rest := by
  induction n using Nat.strong_induction_on with
  | _ n ih =>
    intro r0 rest
    by_cases h : n < 10
    · refine ⟨1, ?_⟩
      obtain ⟨hd, hv⟩ := digitChar_isdigit n h
      rw [toDigits_small n h]
      simp only [List.singleton_append, parse_digits, hd, if_true, hv, wrap32_step, pow_one]
      rfl
    · obtain ⟨k, hk⟩ := ih (n / 10) (by omega) r0 (Nat.digitChar (n % 10) :: rest)
      obtain ⟨hd, hv⟩ := digitChar_isdigit (n % 10) (by omega)
      refine ⟨k + 1, ?_⟩
      rw [toDigits_step n (by omega), List.append_assoc, List.singleton_append, hk]
      simp only [parse_digits, hd, if_true, hv, wrap32_step]
      congr 2
      have : (n : Int) = (n / 10 : Nat) * 10 + (n % 10 : Nat) := by omega
      rw [pow_succ]
      push_cast at this ⊢
      linarith

theorem parse_digits_stop (r : Int) (rest : List Char) (h : isdigit (peek rest) = false) :
    parse_digits r rest = (r, rest) := by
  cases rest with
  | nil => rfl
  | cons c cs => simp only [peek_cons] at h; simp [parse_digits, h]

theorem parse_digits_nat (n : Nat) (rest : List Char) (h : isdigit (peek rest) = false) :
    parse_digits 0 (Nat.toDigits 10 n ++ rest) = (wrap32 n, rest) := by
  obtain ⟨k, hk⟩ := parse_digits_toDigits n 0 rest
  have h0 : wrap32 0 = 0 := by decide
  rw [h0] at hk
  rw [hk, parse_digits_stop _ _ h]
  simp

theorem isdigit_props (c : Char) (h : isdigit c = true) :
    isspace c = false ∧ isalpha c = false ∧ c ≠ '(' ∧ c ≠ '-' ∧ c ≠ '"' ∧ c ≠ '\x00' := by
  simp only [isdigit, Bool.and_eq_true, decide_eq_true_eq] at h
  refine ⟨?_, ?_, ?_, ?_, ?_, ?_⟩
  · simp only [isspace, Bool.or_eq_false_iff, decide_eq_false_iff_not]
    refine ⟨⟨⟨⟨⟨?_, ?_⟩, ?_⟩, ?_⟩, ?_⟩, ?_⟩ <;> rintro rfl <;> simp at h
  · simp only [isalpha, Bool.or_eq_false_iff, Bool.and_eq_false_iff, decide_eq_false_iff_not]
    omega
  all_goals rintro rfl; simp at h

theorem fmt_d_cases (v : Int) :
    (v < 0 ∧ ∃ c t, fmt_d v = '-' :: c :: t ∧ isdigit c = true
        ∧ c :: t = Nat.toDigits 10 (-v).toNat)
    ∨ (0 ≤ v ∧ ∃ c t, fmt_d v = c :: t ∧ isdigit c = true
        ∧ c :: t = Nat.toDigits 10 v.toNat) := by
  unfold fmt_d
  by_cases h : v < 0
  · obtain ⟨c, t, hc, hd⟩ := toDigits_head (-v).toNat
    exact Or.inl ⟨h, c, t, by simp [h, hc], hd, hc.symm⟩
  · obtain ⟨c, t, hc, hd⟩ := toDigits_head v.toNat
    exact Or.inr ⟨by omega, c, t, by simp [h, hc], hd, hc.symm⟩

theorem parse_factor_literal (fuel : Nat) (st : Interp) (v : Int) (rest : List Char)
    (hv : INT_MIN ≤ v ∧ v ≤ INT_MAX) (hr : isdigit (peek rest) = false) :
    parse_factor (fuel + 1) (set_pos st (fmt_d v ++ rest)) = some (v, set_pos st rest) := by
  unfold INT_MIN INT_MAX at hv
  rcases fmt_d_cases v with ⟨hneg, c, t, hf, hd, hn⟩ | ⟨hpos, c, t, hf, hd, hn⟩
  · have hp := parse_digits_nat (-v).toNat rest hr
    rw [← hn, List.cons_append] at hp
    have hm : isdigit '-' = false := by decide
    simp [parse_factor, hf, skip_ws_cons, hd, hm, isspace, isalpha, hp, advance]
    unfold wrap32; omega
  · have hp := parse_digits_nat v.toNat rest hr
    rw [← hn, List.cons_append] at hp
    obtain ⟨h1, h2, h3, h4, _⟩ := isdigit_props c hd
    simp [parse_factor, hf, skip_ws_cons, hd, h1, h2, h3, h4, hp]
    unfold wrap32; omega

theorem parse_factor_space (fuel : Nat) (st : Interp) (p : List Char) :
    parse_factor (fuel + 1) (set_pos st (' ' :: p)) = parse_factor (fuel + 1) (set_pos st p) := by
  simp only [parse_factor, skip_whitespace_set_pos, skip_ws_cons]
  rfl


@[simp] theorem printf_printf (s : Interp) (a b : List Char) :
    printf (printf s a) b = printf s (a ++ b) := by
  simp [printf]

theorem tolower_of_not_alpha (c : Char) (h : isalpha c = false) : tolower c = c := by
  simp only [isalpha, Bool.or_eq_false_iff, Bool.and_eq_false_iff, decide_eq_false_iff_not] at h
  have : ¬ (c.toNat ≥ 65 ∧ c.toNat ≤ 90) := by omega
  simp [tolower, Char.toLower, this]

theorem strncasecmp0_not_alpha (c : Char) (t kw : List Char) (h : isalpha c = false)
    (hk : isalpha (tolower (peek kw)) = true) : strncasecmp0 (c :: t) kw = false := by
  cases kw with
  | nil => simp [isalpha, tolower] at hk
  | cons k ks =>
    simp only [peek_cons] at hk
    have : tolower c ≠ tolower k := by
      rw [tolower_of_not_alpha c h]
      intro e
      rw [← e, h] at hk
      exact Bool.noConfusion hk
    simp [strncasecmp0, this]

theorem parse_string_operand_none (fuel : Nat) (st : Interp) (c : Char) (t : List Char)
    (h1 : isspace c = false) (h2 : isalpha c = false) (h3 : c ≠ '"') :
    parse_string_operand (fuel + 1) (set_pos st (c :: t)) = some (none, set_pos st (c :: t)) := by
  have k1 := strncasecmp0_not_alpha c t ['L', 'E', 'F', 'T', '$'] h2 (by decide)
  have k2 := strncasecmp0_not_alpha c t ['R', 'I', 'G', 'H', 'T', '$'] h2 (by decide)
  have k3 := strncasecmp0_not_alpha c t ['M', 'I', 'D', '$'] h2 (by decide)
  simp [parse_string_operand, skip_ws_cons, h1, h2, h3, k1, k2, k3]


theorem fmt_d_head (v : Int) :
    ∃ c t, fmt_d v = c :: t ∧ isspace c = false ∧ isalpha c = false ∧ c ≠ '"' ∧ c ≠ '\x00' := by
  rcases fmt_d_cases v with ⟨_, c, t, hf, _, _⟩ | ⟨_, c, t, hf, hd, _⟩
  · exact ⟨'-', c :: t, hf, by decide, by decide, by decide, by decide⟩
  · obtain ⟨h1, h2, _, _, h5, h6⟩ := isdigit_props c hd
    exact ⟨c, t, hf, h1, h2, h5, h6⟩

/-- PRINT of one numeric expression that fills the rest of the line. -/
theorem execute_print_numeric (fuel : Nat) (st : Interp) (c : Char) (t : List Char) (v : Int)
    (h1 : isspace c = false) (h2 : isalpha c = false) (h3 : c ≠ '"') (h4 : c ≠ '\x00')
    (he : parse_expression fuel (set_pos st (c :: t)) = some (v, set_pos st [])) :
    execute_print (fuel + 1) (set_pos st (' ' :: c :: t))
      = some (set_pos (printf st (fmt_d v ++ ['\n'])) []) := by
  obtain ⟨g, rfl⟩ : ∃ g, fuel = g + 1 := by
    cases fuel with
    | zero => simp [parse_expression] at he
    | succ g => exact ⟨g, rfl⟩
  have h5 : c ≠ '\n' := by
    rintro rfl
    simp [isspace] at h1
  have hs := parse_string_operand_none g st c t h1 h2 h3
  have sp : isspace ' ' = true := by decide
  simp [execute_print, execute_print_loop, skip_ws_cons, h1, h4, h5, hs, he, sp]

theorem parse_factor_literal_end (fuel : Nat) (st : Interp) (v : Int)
    (hv : INT_MIN ≤ v ∧ v ≤ INT_MAX) :
    parse_factor (fuel + 1) (set_pos st (fmt_d v)) = some (v, set_pos st []) := by
  have := parse_factor_literal fuel st v [] hv (by decide)
  simpa using this

theorem parse_factor_paren (fuel : Nat) (st : Interp) (p : List Char) :
    parse_factor (fuel + 1) (set_pos st ('(' :: p))
      = match parse_expression fuel (set_pos st p) with
        | none => none
        | some (result, s1) =>
          some (result, if peek (skip_whitespace s1).current_pos = ')'
            then advance 1 (skip_whitespace s1) else skip_whitespace s1) := by
  have sp : isspace '(' = false := by decide
  simp only [parse_factor, skip_whitespace_set_pos, skip_ws_cons, sp, peek_cons, if_true,
    advance_set_pos, List.drop_one, List.tail_cons, set_pos_current_pos, Bool.false_eq_true,
    if_false]

theorem execute_line_print (fuel : Nat) (st : Interp) (i : Int) (p : List Char)
    (h : line_text st i = 'P' :: 'R' :: 'I' :: 'N' :: 'T' :: p) :
    execute_line fuel i st = execute_print fuel (set_pos st p) := by
  have sp : isspace 'P' = false := by decide
  have k : strncasecmp0 ('P' :: 'R' :: 'I' :: 'N' :: 'T' :: p) ['P', 'R', 'I', 'N', 'T'] = true := by
    simp [strncasecmp0]
  simp [execute_line, h, skip_ws_cons, sp, k]

/-- C1: precedence.  For 32-bit integers `a`, `b`, `c` written as decimal literals,
`parse_expression` on the text `a + b * c` returns `a + (b * c)` and on the text
`(a + b) * c` returns `(a + b) * c`, provided the results and the intermediate results are in
the 32-bit range, and the program line `PRINT` followed by either text prints that value in
decimal, followed by a newline. -/
theorem C1_precedence (st : Interp) (a b c : Int) (fuel : Nat)
    (ha : INT_MIN ≤ a ∧ a ≤ INT_MAX) (hb : INT_MIN ≤ b ∧ b ≤ INT_MAX)
    (hc : INT_MIN ≤ c ∧ c ≤ INT_MAX) :
    ((INT_MIN ≤ b * c ∧ b * c ≤ INT_MAX) → (INT_MIN ≤ a + b * c ∧ a + b * c ≤ INT_MAX) →
      parse_expression (fuel + 8)
          (set_pos st (fmt_d a ++ " + ".toList ++ fmt_d b ++ " * ".toList ++ fmt_d c))
        = some (a + b * c, set_pos st [])
      ∧ ∀ i : Int,
        line_text st i
          = "PRINT ".toList ++ fmt_d a ++ " + ".toList ++ fmt_d b ++ " * ".toList ++ fmt_d c →
        execute_line (fuel + 9) i st
          = some (set_pos (printf st (fmt_d (a + b * c) ++ "\n".toList)) []))
    ∧ ((INT_MIN ≤ a + b ∧ a + b ≤ INT_MAX) → (INT_MIN ≤ (a + b) * c ∧ (a + b) * c ≤ INT_MAX) →
      parse_expression (fuel + 8)
          (set_pos st ("(".toList ++ fmt_d a ++ " + ".toList ++ fmt_d b ++ ") * ".toList
            ++ fmt_d c))
        = some ((a + b) * c, set_pos st [])
      ∧ ∀ i : Int,
        line_text st i
          = "PRINT (".toList ++ fmt_d a ++ " + ".toList ++ fmt_d b ++ ") * ".toList ++ fmt_d c →
        execute_line (fuel + 9) i st
          = some (set_pos (printf st (fmt_d ((a + b) * c) ++ "\n".toList)) [])) := by
  have d1 : isdigit ' ' = false := by decide
  have d2 : isdigit ')' = false := by decide
  constructor
  · intro h1 h2
    have e1 := wrap32_of_range _ h1
    have e2 := wrap32_of_range _ h2
    have hp : parse_expression (fuel + 8)
        (set_pos st (fmt_d a ++ " + ".toList ++ fmt_d b ++ " * ".toList ++ fmt_d c))
          = some (a + b * c, set_pos st []) := by
      simp [parse_expression, parse_term, parse_expression_loop, parse_term_loop,
        parse_factor_literal, parse_factor_literal_end, parse_factor_space, skip_ws_cons,
        isspace, ha, hb, hc, e1, e2, d1]
    refine ⟨hp, fun i hi => ?_⟩
    obtain ⟨x, t, hf, x1, x2, x3, x4⟩ := fmt_d_head a
    rw [execute_line_print (fuel + 9) st i
      (' ' :: (fmt_d a ++ " + ".toList ++ fmt_d b ++ " * ".toList ++ fmt_d c)) (by simp [hi])]
    simp only [hf, List.cons_append, List.append_assoc] at hp ⊢
    exact execute_print_numeric (fuel + 8) st x _ _ x1 x2 x3 x4 hp
  · intro h1 h2
    have e1 := wrap32_of_range _ h1
    have e2 := wrap32_of_range _ h2
    have hp : parse_expression (fuel + 8)
        (set_pos st ("(".toList ++ fmt_d a ++ " + ".toList ++ fmt_d b ++ ") * ".toList
            ++ fmt_d c)) = some ((a + b) * c, set_pos st []) := by
      simp [parse_expression, parse_term, parse_expression_loop, parse_term_loop,
        parse_factor_literal, parse_factor_literal_end, parse_factor_space, parse_factor_paren,
        skip_ws_cons, isspace, ha, hb, hc, e1, e2, d1, d2]
    refine ⟨hp, fun i hi => ?_⟩
    rw [execute_line_print (fuel + 9) st i
      (' ' :: ("(".toList ++ fmt_d a ++ " + ".toList ++ fmt_d b ++ ") * ".toList ++ fmt_d c))
      (by simp [hi])]
    simp only [String.toList, List.cons_append, List.append_assoc, List.nil_append,
      List.singleton_append] at hp ⊢
    exact execute_print_numeric (fuel + 8) st '(' _ _ (by decide) (by decide) (by decide)
      (by decide) hp

theorem C1_precedence_witness :
    parse_expression 8 (set_pos (init_interpreter []) "2 + 3 * 4".toList)
        = some (14, set_pos (init_interpreter []) [])
      ∧ parse_expression 8 (set_pos (init_interpreter []) "(2 + 3) * 4".toList)
        = some (20, set_pos (init_interpreter []) []) :=
  ⟨((C1_precedence (init_interpreter []) 2 3 4 0 (by decide) (by decide) (by decide)).1
      (by decide) (by decide)).1,
   ((C1_precedence (init_interpreter []) 2 3 4 0 (by decide) (by decide) (by decide)).2
      (by decide) (by decide)).1⟩

theorem isalpha_props (c : Char) (h : isalpha c = true) :
    isspace c = false ∧ isdigit c = false ∧ c ≠ '\x00' ∧ c ≠ '\n' ∧ c ≠ '"' ∧ c ≠ '$'
      ∧ c ≠ '(' ∧ c ≠ '[' ∧ c ≠ '=' ∧ c ≠ '-' := by
  simp only [isalpha, Bool.or_eq_true, Bool.and_eq_true, decide_eq_true_eq] at h
  refine ⟨?_, ?_, ?_, ?_, ?_, ?_, ?_, ?_, ?_, ?_⟩
  · simp only [isspace, Bool.or_eq_false_iff, decide_eq_false_iff_not]
    refine ⟨⟨⟨⟨⟨?_, ?_⟩, ?_⟩, ?_⟩, ?_⟩, ?_⟩ <;> rintro rfl <;> simp at h
  · simp only [isdigit, Bool.and_eq_false_iff, decide_eq_false_iff_not]
    omega
  all_goals rintro rfl; simp at h

/-- A decimal literal followed by text that continues neither the literal nor the
expression is parsed by `parse_expression` to its value. -/
theorem parse_expression_literal (fuel : Nat) (st : Interp) (v : Int) (rest : List Char)
    (hv : INT_MIN ≤ v ∧ v ≤ INT_MAX) (h1 : isdigit (peek rest) = false)
    (h2 : skip_ws rest = rest) (h3 : peek rest ≠ '+') (h4 : peek rest ≠ '-')
    (h5 : peek rest ≠ '*') (h6 : peek rest ≠ '/') :
    parse_expression (fuel + 3) (set_pos st (fmt_d v ++ rest)) = some (v, set_pos st rest) := by
  simp [parse_expression, parse_term, parse_expression_loop, parse_term_loop,
    parse_factor_literal, hv, h1, h2, h3, h4, h5, h6]

theorem parse_factor_space_any (fuel : Nat) (st : Interp) (p : List Char) :
    parse_factor fuel (set_pos st (' ' :: p)) = parse_factor fuel (set_pos st p) := by
  cases fuel with
  | zero => rfl
  | succ f => exact parse_factor_space f st p

theorem parse_expression_space (fuel : Nat) (st : Interp) (p : List Char) :
    parse_expression fuel (set_pos st (' ' :: p)) = parse_expression fuel (set_pos st p) := by
  cases fuel with
  | zero => rfl
  | succ f =>
    cases f with
    | zero => rfl
    | succ g => simp only [parse_expression, parse_term, parse_factor_space_any]

/-- The opening bracket of a subscript: `[` or `(`. -/
theorem bracket_cases (sq : Bool) :
    ((if sq then '[' else '(') = '[' ∧ (if sq then ']' else ')') = ']' ∧ sq = true)
    ∨ ((if sq then '[' else '(') = '(' ∧ (if sq then ']' else ')') = ')' ∧ sq = false) := by
  cases sq <;> simp

theorem strncasecmp0_second (c1 c2 k1 k2 : Char) (t ks : List Char)
    (h : tolower c2 ≠ tolower k2) : strncasecmp0 (c1 :: c2 :: t) (k1 :: k2 :: ks) = false := by
  simp [strncasecmp0, h]

/-- Evaluation of the factor `L[i]` (or `L(i)`) with a literal subscript. -/
theorem parse_factor_array (fuel : Nat) (st : Interp) (L : Char) (sq : Bool) (i : Int)
    (rest : List Char) (hL : isalpha L = true) (hi : INT_MIN ≤ i ∧ i ≤ INT_MAX) :
    parse_factor (fuel + 4)
        (set_pos st (L :: (if sq then '[' else '(') :: (fmt_d i ++ (if sq then ']' else ')') :: rest)))
      = if (st.arrays (var_index (toupper L))).allocated = false then
          some (0, eprintf (set_pos st rest)
            ("Error: Array ".toList ++ [toupper L] ++ " not dimensioned\n".toList))
        else if i < 0 ∨ i ≥ (st.arrays (var_index (toupper L))).size then
          some (0, eprintf (set_pos st rest)
            ("Error: Array index ".toList ++ fmt_d i ++ " out of bounds for ".toList
              ++ [toupper L] ++ "\n".toList))
        else some ((st.arrays (var_index (toupper L))).data.getD i.toNat 0, set_pos st rest) := by
  obtain ⟨a1, a2, a3, a4, a5, a6, a7, a8, a9, a10⟩ := isalpha_props L hL
  rcases bracket_cases sq with ⟨e1, e2, _⟩ | ⟨e1, e2, _⟩
  · rw [e1, e2]
    have k := strncasecmp0_second L '[' 'I' 'N' (fmt_d i ++ ']' :: rest) ['S', 'T', 'R'] (by decide)
    have hp := parse_expression_literal fuel st i (']' :: rest) hi rfl (by
      simp [skip_ws_cons, isspace]) (by simp) (by simp) (by simp) (by simp)
    have sp : isspace '[' = false := by decide
    have sp2 : isspace ']' = false := by decide
    simp [parse_factor, skip_ws_cons, a1, a7, hL, k, sp, sp2, hp]
  · rw [e1, e2]
    have k := strncasecmp0_second L '(' 'I' 'N' (fmt_d i ++ ')' :: rest) ['S', 'T', 'R'] (by decide)
    have hp := parse_expression_literal fuel st i (')' :: rest) hi rfl (by
      simp [skip_ws_cons, isspace]) (by simp) (by simp) (by simp) (by simp)
    have sp : isspace '(' = false := by decide
    have sp2 : isspace ')' = false := by decide
    simp [parse_factor, skip_ws_cons, a1, a7, hL, k, sp, sp2, hp]

/-- Symbolic execution of `DIM L[n]` (or `DIM L(n)`) with a literal size. -/
theorem execute_dim_literal (fuel : Nat) (st : Interp) (L : Char) (sq : Bool) (n : Int)
    (hL : isalpha L = true) (hn : INT_MIN ≤ n ∧ n ≤ INT_MAX) :
    execute_dim (fuel + 3)
        (set_pos st (' ' :: L :: (if sq then '[' else '(') :: (fmt_d n ++ [if sq then ']' else ')'])))
      = if (st.arrays (var_index (toupper L))).allocated = true then
          some (eprintf (set_pos st [])
            ("Error: Array ".toList ++ [toupper L] ++ " already dimensioned\n".toList))
        else if n ≤ 0 ∨ n > MAX_ARRAY_SIZE then
          some (eprintf (set_pos st [])
            ("Error: Invalid array size ".toList ++ fmt_d n ++ "\n".toList))
        else
          some { set_pos st [] with
            arrays := set_slot st.arrays (var_index (toupper L))
              { data := List.replicate n.toNat 0, size := n, allocated := true } } := by
  obtain ⟨a1, a2, a3, a4, a5, a6, a7, a8, a9, a10⟩ := isalpha_props L hL
  have s0 : isspace ' ' = true := by decide
  rcases bracket_cases sq with ⟨e1, e2, _⟩ | ⟨e1, e2, _⟩
  · rw [e1, e2]
    have hp := parse_expression_literal fuel st n [']'] hn rfl (by
      simp [skip_ws_cons, isspace]) (by simp) (by simp) (by simp) (by simp)
    have sp : isspace '[' = false := by decide
    have sp2 : isspace ']' = false := by decide
    simp [execute_dim, skip_ws_cons, s0, a1, hL, sp, sp2, hp]
  · rw [e1, e2]
    have hp := parse_expression_literal fuel st n [')'] hn rfl (by
      simp [skip_ws_cons, isspace]) (by simp) (by simp) (by simp) (by simp)
    have sp : isspace '(' = false := by decide
    have sp2 : isspace ')' = false := by decide
    simp [execute_dim, skip_ws_cons, s0, a1, hL, sp, sp2, hp]

/-- Symbolic execution of `LET L[i] = e` up to the bounds check, when the check fails. -/
theorem execute_let_array_bad (fuel : Nat) (st : Interp) (L : Char) (sq : Bool) (i : Int)
    (e : List Char) (hL : isalpha L = true) (hi : INT_MIN ≤ i ∧ i ≤ INT_MAX)
    (hbad : (st.arrays (var_index (toupper L))).allocated = false
      ∨ i < 0 ∨ i ≥ (st.arrays (var_index (toupper L))).size) :
    ∃ msg, execute_let (fuel + 3)
        (set_pos st (' ' :: L :: (if sq then '[' else '(')
          :: (fmt_d i ++ (if sq then ']' else ')') :: ' ' :: '=' :: e)))
      = some (eprintf (set_pos st e) msg) := by
  obtain ⟨a1, a2, a3, a4, a5, a6, a7, a8, a9, a10⟩ := isalpha_props L hL
  have s0 : isspace ' ' = true := by decide
  have s1 : isspace '=' = false := by decide
  rcases bracket_cases sq with ⟨e1, e2, _⟩ | ⟨e1, e2, _⟩
  · rw [e1, e2]
    have hp := parse_expression_literal fuel st i (']' :: ' ' :: '=' :: e) hi rfl (by
      simp [skip_ws_cons, isspace]) (by simp) (by simp) (by simp) (by simp)
    have sp : isspace '[' = false := by decide
    have sp2 : isspace ']' = false := by decide
    by_cases h1 : (st.arrays (var_index (toupper L))).allocated = false
    · exact ⟨"Error: Array ".toList ++ [toupper L] ++ " not dimensioned\n".toList, by
        simp [execute_let, skip_ws_cons, s0, s1, a1, a6, hL, sp, sp2, hp, h1]⟩
    · have h2 : i < 0 ∨ (st.arrays (var_index (toupper L))).size ≤ i := by tauto
      exact ⟨"Error: Array index ".toList ++ fmt_d i ++ " out of bounds for ".toList
              ++ [toupper L] ++ "\n".toList, by
        simp [execute_let, skip_ws_cons, s0, s1, a1, a6, hL, sp, sp2, hp, h1, h2]⟩
  · rw [e1, e2]
    have hp := parse_expression_literal fuel st i (')' :: ' ' :: '=' :: e) hi rfl (by
      simp [skip_ws_cons, isspace]) (by simp) (by simp) (by simp) (by simp)
    have sp : isspace '(' = false := by decide
    have sp2 : isspace ')' = false := by decide
    by_cases h1 : (st.arrays (var_index (toupper L))).allocated = false
    · exact ⟨"Error: Array ".toList ++ [toupper L] ++ " not dimensioned\n".toList, by
        simp [execute_let, skip_ws_cons, s0, s1, a1, a6, hL, sp, sp2, hp, h1]⟩
    · have h2 : i < 0 ∨ (st.arrays (var_index (toupper L))).size ≤ i := by tauto
      exact ⟨"Error: Array index ".toList ++ fmt_d i ++ " out of bounds for ".toList
              ++ [toupper L] ++ "\n".toList, by
        simp [execute_let, skip_ws_cons, s0, s1, a1, a6, hL, sp, sp2, hp, h1, h2]⟩

/-- Symbolic execution of `LET L[i] = x` with literal subscript and value, in bounds. -/
theorem execute_let_array_ok (fuel : Nat) (st : Interp) (L : Char) (sq : Bool) (i x : Int)
    (hL : isalpha L = true) (hi : INT_MIN ≤ i ∧ i ≤ INT_MAX) (hx : INT_MIN ≤ x ∧ x ≤ INT_MAX)
    (h1 : (st.arrays (var_index (toupper L))).allocated = true)
    (h2 : 0 ≤ i ∧ i < (st.arrays (var_index (toupper L))).size) :
    execute_let (fuel + 3)
        (set_pos st (' ' :: L :: (if sq then '[' else '(')
          :: (fmt_d i ++ (if sq then ']' else ')') :: ' ' :: '=' :: ' ' :: fmt_d x)))
      = some { set_pos st [] with
          arrays := set_slot st.arrays (var_index (toupper L))
            { st.arrays (var_index (toupper L)) with
              data := (st.arrays (var_index (toupper L))).data.set i.toNat x } } := by
  obtain ⟨a1, a2, a3, a4, a5, a6, a7, a8, a9, a10⟩ := isalpha_props L hL
  have s0 : isspace ' ' = true := by decide
  have s1 : isspace '=' = false := by decide
  have hq := parse_expression_literal fuel st x [] hx rfl rfl (by simp) (by simp) (by simp)
    (by simp)
  rw [List.append_nil, ← parse_expression_space] at hq
  have h3 : ¬ (i < 0 ∨ (st.arrays (var_index (toupper L))).size ≤ i) := by omega
  rcases bracket_cases sq with ⟨e1, e2, _⟩ | ⟨e1, e2, _⟩
  · rw [e1, e2]
    have hp := parse_expression_literal fuel st i (']' :: ' ' :: '=' :: ' ' :: fmt_d x) hi rfl (by
      simp [skip_ws_cons, isspace]) (by simp) (by simp) (by simp) (by simp)
    have sp : isspace '[' = false := by decide
    have sp2 : isspace ']' = false := by decide
    simp [execute_let, skip_ws_cons, s0, s1, a1, a6, hL, sp, sp2, hp, h1, h3, hq]
  · rw [e1, e2]
    have hp := parse_expression_literal fuel st i (')' :: ' ' :: '=' :: ' ' :: fmt_d x) hi rfl (by
      simp [skip_ws_cons, isspace]) (by simp) (by simp) (by simp) (by simp)
    have sp : isspace '(' = false := by decide
    have sp2 : isspace ')' = false := by decide
    simp [execute_let, skip_ws_cons, s0, s1, a1, a6, hL, sp, sp2, hp, h1, h3, hq]

theorem append_cons_ne (l t : List Char) (c : Char) : l ++ c :: t ≠ l := by
  intro h
  have := congrArg List.length h
  simp at this

/-- C6: `DIM` of letter `L` with a literal size `n` leaves no diagnostic if and only if `L`
is undimensioned and `1 ≤ n ≤ 1000`.  In that case `L` becomes an allocated array of size
`n` whose data are `n` zeros, and no other array changes.  Otherwise (letter already
dimensioned, `n ≤ 0` or `n > 1000`) a diagnostic is written and every array, including the
size and contents of `L`, is unchanged.  Numeric and string variables are unchanged in both
cases. -/
theorem C6_dim_succeeds_iff (st : Interp) (L : Char) (sq : Bool) (n : Int) (fuel : Nat)
    (hL : isalpha L = true) (hn : INT_MIN ≤ n ∧ n ≤ INT_MAX) :
    ∃ st', execute_dim (fuel + 3)
        (set_pos st (' ' :: L :: (if sq then '[' else '(')
          :: (fmt_d n ++ [if sq then ']' else ')']))) = some st'
      ∧ (st'.stderr = st.stderr
          ↔ ((st.arrays (var_index (toupper L))).allocated = false ∧ 1 ≤ n ∧ n ≤ 1000))
      ∧ (((st.arrays (var_index (toupper L))).allocated = false ∧ 1 ≤ n ∧ n ≤ 1000) →
          st'.arrays (var_index (toupper L))
              = { data := List.replicate n.toNat 0, size := n, allocated := true }
            ∧ ((List.replicate n.toNat (0 : Int)).length : Int) = n
            ∧ ∀ j, j ≠ var_index (toupper L) → st'.arrays j = st.arrays j)
      ∧ (¬ ((st.arrays (var_index (toupper L))).allocated = false ∧ 1 ≤ n ∧ n ≤ 1000) →
          st'.arrays = st.arrays)
      ∧ st'.variables = st.variables ∧ st'.string_variables = st.string_variables := by
  rw [execute_dim_literal fuel st L sq n hL hn]
  by_cases h1 : (st.arrays (var_index (toupper L))).allocated = true
  · rw [if_pos h1]
    refine ⟨_, rfl, ?_, ?_, ?_, rfl, rfl⟩
    · simp [eprintf, h1, append_cons_ne]
    · intro h; rw [h.1] at h1; exact Bool.noConfusion h1
    · intro _; rfl
  · rw [if_neg h1]
    have h1' : (st.arrays (var_index (toupper L))).allocated = false := by
      simpa using h1
    by_cases h2 : n ≤ 0 ∨ n > MAX_ARRAY_SIZE
    · rw [if_pos h2]
      have h3 : ¬ (1 ≤ n ∧ n ≤ 1000) := by
        unfold MAX_ARRAY_SIZE at h2; omega
      refine ⟨_, rfl, ?_, ?_, ?_, rfl, rfl⟩
      · simp [eprintf, h1', h3, append_cons_ne]
      · intro h; exact absurd h.2 h3
      · intro _; rfl
    · rw [if_neg h2]
      have h3 : 1 ≤ n ∧ n ≤ 1000 := by
        unfold MAX_ARRAY_SIZE at h2; omega
      refine ⟨_, rfl, ?_, ?_, ?_, rfl, rfl⟩
      · simp [h1', h3]
      · intro _
        refine ⟨by simp [set_slot], ?_, ?_⟩
        · simp; omega
        · intro j hj; simp [set_slot, hj]
      · intro h; exact absurd ⟨h1', h3⟩ h

theorem C6_dim_succeeds_iff_witness :
    ∃ st', execute_dim 3 (set_pos (init_interpreter []) " A(3)".toList) = some st'
      ∧ (st'.stderr = (init_interpreter []).stderr
          ↔ (((init_interpreter []).arrays (var_index (toupper 'A'))).allocated = false
              ∧ (1 : Int) ≤ 3 ∧ (3 : Int) ≤ 1000))
      ∧ ((((init_interpreter []).arrays (var_index (toupper 'A'))).allocated = false
            ∧ (1 : Int) ≤ 3 ∧ (3 : Int) ≤ 1000) →
          st'.arrays (var_index (toupper 'A'))
              = { data := List.replicate (3 : Int).toNat 0, size := 3, allocated := true }
            ∧ ((List.replicate (3 : Int).toNat (0 : Int)).length : Int) = 3
            ∧ ∀ j, j ≠ var_index (toupper 'A') → st'.arrays j = (init_interpreter []).arrays j)
      ∧ (¬ (((init_interpreter []).arrays (var_index (toupper 'A'))).allocated = false
            ∧ (1 : Int) ≤ 3 ∧ (3 : Int) ≤ 1000) →
          st'.arrays = (init_interpreter []).arrays)
      ∧ st'.variables = (init_interpreter []).variables
      ∧ st'.string_variables = (init_interpreter []).string_variables :=
  C6_dim_succeeds_iff (init_interpreter []) 'A' false 3 0 (by decide) (by decide)

/-- A factor that is the whole remaining text is also the value of the expression. -/
theorem parse_expression_of_factor (fuel : Nat) (s s1 : Interp) (v : Int)
    (hf : parse_factor fuel s = some (v, s1)) (hend : s1.current_pos = []) :
    parse_expression (fuel + 2) s = some (v, s1) := by
  have e : skip_whitespace s1 = s1 := by
    simp [skip_whitespace, hend]
    rw [← hend]
    rfl
  cases fuel with
  | zero => simp [parse_factor] at hf
  | succ g =>
    simp [parse_expression, parse_term, hf, parse_term_loop, parse_expression_loop, e, hend]

/-- C5: for a letter `L` and a literal subscript `i`, when `L` is undimensioned or `i < 0` or
`i ≥ size(L)`, the factor `L[i]` evaluates to `0` (also as a whole expression) and changes no
variable, string or array; and `LET L[i] = e`, for any text `e`, leaves every array, numeric
variable and string variable unchanged. -/
theorem C5_array_out_of_range (st : Interp) (L : Char) (sq : Bool) (i : Int)
    (rest e : List Char) (fuel : Nat) (hL : isalpha L = true)
    (hi : INT_MIN ≤ i ∧ i ≤ INT_MAX)
    (hbad : (st.arrays (var_index (toupper L))).allocated = false
      ∨ i < 0 ∨ i ≥ (st.arrays (var_index (toupper L))).size) :
    (∃ st', parse_factor (fuel + 4)
          (set_pos st (L :: (if sq then '[' else '(')
            :: (fmt_d i ++ (if sq then ']' else ')') :: rest))) = some (0, st')
        ∧ st'.current_pos = rest
        ∧ st'.arrays = st.arrays ∧ st'.variables = st.variables
        ∧ st'.string_variables = st.string_variables)
      ∧ (∃ st', parse_expression (fuel + 6)
          (set_pos st (L :: (if sq then '[' else '(')
            :: (fmt_d i ++ [if sq then ']' else ')']))) = some (0, st'))
      ∧ (∃ st', execute_let (fuel + 3)
          (set_pos st (' ' :: L :: (if sq then '[' else '(')
            :: (fmt_d i ++ (if sq then ']' else ')') :: ' ' :: '=' :: e))) = some st'
        ∧ st'.arrays = st.arrays ∧ st'.variables = st.variables
        ∧ st'.string_variables = st.string_variables) := by
  have key : ∀ (g : Nat) (r : List Char), ∃ msg, parse_factor (g + 4)
      (set_pos st (L :: (if sq then '[' else '(')
        :: (fmt_d i ++ (if sq then ']' else ')') :: r)))
      = some (0, eprintf (set_pos st r) msg) := by
    intro g r
    rw [parse_factor_array g st L sq i r hL hi]
    by_cases h1 : (st.arrays (var_index (toupper L))).allocated = false
    · exact ⟨_, by rw [if_pos h1]⟩
    · have h2 : i < 0 ∨ i ≥ (st.arrays (var_index (toupper L))).size := by tauto
      exact ⟨_, by rw [if_neg h1, if_pos h2]⟩
  refine ⟨?_, ?_, ?_⟩
  · obtain ⟨msg, h⟩ := key fuel rest
    exact ⟨_, h, rfl, rfl, rfl, rfl⟩
  · obtain ⟨msg, h⟩ := key fuel []
    exact ⟨_, parse_expression_of_factor (fuel + 4) _ _ 0 h rfl⟩
  · obtain ⟨msg, h⟩ := execute_let_array_bad fuel st L sq i e hL hi hbad
    exact ⟨_, h, rfl, rfl, rfl⟩

theorem C5_array_out_of_range_witness :
    (∃ st', parse_factor 4 (set_pos (init_interpreter []) "A[7]+1".toList) = some (0, st')
        ∧ st'.current_pos = "+1".toList
        ∧ st'.arrays = (init_interpreter []).arrays
        ∧ st'.variables = (init_interpreter []).variables
        ∧ st'.string_variables = (init_interpreter []).string_variables)
      ∧ (∃ st', parse_expression 6 (set_pos (init_interpreter []) "A[7]".toList)
          = some (0, st'))
      ∧ (∃ st', execute_let 3 (set_pos (init_interpreter []) " A[7] = 5".toList) = some st'
        ∧ st'.arrays = (init_interpreter []).arrays
        ∧ st'.variables = (init_interpreter []).variables
        ∧ st'.string_variables = (init_interpreter []).string_variables) :=
  C5_array_out_of_range (init_interpreter []) 'A' true 7 "+1".toList " 5".toList 0
    (by decide) (by decide) (Or.inl rfl)

theorem getD_set_replicate (n i j : Nat) (x : Int) (hi : i < n) :
    ((List.replicate n (0 : Int)).set i x).getD j 0 = if j = i then x else 0 := by
  rw [List.getD_eq_getElem?_getD, List.getElem?_set]
  by_cases h : i = j
  · subst h
    simp [hi]
  · have h' : ¬ j = i := fun e => h e.symm
    simp only [h, h', if_false]
    by_cases hj : j < n
    · simp [List.getElem?_replicate, hj]
    · simp [List.getElem?_replicate, hj]

/-- C4: for a letter `L` that is undimensioned, a size `1 ≤ n ≤ 1000`, an index `0 ≤ i < n`
and a 32-bit integer `x`: `DIM L[n]` followed by `LET L[i] = x` both run, after which the
factor `L[i]` evaluates to `x`, every other element `L[j]` (`0 ≤ j < n`, `j ≠ i`) evaluates
to `0`, as it did right after the DIM, and every other array is as it was before. -/
theorem C4_array_roundtrip (st : Interp) (L : Char) (sq1 sq2 sq3 : Bool) (n i x : Int)
    (fuel : Nat) (hL : isalpha L = true)
    (hfree : (st.arrays (var_index (toupper L))).allocated = false)
    (hn : 1 ≤ n ∧ n ≤ 1000) (hi : 0 ≤ i ∧ i < n) (hx : INT_MIN ≤ x ∧ x ≤ INT_MAX) :
    ∃ st1 st2,
      execute_dim (fuel + 4)
          (set_pos st (' ' :: L :: (if sq1 then '[' else '(')
            :: (fmt_d n ++ [if sq1 then ']' else ')']))) = some st1
      ∧ execute_let (fuel + 4)
          (set_pos st1 (' ' :: L :: (if sq2 then '[' else '(')
            :: (fmt_d i ++ (if sq2 then ']' else ')') :: ' ' :: '=' :: ' ' :: fmt_d x)))
          = some st2
      ∧ parse_factor (fuel + 4)
          (set_pos st2 (L :: (if sq3 then '[' else '(')
            :: (fmt_d i ++ [if sq3 then ']' else ')']))) = some (x, set_pos st2 [])
      ∧ (∀ j : Int, 0 ≤ j → j < n → j ≠ i →
          parse_factor (fuel + 4)
              (set_pos st1 (L :: (if sq3 then '[' else '(')
                :: (fmt_d j ++ [if sq3 then ']' else ')']))) = some (0, set_pos st1 [])
          ∧ parse_factor (fuel + 4)
              (set_pos st2 (L :: (if sq3 then '[' else '(')
                :: (fmt_d j ++ [if sq3 then ']' else ')']))) = some (0, set_pos st2 []))
      ∧ (∀ k, k ≠ var_index (toupper L) →
          st2.arrays k = st1.arrays k ∧ st1.arrays k = st.arrays k) := by
  have rn : INT_MIN ≤ n ∧ n ≤ INT_MAX := by unfold INT_MIN INT_MAX; omega
  have ri : INT_MIN ≤ i ∧ i ≤ INT_MAX := by unfold INT_MIN INT_MAX; omega
  have hd := execute_dim_literal (fuel + 1) st L sq1 n hL rn
  have hna : ¬ (st.arrays (var_index (toupper L))).allocated = true := by simp [hfree]
  have hns : ¬ (n ≤ 0 ∨ n > MAX_ARRAY_SIZE) := by unfold MAX_ARRAY_SIZE; omega
  rw [if_neg hna, if_neg hns] at hd
  have hl := execute_let_array_ok (fuel + 1)
    ({ set_pos st [] with
        arrays := set_slot st.arrays (var_index (toupper L))
          { data := List.replicate n.toNat 0, size := n, allocated := true } }) L sq2 i x hL ri hx
    (by simp [set_slot]) (by simp [set_slot]; omega)
  refine ⟨_, _, hd, hl, ?_, ?_, ?_⟩
  · rw [parse_factor_array fuel _ L sq3 i [] hL ri]
    have := getD_set_replicate n.toNat i.toNat i.toNat x (by omega)
    simp [set_slot, List.getD] at this ⊢
    have h3 : ¬ (i < 0 ∨ n ≤ i) := by omega
    simp [h3, this]
  · intro j hj0 hjn hji
    have rj : INT_MIN ≤ j ∧ j ≤ INT_MAX := by unfold INT_MIN INT_MAX; omega
    have h3 : ¬ (j < 0 ∨ n ≤ j) := by omega
    constructor
    · rw [parse_factor_array fuel _ L sq3 j [] hL rj]
      simp [set_slot, h3]
    · rw [parse_factor_array fuel _ L sq3 j [] hL rj]
      have := getD_set_replicate n.toNat i.toNat j.toNat x (by omega)
      have hne : j.toNat ≠ i.toNat := by omega
      simp [set_slot, List.getD, hne] at this ⊢
      simp [h3, this]
  · intro k hk
    simp [set_slot, hk]

theorem C4_array_roundtrip_witness :
    ∃ st1 st2,
      execute_dim 4 (set_pos (init_interpreter []) " A(3)".toList) = some st1
      ∧ execute_let 4 (set_pos st1 " A[1] = 20".toList) = some st2
      ∧ parse_factor 4 (set_pos st2 "A[1]".toList) = some (20, set_pos st2 [])
      ∧ (∀ j : Int, 0 ≤ j → j < 3 → j ≠ 1 →
          parse_factor 4 (set_pos st1 ('A' :: '[' :: (fmt_d j ++ [']']))) = some (0, set_pos st1 [])
          ∧ parse_factor 4 (set_pos st2 ('A' :: '[' :: (fmt_d j ++ [']'])))
            = some (0, set_pos st2 []))
      ∧ (∀ k, k ≠ var_index (toupper 'A') →
          st2.arrays k = st1.arrays k ∧ st1.arrays k = (init_interpreter []).arrays k) :=
  C4_array_roundtrip (init_interpreter []) 'A' false true true 3 1 20 0 (by decide) rfl
    (by decide) (by decide) (by decide)

/-! ## String operands -/

/-- A string variable `v$` as operand. -/
theorem parse_string_operand_var (fuel : Nat) (st : Interp) (v : Char) (rest : List Char)
    (hv : isalpha v = true) :
    parse_string_operand (fuel + 1) (set_pos st (v :: '$' :: rest))
      = some (some ((st.string_variables (var_index (toupper v))).getD []), set_pos st rest) := by
  obtain ⟨a1, a2, a3, a4, a5, a6, a7, a8, a9, a10⟩ := isalpha_props v hv
  have k1 := strncasecmp0_second v '$' 'L' 'E' rest ['F', 'T', '$'] (by decide)
  have k2 := strncasecmp0_second v '$' 'R' 'I' rest ['G', 'H', 'T', '$'] (by decide)
  have k3 := strncasecmp0_second v '$' 'M' 'I' rest ['D', '$'] (by decide)
  simp only [parse_string_operand, skip_whitespace_set_pos, skip_ws_cons, a1, set_pos_current_pos,
    peek_cons, a5, if_false, String.toList, k1, k2, k3, hv, if_true, advance_set_pos,
    List.drop_one, List.tail_cons, Bool.false_eq_true, set_pos_string_variables]
  cases st.string_variables (var_index (toupper v)) <;> rfl

theorem read_literal_loop_quote (s rest : List Char) :
    ∀ i : Nat, i + s.length ≤ 255 → (∀ c ∈ s, c ≠ '"' ∧ c ≠ '\x00') →
      read_literal_loop i (s ++ '"' :: rest) = (s, '"' :: rest) := by
  induction s with
  | nil => intro i _ _; simp [read_literal_loop]
  | cons c cs ih =>
    intro i hlen hc
    have h1 := hc c (by simp)
    have h2 : i < MAX_LINE_LENGTH - 1 := by
      simp only [List.length_cons] at hlen
      unfold MAX_LINE_LENGTH
      omega
    have h3 := ih (i + 1) (by simp only [List.length_cons] at hlen; omega)
      (fun d hd => hc d (by simp [hd]))
    simp [read_literal_loop, h1, h2, h3]

/-- A quoted literal as operand. -/
theorem parse_string_operand_literal (fuel : Nat) (st : Interp) (s rest : List Char)
    (hlen : s.length ≤ 255) (hc : ∀ c ∈ s, c ≠ '"' ∧ c ≠ '\x00') :
    parse_string_operand (fuel + 1) (set_pos st ('"' :: (s ++ '"' :: rest)))
      = some (some s, set_pos st rest) := by
  have sp : isspace '"' = false := by decide
  have h := read_literal_loop_quote s rest 0 (by omega) hc
  simp [parse_string_operand, read_string_literal, skip_ws_cons, sp, h]

/-- Evaluation of `LEFT$(op, n)` for an operand text `op` that evaluates to `s`. -/
theorem parse_left (g : Nat) (st : Interp) (op s rest : List Char) (n : Int)
    (hg : 3 ≤ g)
    (hop : ∀ r, parse_string_operand g (set_pos st (op ++ r)) = some (some s, set_pos st r))
    (hn : INT_MIN ≤ n ∧ n ≤ INT_MAX) :
    parse_string_operand (g + 1)
        (set_pos st ("LEFT$(".toList ++ op ++ ',' :: (fmt_d n ++ ')' :: rest)))
      = some (some (left_str s n), set_pos st rest) := by
  have hp : parse_expression g (set_pos st (fmt_d n ++ ')' :: rest))
      = some (n, set_pos st (')' :: rest)) := by
    obtain ⟨g', rfl⟩ : ∃ g', g = g' + 3 := ⟨g - 3, by omega⟩
    exact parse_expression_literal g' st n (')' :: rest) hn rfl (by
      simp [skip_ws_cons, isspace]) (by simp) (by simp) (by simp) (by simp)
  have k : ∀ t, strncasecmp0 ('L' :: 'E' :: 'F' :: 'T' :: '$' :: t) ['L', 'E', 'F', 'T', '$']
      = true := by
    intro t; simp [strncasecmp0]
  simp [parse_string_operand, skip_ws_cons, isspace, k, hop, hp]

/-- Evaluation of `RIGHT$(op, n)` for an operand text `op` that evaluates to `s`. -/
theorem parse_right (g : Nat) (st : Interp) (op s rest : List Char) (n : Int)
    (hg : 3 ≤ g)
    (hop : ∀ r, parse_string_operand g (set_pos st (op ++ r)) = some (some s, set_pos st r))
    (hn : INT_MIN ≤ n ∧ n ≤ INT_MAX) :
    parse_string_operand (g + 1)
        (set_pos st ("RIGHT$(".toList ++ op ++ ',' :: (fmt_d n ++ ')' :: rest)))
      = some (some (right_str s n), set_pos st rest) := by
  have hp : parse_expression g (set_pos st (fmt_d n ++ ')' :: rest))
      = some (n, set_pos st (')' :: rest)) := by
    obtain ⟨g', rfl⟩ : ∃ g', g = g' + 3 := ⟨g - 3, by omega⟩
    exact parse_expression_literal g' st n (')' :: rest) hn rfl (by
      simp [skip_ws_cons, isspace]) (by simp) (by simp) (by simp) (by simp)
  have k : ∀ t, strncasecmp0 ('R' :: 'I' :: 'G' :: 'H' :: 'T' :: '$' :: t)
      ['R', 'I', 'G', 'H', 'T', '$'] = true := by
    intro t; simp [strncasecmp0]
  have k1 : ∀ t, strncasecmp0 ('R' :: t) ['L', 'E', 'F', 'T', '$'] = false := by
    intro t; simp [strncasecmp0]; intro h; exact absurd h (by decide)
  simp [parse_string_operand, skip_ws_cons, isspace, k, k1, hop, hp]

/-- Evaluation of `MID$(op, start, n)` for an operand text `op` that evaluates to `s`. -/
theorem parse_mid (g : Nat) (st : Interp) (op s rest : List Char) (start n : Int)
    (hg : 3 ≤ g)
    (hop : ∀ r, parse_string_operand g (set_pos st (op ++ r)) = some (some s, set_pos st r))
    (hs : INT_MIN ≤ start ∧ start ≤ INT_MAX) (hn : INT_MIN ≤ n ∧ n ≤ INT_MAX) :
    parse_string_operand (g + 1)
        (set_pos st ("MID$(".toList ++ op ++ ',' :: (fmt_d start ++ ',' :: (fmt_d n ++ ')' :: rest))))
      = some (some (mid_str s start n), set_pos st rest) := by
  have hp : parse_expression g (set_pos st (fmt_d n ++ ')' :: rest))
      = some (n, set_pos st (')' :: rest)) := by
    obtain ⟨g', rfl⟩ : ∃ g', g = g' + 3 := ⟨g - 3, by omega⟩
    exact parse_expression_literal g' st n (')' :: rest) hn rfl (by
      simp [skip_ws_cons, isspace]) (by simp) (by simp) (by simp) (by simp)
  have hq : parse_expression g (set_pos st (fmt_d start ++ ',' :: (fmt_d n ++ ')' :: rest)))
      = some (start, set_pos st (',' :: (fmt_d n ++ ')' :: rest))) := by
    obtain ⟨g', rfl⟩ : ∃ g', g = g' + 3 := ⟨g - 3, by omega⟩
    exact parse_expression_literal g' st start (',' :: (fmt_d n ++ ')' :: rest)) hs rfl (by
      simp [skip_ws_cons, isspace]) (by simp) (by simp) (by simp) (by simp)
  have k : ∀ t, strncasecmp0 ('M' :: 'I' :: 'D' :: '$' :: t) ['M', 'I', 'D', '$'] = true := by
    intro t; simp [strncasecmp0]
  have k1 : ∀ t, strncasecmp0 ('M' :: t) ['L', 'E', 'F', 'T', '$'] = false := by
    intro t; simp [strncasecmp0]; intro h; exact absurd h (by decide)
  have k2 : ∀ t, strncasecmp0 ('M' :: t) ['R', 'I', 'G', 'H', 'T', '$'] = false := by
    intro t; simp [strncasecmp0]; intro h; exact absurd h (by decide)
  simp [parse_string_operand, skip_ws_cons, isspace, k, k1, k2, hop, hp, hq]

theorem clamp_eq (len n : Int) :
    (if (if n < 0 then 0 else n) > len then len else (if n < 0 then 0 else n))
      = min (max n 0) len := by
  split_ifs <;> omega

theorem left_str_eq (s : List Char) (n : Int) :
    left_str s n = s.take (min (max n 0) s.length).toNat := by
  unfold left_str
  simp only [clamp_eq]

theorem right_str_eq (s : List Char) (n : Int) :
    right_str s n = s.drop (s.length - (min (max n 0) s.length).toNat) := by
  unfold right_str
  simp only [clamp_eq]
  congr 1
  omega

theorem mid_str_eq (s : List Char) (start n : Int) :
    mid_str s start n
      = if max start 1 > (s.length : Int) then []
        else (s.drop (max start 1 - 1).toNat).take
          (min (max n 0) (s.length - (max start 1 - 1))).toNat := by
  unfold mid_str
  have e1 : (if start < 1 then 1 else start) = max start 1 := by
    split <;> omega
  simp only [e1]
  split
  · rfl
  · congr 1
    split <;> split <;> omega

/-- A string variable `v$` is an operand text that evaluates to the value of the variable. -/
theorem string_variable_operand (st : Interp) (v : Char) (s : List Char)
    (hv : isalpha v = true) (hs : st.string_variables (var_index (toupper v)) = some s) :
    ∀ (g : Nat) (r : List Char), 1 ≤ g →
      parse_string_operand g (set_pos st ([v, '$'] ++ r)) = some (some s, set_pos st r) := by
  intro g r hg
  obtain ⟨f, rfl⟩ : ∃ f, g = f + 1 := ⟨g - 1, by omega⟩
  have := parse_string_operand_var f st v r hv
  rw [hs] at this
  exact this

/-- A quoted literal without quote and NUL, of at most 255 characters, is an operand text
that evaluates to its contents. -/
theorem string_literal_operand (st : Interp) (s : List Char) (hlen : s.length ≤ 255)
    (hc : ∀ c ∈ s, c ≠ '"' ∧ c ≠ '\x00') :
    ∀ (g : Nat) (r : List Char), 1 ≤ g →
      parse_string_operand g (set_pos st (('"' :: (s ++ ['"'])) ++ r))
        = some (some s, set_pos st r) := by
  intro g r hg
  obtain ⟨f, rfl⟩ : ∃ f, g = f + 1 := ⟨g - 1, by omega⟩
  have := parse_string_operand_literal f st s r hlen hc
  simpa using this

/-- C8: for every operand text `op` that `parse_string_operand` evaluates to the string `s`
(a string variable, a quoted literal, ...) and every 32-bit integer `n` written as a literal,
`LEFT$(op, n)` is the first `min(max(n,0), len(s))` characters of `s` and `RIGHT$(op, n)` is
the last `min(max(n,0), len(s))` characters of `s`; in particular `RIGHT$(op, len(s))` is `s`
and `LEFT$(op, 0)` is empty. -/
theorem C8_left_right (st : Interp) (op s rest : List Char) (n : Int) (g0 fuel : Nat)
    (hop : ∀ (g : Nat) (r : List Char), g0 ≤ g →
      parse_string_operand g (set_pos st (op ++ r)) = some (some s, set_pos st r))
    (hn : INT_MIN ≤ n ∧ n ≤ INT_MAX) (hlen : (s.length : Int) ≤ INT_MAX) :
    parse_string_operand (g0 + fuel + 4)
        (set_pos st ("LEFT$(".toList ++ op ++ ",".toList ++ fmt_d n ++ ")".toList ++ rest))
      = some (some (s.take (min (max n 0) s.length).toNat), set_pos st rest)
    ∧ parse_string_operand (g0 + fuel + 4)
        (set_pos st ("RIGHT$(".toList ++ op ++ ",".toList ++ fmt_d n ++ ")".toList ++ rest))
      = some (some (s.drop (s.length - (min (max n 0) s.length).toNat)), set_pos st rest)
    ∧ (s.drop (s.length - (min (max n 0) s.length).toNat)).length
      = (min (max n 0) s.length).toNat
    ∧ parse_string_operand (g0 + fuel + 4)
        (set_pos st ("RIGHT$(".toList ++ op ++ ",".toList ++ fmt_d s.length ++ ")".toList
          ++ rest))
      = some (some s, set_pos st rest)
    ∧ parse_string_operand (g0 + fuel + 4)
        (set_pos st ("LEFT$(".toList ++ op ++ ",".toList ++ fmt_d 0 ++ ")".toList ++ rest))
      = some (some [], set_pos st rest) := by
  have hop' : ∀ r, parse_string_operand (g0 + fuel + 3) (set_pos st (op ++ r))
      = some (some s, set_pos st r) := fun r => hop _ r (by omega)
  have e : g0 + fuel + 4 = (g0 + fuel + 3) + 1 := rfl
  rw [e]
  have hl := fun m hm => parse_left (g0 + fuel + 3) st op s rest m (by omega) hop' hm
  have hr := fun m hm => parse_right (g0 + fuel + 3) st op s rest m (by omega) hop' hm
  have r0 : INT_MIN ≤ (0 : Int) ∧ (0 : Int) ≤ INT_MAX := by decide
  have rl : INT_MIN ≤ (s.length : Int) ∧ (s.length : Int) ≤ INT_MAX := by
    refine ⟨?_, hlen⟩
    unfold INT_MIN
    omega
  refine ⟨?_, ?_, ?_, ?_, ?_⟩
  · have := hl n hn
    rw [left_str_eq] at this
    simpa using this
  · have := hr n hn
    rw [right_str_eq] at this
    simpa using this
  · simp
    omega
  · have := hr s.length rl
    rw [right_str_eq] at this
    simpa using this
  · have := hl 0 r0
    rw [left_str_eq] at this
    simpa using this

theorem C8_left_right_witness :
    parse_string_operand 5
        (set_pos (init_interpreter [])
          ("LEFT$(".toList ++ ('"' :: ("HELLO".toList ++ ['"'])) ++ ",2)".toList))
      = some (some "HE".toList, set_pos (init_interpreter []) [])
    ∧ parse_string_operand 5
        (set_pos (init_interpreter [])
          ("RIGHT$(".toList ++ ('"' :: ("HELLO".toList ++ ['"'])) ++ ",2)".toList))
      = some (some "LO".toList, set_pos (init_interpreter []) []) :=
  ⟨(C8_left_right (init_interpreter []) ('"' :: ("HELLO".toList ++ ['"'])) "HELLO".toList [] 2
      1 0 (string_literal_operand (init_interpreter []) "HELLO".toList (by decide) (by decide))
      (by decide) (by decide)).1,
   (C8_left_right (init_interpreter []) ('"' :: ("HELLO".toList ++ ['"'])) "HELLO".toList [] 2
      1 0 (string_literal_operand (init_interpreter []) "HELLO".toList (by decide) (by decide))
      (by decide) (by decide)).2.1⟩

/-- C9: for every operand text `op` that `parse_string_operand` evaluates to the string `s`
and all 32-bit integers `start` and `n` written as literals, `MID$(op, start, n)` is, with
`p = max(start, 1)`, empty if `p > len(s)` and otherwise the `min(max(n,0), len(s) - (p-1))`
characters of `s` from 0-based offset `p-1`; in particular `MID$(op, len(s)+1, 1)` is empty
and a start below 1 gives the same result as start 1. -/
theorem C9_mid (st : Interp) (op s rest : List Char) (start n : Int) (g0 fuel : Nat)
    (hop : ∀ (g : Nat) (r : List Char), g0 ≤ g →
      parse_string_operand g (set_pos st (op ++ r)) = some (some s, set_pos st r))
    (hstart : INT_MIN ≤ start ∧ start ≤ INT_MAX) (hn : INT_MIN ≤ n ∧ n ≤ INT_MAX)
    (hlen : (s.length : Int) < INT_MAX) :
    parse_string_operand (g0 + fuel + 4)
        (set_pos st ("MID$(".toList ++ op ++ ",".toList ++ fmt_d start ++ ",".toList
          ++ fmt_d n ++ ")".toList ++ rest))
      = some (some (if max start 1 > (s.length : Int) then []
          else (s.drop (max start 1 - 1).toNat).take
            (min (max n 0) (s.length - (max start 1 - 1))).toNat), set_pos st rest)
    ∧ parse_string_operand (g0 + fuel + 4)
        (set_pos st ("MID$(".toList ++ op ++ ",".toList ++ fmt_d (s.length + 1) ++ ",".toList
          ++ fmt_d 1 ++ ")".toList ++ rest))
      = some (some [], set_pos st rest)
    ∧ (start < 1 →
        parse_string_operand (g0 + fuel + 4)
          (set_pos st ("MID$(".toList ++ op ++ ",".toList ++ fmt_d start ++ ",".toList
            ++ fmt_d n ++ ")".toList ++ rest))
        = parse_string_operand (g0 + fuel + 4)
          (set_pos st ("MID$(".toList ++ op ++ ",".toList ++ fmt_d 1 ++ ",".toList
            ++ fmt_d n ++ ")".toList ++ rest))) := by
  have hop' : ∀ r, parse_string_operand (g0 + fuel + 3) (set_pos st (op ++ r))
      = some (some s, set_pos st r) := fun r => hop _ r (by omega)
  have e : g0 + fuel + 4 = (g0 + fuel + 3) + 1 := rfl
  rw [e]
  have hm := fun a b ha hb => parse_mid (g0 + fuel + 3) st op s rest a b (by omega) hop' ha hb
  have r1 : INT_MIN ≤ (1 : Int) ∧ (1 : Int) ≤ INT_MAX := by decide
  have rl : INT_MIN ≤ (s.length : Int) + 1 ∧ (s.length : Int) + 1 ≤ INT_MAX := by
    unfold INT_MIN INT_MAX at *
    omega
  have h1 := hm start n hstart hn
  have h2 := hm (s.length + 1) 1 rl r1
  have h3 := hm 1 n r1 hn
  rw [mid_str_eq] at h1 h2 h3
  have e2 : max ((s.length : Int) + 1) 1 > s.length := by omega
  rw [if_pos e2] at h2
  refine ⟨by simpa using h1, by simpa using h2, ?_⟩
  intro hlt
  have e3 : max start 1 = max (1 : Int) 1 := by omega
  rw [e3] at h1
  have h4 := h1.trans h3.symm
  simpa using h4

theorem C9_mid_witness :
    parse_string_operand 5
        (set_pos (init_interpreter [])
          ("MID$(".toList ++ ('"' :: ("HELLO".toList ++ ['"'])) ++ ",2,3)".toList))
      = some (some "ELL".toList, set_pos (init_interpreter []) [])
    ∧ parse_string_operand 5
        (set_pos (init_interpreter [])
          ("MID$(".toList ++ ('"' :: ("HELLO".toList ++ ['"'])) ++ ",6,1)".toList))
      = some (some [], set_pos (init_interpreter []) []) :=
  ⟨(C9_mid (init_interpreter []) ('"' :: ("HELLO".toList ++ ['"'])) "HELLO".toList [] 2 3 1 0
      (string_literal_operand (init_interpreter []) "HELLO".toList (by decide) (by decide))
      (by decide) (by decide) (by decide)).1,
   (C9_mid (init_interpreter []) ('"' :: ("HELLO".toList ++ ['"'])) "HELLO".toList [] 2 3 1 0
      (string_literal_operand (init_interpreter []) "HELLO".toList (by decide) (by decide))
      (by decide) (by decide) (by decide)).2.1⟩

/-- C7: for every operand text `op` that `parse_string_operand` evaluates to the string `s`
(a string variable, a quoted literal without NUL and double quote, ...) and every integer
`0 ≤ k ≤ len(s)`, the results of `LEFT$(op, k)` and of `MID$(op, k+1, len(s)-k)`, as computed
by `parse_string_operand`, concatenate to `s`. -/
theorem C7_left_mid_concat (st : Interp) (op s rest : List Char) (k : Int) (g0 fuel : Nat)
    (hop : ∀ (g : Nat) (r : List Char), g0 ≤ g →
      parse_string_operand g (set_pos st (op ++ r)) = some (some s, set_pos st r))
    (hk : 0 ≤ k ∧ k ≤ s.length) (hlen : (s.length : Int) < INT_MAX) :
    ∃ l m,
      parse_string_operand (g0 + fuel + 4)
          (set_pos st ("LEFT$(".toList ++ op ++ ",".toList ++ fmt_d k ++ ")".toList ++ rest))
        = some (some l, set_pos st rest)
      ∧ parse_string_operand (g0 + fuel + 4)
          (set_pos st ("MID$(".toList ++ op ++ ",".toList ++ fmt_d (k + 1) ++ ",".toList
            ++ fmt_d (s.length - k) ++ ")".toList ++ rest))
        = some (some m, set_pos st rest)
      ∧ l ++ m = s := by
  have hop' : ∀ r, parse_string_operand (g0 + fuel + 3) (set_pos st (op ++ r))
      = some (some s, set_pos st r) := fun r => hop _ r (by omega)
  have e : g0 + fuel + 4 = (g0 + fuel + 3) + 1 := rfl
  rw [e]
  have rk : INT_MIN ≤ k ∧ k ≤ INT_MAX := by unfold INT_MIN INT_MAX at *; omega
  have rk1 : INT_MIN ≤ k + 1 ∧ k + 1 ≤ INT_MAX := by unfold INT_MIN INT_MAX at *; omega
  have rd : INT_MIN ≤ (s.length : Int) - k ∧ (s.length : Int) - k ≤ INT_MAX := by
    unfold INT_MIN INT_MAX at *; omega
  have h1 := parse_left (g0 + fuel + 3) st op s rest k (by omega) hop' rk
  have h2 := parse_mid (g0 + fuel + 3) st op s rest (k + 1) (s.length - k) (by omega) hop' rk1 rd
  refine ⟨_, _, by simpa using h1, by simpa using h2, ?_⟩
  rw [left_str_eq, mid_str_eq]
  have e1 : (min (max k 0) (s.length : Int)).toNat = k.toNat := by omega
  rw [e1]
  by_cases hend : k = s.length
  · have : max (k + 1) 1 > (s.length : Int) := by omega
    rw [if_pos this]
    have : k.toNat = s.length := by omega
    simp [this]
  · have : ¬ max (k + 1) 1 > (s.length : Int) := by omega
    rw [if_neg this]
    have e2 : (max (k + 1) 1 - 1).toNat = k.toNat := by omega
    have e3 : (min (max ((s.length : Int) - k) 0) (s.length - (max (k + 1) 1 - 1))).toNat
        = s.length - k.toNat := by omega
    rw [e2, e3]
    have : List.take (s.length - k.toNat) (List.drop k.toNat s) = List.drop k.toNat s := by
      apply List.take_of_length_le
      simp
    rw [this, List.take_append_drop]

theorem C7_left_mid_concat_witness :
    ∃ l m,
      parse_string_operand 5
          (set_pos (init_interpreter [])
            ("LEFT$(".toList ++ ('"' :: ("HELLO".toList ++ ['"'])) ++ ",2)".toList))
        = some (some l, set_pos (init_interpreter []) [])
      ∧ parse_string_operand 5
          (set_pos (init_interpreter [])
            ("MID$(".toList ++ ('"' :: ("HELLO".toList ++ ['"'])) ++ ",3,3)".toList))
        = some (some m, set_pos (init_interpreter []) [])
      ∧ l ++ m = "HELLO".toList :=
  C7_left_mid_concat (init_interpreter []) ('"' :: ("HELLO".toList ++ ['"'])) "HELLO".toList [] 2
    1 0 (string_literal_operand (init_interpreter []) "HELLO".toList (by decide) (by decide))
    (by decide) (by decide)

/-! ## `strstr` -/

theorem starts_with_iff (h n : List Char) : starts_with h n = true ↔ n <+: h := by
  induction n generalizing h with
  | nil => simp [starts_with]
  | cons k ks ih =>
    cases h with
    | nil => simp [starts_with]
    | cons c cs =>
      simp only [starts_with, Bool.and_eq_true, decide_eq_true_eq, ih, List.cons_prefix_cons]
      constructor
      · rintro ⟨rfl, h⟩; exact ⟨rfl, h⟩
      · rintro ⟨rfl, h⟩; exact ⟨rfl, h⟩

/-- What `strstr` computes: the result is the least offset at which the needle starts. -/
theorem strstr_from_spec (n : List Char) : ∀ (h : List Char) (off : Nat),
    (∀ r, strstr_from n h off = some r →
        off ≤ r ∧ r - off ≤ h.length ∧ n <+: h.drop (r - off)
          ∧ ∀ j, j < r - off → ¬ n <+: h.drop j)
      ∧ (strstr_from n h off = none → ∀ j, ¬ n <+: h.drop j) := by
  intro h
  induction h with
  | nil =>
    intro off
    by_cases hn : n = []
    · subst hn
      simp [strstr_from]
    · simp [strstr_from, hn]
  | cons c cs ih =>
    intro off
    by_cases hs : starts_with (c :: cs) n = true
    · have hp := (starts_with_iff _ _).1 hs
      simp only [strstr_from, hs, if_true, Option.some.injEq, reduceCtorEq, false_implies,
        and_true]
      rintro r rfl
      simp [hp]
    · have hp : ¬ n <+: c :: cs := fun e => hs ((starts_with_iff _ _).2 e)
      obtain ⟨ih1, ih2⟩ := ih (off + 1)
      simp only [strstr_from, hs, if_false, Bool.false_eq_true]
      constructor
      · intro r hr
        obtain ⟨h1, h2, h3, h4⟩ := ih1 r hr
        have e : r - off = (r - (off + 1)) + 1 := by omega
        refine ⟨by omega, by simp only [List.length_cons]; omega, ?_, ?_⟩
        · rw [e, List.drop_succ_cons]; exact h3
        · intro j hj
          cases j with
          | zero => simpa using hp
          | succ j =>
            rw [List.drop_succ_cons]
            exact h4 j (by omega)
      · intro hnone j
        cases j with
        | zero => simpa using hp
        | succ j =>
          rw [List.drop_succ_cons]
          exact ih2 hnone j

theorem infix_iff_prefix_drop (n h : List Char) : n <:+: h ↔ ∃ j, n <+: h.drop j := by
  constructor
  · rintro ⟨a, b, rfl⟩
    exact ⟨a.length, by simp⟩
  · rintro ⟨j, hj⟩
    exact hj.isInfix.trans (List.drop_suffix j h).isInfix

theorem prefix_iff_take (n l : List Char) : n <+: l ↔ l.take n.length = n := by
  constructor
  · intro h; exact (List.prefix_iff_eq_take.1 h).symm
  · intro h; rw [← h]; exact List.take_prefix _ _

/-- Evaluation of `INSTR(op1, op2)` for operand texts that evaluate to `s` and `t`. -/
theorem parse_instr (g : Nat) (st : Interp) (op1 op2 s t rest : List Char)
    (hop1 : ∀ r, parse_string_operand g (set_pos st (op1 ++ r)) = some (some s, set_pos st r))
    (hop2 : ∀ r, parse_string_operand g (set_pos st (op2 ++ r)) = some (some t, set_pos st r)) :
    parse_factor (g + 1) (set_pos st ("INSTR(".toList ++ op1 ++ ',' :: (op2 ++ ')' :: rest)))
      = some (instr_result (some s) (some t), set_pos st rest) := by
  have k : ∀ u, strncasecmp0 ('I' :: 'N' :: 'S' :: 'T' :: 'R' :: u) ['I', 'N', 'S', 'T', 'R']
      = true := by
    intro u; simp [strncasecmp0]
  have a : isalpha 'I' = true := by decide
  simp [parse_factor, skip_ws_cons, isspace, k, a, hop1, hop2]

/-- C10: for all operand texts `op1` and `op2` that `parse_string_operand` evaluates to the
strings `s` and `t`, `INSTR(op1, op2)` evaluated by `parse_factor` is `0` if and only if `t`
is not a contiguous substring of `s`; otherwise it is the least 1-based position at which
`t` occurs in `s`, and `MID$(op1, INSTR(op1,op2), len(t))` evaluates to `t`. -/
theorem C10_instr (st : Interp) (op1 op2 s t rest : List Char) (g0 fuel : Nat)
    (hop1 : ∀ (g : Nat) (r : List Char), g0 ≤ g →
      parse_string_operand g (set_pos st (op1 ++ r)) = some (some s, set_pos st r))
    (hop2 : ∀ (g : Nat) (r : List Char), g0 ≤ g →
      parse_string_operand g (set_pos st (op2 ++ r)) = some (some t, set_pos st r))
    (hlen : (s.length : Int) < INT_MAX) :
    ∃ r : Int,
      parse_factor (g0 + fuel + 1)
          (set_pos st ("INSTR(".toList ++ op1 ++ ",".toList ++ op2 ++ ")".toList ++ rest))
        = some (r, set_pos st rest)
      ∧ (r = 0 ↔ ¬ t <:+: s)
      ∧ (t <:+: s →
          1 ≤ r
          ∧ (s.drop (r - 1).toNat).take t.length = t
          ∧ (∀ j : Nat, (j : Int) < r - 1 → (s.drop j).take t.length ≠ t)
          ∧ parse_string_operand (g0 + fuel + 4)
              (set_pos st ("MID$(".toList ++ op1 ++ ",".toList ++ fmt_d r ++ ",".toList
                ++ fmt_d t.length ++ ")".toList ++ rest))
            = some (some t, set_pos st rest)) := by
  have hp := parse_instr (g0 + fuel) st op1 op2 s t rest
    (fun r => hop1 _ r (by omega)) (fun r => hop2 _ r (by omega))
  have hop' : ∀ r, parse_string_operand (g0 + fuel + 3) (set_pos st (op1 ++ r))
      = some (some s, set_pos st r) := fun r => hop1 _ r (by omega)
  have e : g0 + fuel + 4 = (g0 + fuel + 3) + 1 := rfl
  rw [e]
  obtain ⟨sp1, sp2⟩ := strstr_from_spec t s 0
  refine ⟨_, by simpa using hp, ?_, ?_⟩
  · cases hr : strstr s t with
    | none =>
      have := sp2 hr
      simp only [instr_result, hr, true_iff]
      intro hin
      obtain ⟨j, hj⟩ := (infix_iff_prefix_drop t s).1 hin
      exact this j hj
    | some off =>
      obtain ⟨_, h2, h3, _⟩ := sp1 off hr
      have hin : t <:+: s := (infix_iff_prefix_drop t s).2 ⟨_, h3⟩
      simp only [instr_result, hr, hin, not_true_eq_false, iff_false]
      unfold wrap32 INT_MAX at *
      omega
  · intro hin
    cases hr : strstr s t with
    | none =>
      obtain ⟨j, hj⟩ := (infix_iff_prefix_drop t s).1 hin
      exact absurd hj (sp2 hr j)
    | some off =>
      obtain ⟨_, h2, h3, h4⟩ := sp1 off hr
      simp only [Nat.sub_zero] at h2 h3 h4
      have hw32 : wrap32 ((off : Int) + 1) = off + 1 := by
        unfold wrap32 INT_MAX at *
        omega
      have hle : t.length + off ≤ s.length := by
        have := h3.length_le
        simp at this
        omega
      simp only [instr_result, hr, hw32]
      have e0 : ((off : Int) + 1 - 1).toNat = off := by omega
      refine ⟨by omega, ?_, ?_, ?_⟩
      · rw [e0]; exact (prefix_iff_take _ _).1 h3
      · intro j hj hEq
        exact h4 j (by omega) ((prefix_iff_take _ _).2 hEq)
      · have r1 : INT_MIN ≤ (off : Int) + 1 ∧ (off : Int) + 1 ≤ INT_MAX := by
          unfold INT_MIN INT_MAX at *; omega
        have r2 : INT_MIN ≤ (t.length : Int) ∧ (t.length : Int) ≤ INT_MAX := by
          unfold INT_MIN INT_MAX at *; omega
        have hm := parse_mid (g0 + fuel + 3) st op1 s rest (off + 1) t.length (by omega)
          hop' r1 r2
        have hval : mid_str s (off + 1) t.length = t := by
          rw [mid_str_eq]
          by_cases hend : max ((off : Int) + 1) 1 > s.length
          · rw [if_pos hend]
            have : t.length = 0 := by omega
            exact (List.length_eq_zero.1 this).symm
          · rw [if_neg hend]
            have e1 : (max ((off : Int) + 1) 1 - 1).toNat = off := by omega
            have e2 : (min (max (t.length : Int) 0) (s.length - (max ((off : Int) + 1) 1 - 1))).toNat
                = t.length := by omega
            rw [e1, e2]
            exact (prefix_iff_take _ _).1 h3
        rw [hval] at hm
        simpa using hm

theorem C10_instr_witness :
    ∃ r : Int,
      parse_factor 2
          (set_pos (init_interpreter [])
            ("INSTR(".toList ++ ('"' :: ("HELLO".toList ++ ['"'])) ++ ",".toList
              ++ ('"' :: ("LL".toList ++ ['"'])) ++ ")".toList ++ []))
        = some (r, set_pos (init_interpreter []) [])
      ∧ (r = 0 ↔ ¬ "LL".toList <:+: "HELLO".toList)
      ∧ ("LL".toList <:+: "HELLO".toList →
          1 ≤ r
          ∧ ("HELLO".toList.drop (r - 1).toNat).take "LL".toList.length = "LL".toList
          ∧ (∀ j : Nat, (j : Int) < r - 1 →
              ("HELLO".toList.drop j).take "LL".toList.length ≠ "LL".toList)
          ∧ parse_string_operand 5
              (set_pos (init_interpreter [])
                ("MID$(".toList ++ ('"' :: ("HELLO".toList ++ ['"'])) ++ ",".toList ++ fmt_d r
                  ++ ",".toList ++ fmt_d "LL".toList.length ++ ")".toList ++ []))
            = some (some "LL".toList, set_pos (init_interpreter []) [])) :=
  C10_instr (init_interpreter []) ('"' :: ("HELLO".toList ++ ['"']))
    ('"' :: ("LL".toList ++ ['"'])) "HELLO".toList "LL".toList [] 1 0
    (string_literal_operand (init_interpreter []) "HELLO".toList (by decide) (by decide))
    (string_literal_operand (init_interpreter []) "LL".toList (by decide) (by decide))
    (by decide)

/-! ## The run loop -/

theorem run_steps_append (fuel : Nat) : ∀ (t1 t2 : Nat) (s s1 s2 : Interp) (tr1 tr2 : List Int),
    run_steps fuel t1 s = some (tr1, s1) → run_steps fuel t2 s1 = some (tr2, s2) →
    run_steps fuel (t1 + t2) s = some (tr1 ++ tr2, s2) := by
  intro t1
  induction t1 with
  | zero =>
    intro t2 s s1 s2 tr1 tr2 h1 h2
    simp only [run_steps, Option.some.injEq, Prod.mk.injEq] at h1
    obtain ⟨rfl, rfl⟩ := h1
    simpa using h2
  | succ t ih =>
    intro t2 s s1 s2 tr1 tr2 h1 h2
    rw [show t + 1 + t2 = (t + t2) + 1 by omega]
    simp only [run_steps] at h1 ⊢
    split at h1
    · rename_i hlt
      rw [if_pos hlt]
      cases he : execute_line fuel s.current_line_index s with
      | none => simp [he] at h1
      | some sa =>
        simp only [he] at h1 ⊢
        cases hr : run_steps fuel t { sa with current_line_index := sa.current_line_index + 1 } with
        | none => simp [hr] at h1
        | some r =>
          obtain ⟨tr, sb⟩ := r
          simp only [hr, Option.some.injEq, Prod.mk.injEq] at h1
          obtain ⟨rfl, rfl⟩ := h1
          rw [ih t2 _ _ _ _ _ hr h2]
          simp
    · simp at h1

theorem run_loop_of_steps (fuel : Nat) : ∀ (t r : Nat) (s s1 : Interp) (tr : List Int),
    run_steps fuel t s = some (tr, s1) → run_loop fuel (t + r) s = run_loop fuel r s1 := by
  intro t
  induction t with
  | zero =>
    intro r s s1 tr h
    simp only [run_steps, Option.some.injEq, Prod.mk.injEq] at h
    obtain ⟨_, rfl⟩ := h
    simp
  | succ t ih =>
    intro r s s1 tr h
    rw [show t + 1 + r = (t + r) + 1 by omega]
    simp only [run_steps] at h
    simp only [run_loop]
    split at h
    · rename_i hlt
      rw [if_pos hlt]
      cases he : execute_line fuel s.current_line_index s with
      | none => simp [he] at h
      | some sa =>
        simp only [he] at h ⊢
        cases hr : run_steps fuel t { sa with current_line_index := sa.current_line_index + 1 } with
        | none => simp [hr] at h
        | some q =>
          obtain ⟨tr', sb⟩ := q
          simp only [hr, Option.some.injEq, Prod.mk.injEq] at h
          obtain ⟨_, rfl⟩ := h
          exact ih r _ _ _ hr
    · simp at h

theorem run_loop_end (fuel r : Nat) (s : Interp) (h : ¬ s.current_line_index < program_size s) :
    run_loop fuel (r + 1) s = some s := by
  simp [run_loop, h]

/-- One pass of the run loop, from the result of `execute_line`. -/
theorem run_steps_one (fuel : Nat) (s s1 : Interp)
    (hlt : s.current_line_index < program_size s)
    (he : execute_line fuel s.current_line_index s = some s1) :
    run_steps fuel 1 s
      = some ([s.current_line_index],
          { s1 with current_line_index := s1.current_line_index + 1 }) := by
  simp [run_steps, hlt, he]

theorem skip_ws_idem (p : List Char) : skip_ws (skip_ws p) = skip_ws p := by
  induction p with
  | nil => rfl
  | cons c cs ih =>
    by_cases h : isspace c = true
    · simp [skip_ws_cons, h, ih]
    · simp [skip_ws_cons, h]

/-- A decimal literal is parsed by `parse_expression` to its value; the whitespace that
follows it is consumed. -/
theorem parse_expression_literal_ws (fuel : Nat) (st : Interp) (v : Int) (rest : List Char)
    (hv : INT_MIN ≤ v ∧ v ≤ INT_MAX) (h1 : isdigit (peek rest) = false)
    (h3 : peek (skip_ws rest) ≠ '+') (h4 : peek (skip_ws rest) ≠ '-')
    (h5 : peek (skip_ws rest) ≠ '*') (h6 : peek (skip_ws rest) ≠ '/') :
    parse_expression (fuel + 3) (set_pos st (fmt_d v ++ rest))
      = some (v, set_pos st (skip_ws rest)) := by
  simp [parse_expression, parse_term, parse_expression_loop, parse_term_loop,
    parse_factor_literal, hv, h1, h3, h4, h5, h6, skip_ws_idem]

/-- The header `FOR c = a TO b` is parsed to the letter and the two values, with step 1. -/
theorem execute_for_header (fuel : Nat) (st : Interp) (c : Char) (a b : Int)
    (hc : isalpha c = true) (ha : INT_MIN ≤ a ∧ a ≤ INT_MAX) (hb : INT_MIN ≤ b ∧ b ≤ INT_MAX) :
    execute_for (fuel + 3)
        (set_pos st (' ' :: c :: (" = ".toList ++ fmt_d a ++ " TO ".toList ++ fmt_d b)))
      = for_loop_entry (fuel + 3) (toupper c) a b 1 (set_pos st []) := by
  obtain ⟨a1, a2, a3, a4, a5, a6, a7, a8, a9, a10⟩ := isalpha_props c hc
  have s0 : isspace ' ' = true := by decide
  have s1 : isspace '=' = false := by decide
  have s2 : isspace 'T' = false := by decide
  have h1 := parse_expression_literal_ws fuel st a (" TO ".toList ++ fmt_d b) ha rfl
    (by simp [skip_ws_cons, s0, s2]) (by simp [skip_ws_cons, s0, s2])
    (by simp [skip_ws_cons, s0, s2]) (by simp [skip_ws_cons, s0, s2])
  have h2 := parse_expression_literal_ws fuel st b [] hb rfl (by simp) (by simp) (by simp)
    (by simp)
  have k : ∀ u, strncasecmp0 ('T' :: 'O' :: u) ['T', 'O'] = true := by
    intro u; simp [strncasecmp0]
  have k2 : strncasecmp0 [] ['S', 'T', 'E', 'P'] = false := rfl
  simp only [List.append_nil] at h2
  simp only [String.toList, List.cons_append, List.nil_append, List.append_assoc] at h1 ⊢
  simp [execute_for, skip_ws_cons, s0, s1, s2, a1, hc, parse_expression_space, h1, h2, k, k2]

/-- The header `FOR c = a TO b STEP s` is parsed to the letter and the three values. -/
theorem execute_for_header_step (fuel : Nat) (st : Interp) (c : Char) (a b s : Int)
    (hc : isalpha c = true) (ha : INT_MIN ≤ a ∧ a ≤ INT_MAX) (hb : INT_MIN ≤ b ∧ b ≤ INT_MAX)
    (hs : INT_MIN ≤ s ∧ s ≤ INT_MAX) :
    execute_for (fuel + 3)
        (set_pos st (' ' :: c :: (" = ".toList ++ fmt_d a ++ " TO ".toList ++ fmt_d b
          ++ " STEP ".toList ++ fmt_d s)))
      = for_loop_entry (fuel + 3) (toupper c) a b s (set_pos st []) := by
  obtain ⟨a1, a2, a3, a4, a5, a6, a7, a8, a9, a10⟩ := isalpha_props c hc
  have s0 : isspace ' ' = true := by decide
  have s1 : isspace '=' = false := by decide
  have s2 : isspace 'T' = false := by decide
  have s3 : isspace 'S' = false := by decide
  have h1 := parse_expression_literal_ws fuel st a
    (" TO ".toList ++ fmt_d b ++ " STEP ".toList ++ fmt_d s) ha rfl
    (by simp [skip_ws_cons, s0, s2]) (by simp [skip_ws_cons, s0, s2])
    (by simp [skip_ws_cons, s0, s2]) (by simp [skip_ws_cons, s0, s2])
  have h2 := parse_expression_literal_ws fuel st b (" STEP ".toList ++ fmt_d s) hb rfl
    (by simp [skip_ws_cons, s0, s3]) (by simp [skip_ws_cons, s0, s3])
    (by simp [skip_ws_cons, s0, s3]) (by simp [skip_ws_cons, s0, s3])
  have h3 := parse_expression_literal_ws fuel st s [] hs rfl (by simp) (by simp) (by simp)
    (by simp)
  have k : ∀ u, strncasecmp0 ('T' :: 'O' :: u) ['T', 'O'] = true := by
    intro u; simp [strncasecmp0]
  have k2 : ∀ u, strncasecmp0 ('S' :: 'T' :: 'E' :: 'P' :: u) ['S', 'T', 'E', 'P'] = true := by
    intro u; simp [strncasecmp0]
  simp only [List.append_nil] at h3
  simp only [String.toList, List.cons_append, List.nil_append, List.append_assoc] at h1 h2 ⊢
  simp [execute_for, skip_ws_cons, s0, s1, s2, s3, a1, hc, parse_expression_space, h1, h2, h3,
    k, k2]

@[simp] theorem printf_program (s : Interp) (t : List Char) : (printf s t).program = s.program := rfl
@[simp] theorem printf_variables (s : Interp) (t : List Char) : (printf s t).variables = s.variables := rfl
@[simp] theorem printf_string_variables (s : Interp) (t : List Char) : (printf s t).string_variables = s.string_variables := rfl
@[simp] theorem printf_arrays (s : Interp) (t : List Char) : (printf s t).arrays = s.arrays := rfl
@[simp] theorem printf_for_stack (s : Interp) (t : List Char) : (printf s t).for_stack = s.for_stack := rfl
@[simp] theorem printf_for_stack_ptr (s : Interp) (t : List Char) : (printf s t).for_stack_ptr = s.for_stack_ptr := rfl
@[simp] theorem printf_current_pos (s : Interp) (t : List Char) : (printf s t).current_pos = s.current_pos := rfl
@[simp] theorem printf_current_line_index (s : Interp) (t : List Char) : (printf s t).current_line_index = s.current_line_index := rfl
@[simp] theorem printf_stdin (s : Interp) (t : List Char) : (printf s t).stdin = s.stdin := rfl
@[simp] theorem printf_stdout (s : Interp) (t : List Char) : (printf s t).stdout = s.stdout ++ t := rfl
@[simp] theorem printf_stderr (s : Interp) (t : List Char) : (printf s t).stderr = s.stderr := rfl
@[simp] theorem eprintf_program (s : Interp) (t : List Char) : (eprintf s t).program = s.program := rfl
@[simp] theorem eprintf_variables (s : Interp) (t : List Char) : (eprintf s t).variables = s.variables := rfl
@[simp] theorem eprintf_string_variables (s : Interp) (t : List Char) : (eprintf s t).string_variables = s.string_variables := rfl
@[simp] theorem eprintf_arrays (s : Interp) (t : List Char) : (eprintf s t).arrays = s.arrays := rfl
@[simp] theorem eprintf_for_stack (s : Interp) (t : List Char) : (eprintf s t).for_stack = s.for_stack := rfl
@[simp] theorem eprintf_for_stack_ptr (s : Interp) (t : List Char) : (eprintf s t).for_stack_ptr = s.for_stack_ptr := rfl
@[simp] theorem eprintf_current_pos (s : Interp) (t : List Char) : (eprintf s t).current_pos = s.current_pos := rfl
@[simp] theorem eprintf_current_line_index (s : Interp) (t : List Char) : (eprintf s t).current_line_index = s.current_line_index := rfl
@[simp] theorem eprintf_stdin (s : Interp) (t : List Char) : (eprintf s t).stdin = s.stdin := rfl
@[simp] theorem eprintf_stdout (s : Interp) (t : List Char) : (eprintf s t).stdout = s.stdout := rfl
@[simp] theorem eprintf_stderr (s : Interp) (t : List Char) : (eprintf s t).stderr = s.stderr ++ t := rfl

theorem execute_line_print_IJ (fuel : Nat) (σ : Interp) (idx : Int)
    (h : line_text σ idx = "PRINT I, J".toList) :
    execute_line (fuel + 5) idx σ
      = some (set_pos (printf σ (fmt_d (σ.variables 8) ++ ' ' :: (fmt_d (σ.variables 9) ++ ['\n']))) []) := by
  rw [execute_line_print (fuel + 5) σ idx " I, J".toList (by simp [h])]
  simp [execute_print, execute_print_loop, parse_string_operand, parse_expression, parse_term,
    parse_factor, parse_term_loop, parse_expression_loop, skip_ws_cons, strncasecmp0, tolower,
    isspace, isalpha, var_index, toupper]

theorem execute_line_for (F : Nat) (σ : Interp) (idx : Int) (p : List Char)
    (h : line_text σ idx = 'F' :: 'O' :: 'R' :: p) :
    execute_line F idx σ = execute_for F (set_pos σ p) := by
  simp [execute_line, h, skip_ws_cons, isspace, strncasecmp0, tolower]

theorem execute_line_next (F : Nat) (σ : Interp) (idx : Int) (p : List Char)
    (h : line_text σ idx = 'N' :: 'E' :: 'X' :: 'T' :: p) :
    execute_line F idx σ = some (execute_next (set_pos σ p)) := by
  simp [execute_line, h, skip_ws_cons, isspace, strncasecmp0, tolower]

/-! ## The nested loops of `nested_program` -/

theorem nested_step_print (F : Nat) (hF : 5 ≤ F) (m n i j : Int) (out : List Char) (σ : Interp)
    (h : nested_inner m n i j 2 out σ) :
    ∃ σ', run_steps F 1 σ = some ([2], σ')
      ∧ nested_inner m n i j 3 (out ++ (fmt_d i ++ ' ' :: (fmt_d j ++ ['\n']))) σ' := by
  obtain ⟨f, rfl⟩ : ∃ f, F = f + 5 := ⟨F - 5, by omega⟩
  obtain ⟨hP, hI, hJ, hptr, hf0, hf1, hcli, hout⟩ := h
  have hlt : σ.current_line_index < program_size σ := by
    simp [program_size, hP, nested_program, hcli]
  have he : execute_line (f + 5) σ.current_line_index σ = _ :=
    execute_line_print_IJ f σ σ.current_line_index (by simp [line_text, hP, nested_program, hcli])
  refine ⟨_, by rw [run_steps_one _ σ _ hlt he, hcli], ?_⟩
  simp [nested_inner, hP, hI, hJ, hptr, hf0, hf1, hcli, hout]

theorem nested_step_next_J (F : Nat) (m n i j : Int) (out : List Char) (σ : Interp)
    (h : nested_inner m n i j 3 out σ) :
    ∃ σ', run_steps F 1 σ = some ([3], σ')
      ∧ nested_inner m n i (wrap32 (j + 1)) 1 out σ' := by
  obtain ⟨hP, hI, hJ, hptr, hf0, hf1, hcli, hout⟩ := h
  have hlt : σ.current_line_index < program_size σ := by
    simp [program_size, hP, nested_program, hcli]
  have he : execute_line F σ.current_line_index σ = _ :=
    execute_line_next F σ σ.current_line_index " J".toList
      (by simp [line_text, hP, nested_program, hcli])
  refine ⟨_, by rw [run_steps_one _ σ _ hlt he, hcli], ?_⟩
  simp [nested_inner, execute_next, skip_ws_cons, isspace, isalpha, toupper, var_index, set_slot,
    hP, hI, hJ, hptr, hf0, hf1, hcli, hout]


theorem nested_line_for_J (F : Nat) (hF : 3 ≤ F) (m n : Int) (σ : Interp)
    (hn : INT_MIN ≤ n ∧ n ≤ INT_MAX) (hP : σ.program = nested_program m n)
    (hcli : σ.current_line_index = 1) :
    execute_line F σ.current_line_index σ = for_loop_entry F 'J' 1 n 1 (set_pos σ []) := by
  obtain ⟨f, rfl⟩ : ∃ f, F = f + 3 := ⟨F - 3, by omega⟩
  rw [execute_line_for (f + 3) σ σ.current_line_index
    (' ' :: 'J' :: (" = ".toList ++ fmt_d 1 ++ " TO ".toList ++ fmt_d n))
    (by simp [line_text, hP, nested_program, hcli]; rfl)]
  exact execute_for_header f σ 'J' 1 n (by decide) (by decide) hn

theorem nested_line_for_I (F : Nat) (hF : 3 ≤ F) (m n : Int) (σ : Interp)
    (hm : INT_MIN ≤ m ∧ m ≤ INT_MAX) (hP : σ.program = nested_program m n)
    (hcli : σ.current_line_index = 0) :
    execute_line F σ.current_line_index σ = for_loop_entry F 'I' 1 m 1 (set_pos σ []) := by
  obtain ⟨f, rfl⟩ : ∃ f, F = f + 3 := ⟨F - 3, by omega⟩
  rw [execute_line_for (f + 3) σ σ.current_line_index
    (' ' :: 'I' :: (" = ".toList ++ fmt_d 1 ++ " TO ".toList ++ fmt_d m))
    (by simp [line_text, hP, nested_program, hcli]; rfl)]
  exact execute_for_header f σ 'I' 1 m (by decide) (by decide) hm

theorem nested_step_for_J_continue (F : Nat) (hF : 3 ≤ F) (m n i j : Int) (out : List Char)
    (σ : Interp) (hn : INT_MIN ≤ n ∧ n ≤ INT_MAX) (hj : j ≤ n)
    (h : nested_inner m n i j 1 out σ) :
    ∃ σ', run_steps F 1 σ = some ([1], σ') ∧ nested_inner m n i j 2 out σ' := by
  obtain ⟨hP, hI, hJ, hptr, hf0, hf1, hcli, hout⟩ := h
  have hlt : σ.current_line_index < program_size σ := by
    simp [program_size, hP, nested_program, hcli]
  have he := nested_line_for_J F hF m n σ hn hP hcli
  have hnd : ¬ j > n := by omega
  have hev : for_loop_entry F 'J' 1 n 1 (set_pos σ []) = some (set_pos σ []) := by
    simp [for_loop_entry, hptr, hf1, hcli, hJ, var_index, hnd]
  rw [hev] at he
  refine ⟨_, by rw [run_steps_one _ σ _ hlt he, hcli], ?_⟩
  simp [nested_inner, hP, hI, hJ, hptr, hf0, hf1, hcli, hout]

theorem nested_skip_J (F : Nat) (hF : 2 ≤ F) (m n : Int) (σ : Interp)
    (hP : σ.program = nested_program m n) (hcli : σ.current_line_index = 1) :
    skip_to_next F 'J' σ = some { σ with current_line_index := 3 } := by
  obtain ⟨f, rfl⟩ : ∃ f, F = f + 2 := ⟨F - 2, by omega⟩
  simp [skip_to_next, skip_to_next_loop, program_size, line_text, hP, hcli, nested_program,
    skip_ws_cons, isspace, strncasecmp0, tolower, toupper]

theorem nested_skip_I (F : Nat) (hF : 4 ≤ F) (m n : Int) (σ : Interp)
    (hP : σ.program = nested_program m n) (hcli : σ.current_line_index = 0) :
    skip_to_next F 'I' σ = some { σ with current_line_index := 4 } := by
  obtain ⟨f, rfl⟩ : ∃ f, F = f + 4 := ⟨F - 4, by omega⟩
  simp [skip_to_next, skip_to_next_loop, program_size, line_text, hP, hcli, nested_program,
    skip_ws_cons, isspace, strncasecmp0, tolower, toupper]


theorem nested_step_for_J_exit (F : Nat) (hF : 3 ≤ F) (m n i j : Int) (out : List Char)
    (σ : Interp) (hn : INT_MIN ≤ n ∧ n ≤ INT_MAX) (hj : j > n)
    (h : nested_inner m n i j 1 out σ) :
    ∃ σ', run_steps F 1 σ = some ([1], σ') ∧ nested_outer m n i 4 out σ' := by
  obtain ⟨hP, hI, hJ, hptr, hf0, hf1, hcli, hout⟩ := h
  have hlt : σ.current_line_index < program_size σ := by
    simp [program_size, hP, nested_program, hcli]
  have he := nested_line_for_J F hF m n σ hn hP hcli
  have hev : for_loop_entry F 'J' 1 n 1 (set_pos σ [])
      = skip_to_next F 'J' { set_pos σ [] with for_stack_ptr := 2 - 1 } := by
    simp [for_loop_entry, hptr, hf1, hcli, hJ, var_index, hj]
  rw [hev, nested_skip_J F (by omega) m n _ (by simpa using hP) (by simpa using hcli)] at he
  refine ⟨_, by rw [run_steps_one _ σ _ hlt he, hcli], ?_⟩
  simp [nested_outer, hP, hI, hf0, hout]

theorem nested_step_for_J_init (F : Nat) (hF : 3 ≤ F) (m n i : Int) (out : List Char)
    (σ : Interp) (hn : INT_MIN ≤ n ∧ n ≤ INT_MAX) (h : nested_outer m n i 1 out σ) :
    ∃ σ', run_steps F 1 σ = some ([1], σ')
      ∧ (1 ≤ n → nested_inner m n i 1 2 out σ') ∧ (n < 1 → nested_outer m n i 4 out σ') := by
  obtain ⟨hP, hI, hptr, hf0, hcli, hout⟩ := h
  have hlt : σ.current_line_index < program_size σ := by
    simp [program_size, hP, nested_program, hcli]
  have he := nested_line_for_J F hF m n σ hn hP hcli
  by_cases hd : 1 ≤ n
  · have hnd : ¬ (1 : Int) > n := by omega
    have hev : for_loop_entry F 'J' 1 n 1 (set_pos σ [])
        = some { set_pos σ [] with
            «variables» := set_slot σ.variables 9 1
            for_stack := set_slot σ.for_stack 1 ⟨'J', n, 1, 1⟩
            for_stack_ptr := 2 } := by
      simp [for_loop_entry, hptr, hf0, hcli, var_index, hnd, MAX_FOR_STACK, set_slot]
    rw [hev] at he
    refine ⟨_, by rw [run_steps_one _ σ _ hlt he, hcli], ?_, fun h => absurd hd (by omega)⟩
    intro _
    simp [nested_inner, set_slot, hP, hI, hf0, hout, hcli]
  · have hgt : (1 : Int) > n := by omega
    have hev : for_loop_entry F 'J' 1 n 1 (set_pos σ [])
        = skip_to_next F 'J' { set_pos σ [] with
            «variables» := set_slot σ.variables 9 1
            for_stack := set_slot σ.for_stack 1 ⟨'J', n, 1, 1⟩
            for_stack_ptr := 1 } := by
      simp [for_loop_entry, hptr, hf0, hcli, var_index, hgt, MAX_FOR_STACK, set_slot]
    rw [hev, nested_skip_J F (by omega) m n _ (by simpa using hP) (by simpa using hcli)] at he
    refine ⟨_, by rw [run_steps_one _ σ _ hlt he, hcli], fun h => absurd h hd, ?_⟩
    intro _
    simp [nested_outer, set_slot, hP, hI, hf0, hout, hcli]

theorem nested_step_next_I (F : Nat) (m n i : Int) (out : List Char) (σ : Interp)
    (h : nested_outer m n i 4 out σ) :
    ∃ σ', run_steps F 1 σ = some ([4], σ') ∧ nested_outer m n (wrap32 (i + 1)) 0 out σ' := by
  obtain ⟨hP, hI, hptr, hf0, hcli, hout⟩ := h
  have hlt : σ.current_line_index < program_size σ := by
    simp [program_size, hP, nested_program, hcli]
  have he : execute_line F σ.current_line_index σ = _ :=
    execute_line_next F σ σ.current_line_index " I".toList
      (by simp [line_text, hP, nested_program, hcli])
  refine ⟨_, by rw [run_steps_one _ σ _ hlt he, hcli], ?_⟩
  simp [nested_outer, execute_next, skip_ws_cons, isspace, isalpha, toupper, var_index, set_slot,
    hP, hI, hptr, hf0, hcli, hout]

theorem nested_step_for_I_continue (F : Nat) (hF : 3 ≤ F) (m n i : Int) (out : List Char)
    (σ : Interp) (hm : INT_MIN ≤ m ∧ m ≤ INT_MAX) (hi : i ≤ m)
    (h : nested_outer m n i 0 out σ) :
    ∃ σ', run_steps F 1 σ = some ([0], σ') ∧ nested_outer m n i 1 out σ' := by
  obtain ⟨hP, hI, hptr, hf0, hcli, hout⟩ := h
  have hlt : σ.current_line_index < program_size σ := by
    simp [program_size, hP, nested_program, hcli]
  have he := nested_line_for_I F hF m n σ hm hP hcli
  have hnd : ¬ i > m := by omega
  have hev : for_loop_entry F 'I' 1 m 1 (set_pos σ []) = some (set_pos σ []) := by
    simp [for_loop_entry, hptr, hf0, hcli, hI, var_index, hnd]
  rw [hev] at he
  refine ⟨_, by rw [run_steps_one _ σ _ hlt he, hcli], ?_⟩
  simp [nested_outer, hP, hI, hptr, hf0, hcli, hout]

theorem nested_step_for_I_exit (F : Nat) (hF : 4 ≤ F) (m n i : Int) (out : List Char)
    (σ : Interp) (hm : INT_MIN ≤ m ∧ m ≤ INT_MAX) (hi : i > m)
    (h : nested_outer m n i 0 out σ) :
    ∃ σ', run_steps F 1 σ = some ([0], σ') ∧ nested_final m n out σ' := by
  obtain ⟨hP, hI, hptr, hf0, hcli, hout⟩ := h
  have hlt : σ.current_line_index < program_size σ := by
    simp [program_size, hP, nested_program, hcli]
  have he := nested_line_for_I F (by omega) m n σ hm hP hcli
  have hev : for_loop_entry F 'I' 1 m 1 (set_pos σ [])
      = skip_to_next F 'I' { set_pos σ [] with for_stack_ptr := 1 - 1 } := by
    simp [for_loop_entry, hptr, hf0, hcli, hI, var_index, hi]
  rw [hev, nested_skip_I F hF m n _ (by simpa using hP) (by simpa using hcli)] at he
  refine ⟨_, by rw [run_steps_one _ σ _ hlt he, hcli], ?_⟩
  simp [nested_final, hP, hout]

theorem nested_step_for_I_enter (F : Nat) (hF : 3 ≤ F) (m n : Int) (σ : Interp)
    (hm : INT_MIN ≤ m ∧ m ≤ INT_MAX) (hP : σ.program = nested_program m n)
    (hptr : σ.for_stack_ptr = 0) (hcli : σ.current_line_index = 0) (hd : 1 ≤ m) :
    ∃ σ', run_steps F 1 σ = some ([0], σ') ∧ nested_outer m n 1 1 σ.stdout σ' := by
  have hlt : σ.current_line_index < program_size σ := by
    simp [program_size, hP, nested_program, hcli]
  have he := nested_line_for_I F hF m n σ hm hP hcli
  have hnd : ¬ (1 : Int) > m := by omega
  have hev : for_loop_entry F 'I' 1 m 1 (set_pos σ [])
      = some { set_pos σ [] with
          «variables» := set_slot σ.variables 8 1
          for_stack := set_slot σ.for_stack 0 ⟨'I', m, 1, 0⟩
          for_stack_ptr := 1 } := by
    simp [for_loop_entry, hptr, hcli, var_index, hnd, MAX_FOR_STACK, set_slot]
  rw [hev] at he
  refine ⟨_, by rw [run_steps_one _ σ _ hlt he, hcli], ?_⟩
  simp [nested_outer, set_slot, hP, hcli]

theorem nested_step_for_I_skip (F : Nat) (hF : 4 ≤ F) (m n : Int) (σ : Interp)
    (hm : INT_MIN ≤ m ∧ m ≤ INT_MAX) (hP : σ.program = nested_program m n)
    (hptr : σ.for_stack_ptr = 0) (hcli : σ.current_line_index = 0) (hd : m < 1) :
    ∃ σ', run_steps F 1 σ = some ([0], σ') ∧ nested_final m n σ.stdout σ' := by
  have hlt : σ.current_line_index < program_size σ := by
    simp [program_size, hP, nested_program, hcli]
  have he := nested_line_for_I F (by omega) m n σ hm hP hcli
  have hgt : (1 : Int) > m := by omega
  have hev : for_loop_entry F 'I' 1 m 1 (set_pos σ [])
      = skip_to_next F 'I' { set_pos σ [] with
          «variables» := set_slot σ.variables 8 1
          for_stack := set_slot σ.for_stack 0 ⟨'I', m, 1, 0⟩
          for_stack_ptr := 0 } := by
    simp [for_loop_entry, hptr, hcli, var_index, hgt, MAX_FOR_STACK, set_slot]
  rw [hev, nested_skip_I F hF m n _ (by simpa using hP) (by simpa using hcli)] at he
  refine ⟨_, by rw [run_steps_one _ σ _ hlt he, hcli], ?_⟩
  simp [nested_final, hP, hcli]

/-- The `J` loop, from the state in which `j` lines of the current `i` are printed. -/
theorem nested_inner_loop (F : Nat) (hF : 5 ≤ F) (m i : Int) (n : Nat) (hn : n ≤ 2147483646)
    (base : List Char) : ∀ (d j : Nat) (σ : Interp), j + 1 + d = n →
    nested_inner m n i ((j : Int) + 1) 2 (base ++ inner_lines i j) σ →
    ∃ t tr σ', run_steps F t σ = some (tr, σ')
      ∧ nested_outer m n i 4 (base ++ inner_lines i n) σ' := by
  have rn : INT_MIN ≤ (n : Int) ∧ (n : Int) ≤ INT_MAX := by
    unfold INT_MIN INT_MAX; omega
  intro d
  induction d with
  | zero =>
    intro j σ hj h
    obtain ⟨σ1, r1, h1⟩ := nested_step_print F hF m n i _ _ σ h
    obtain ⟨σ2, r2, h2⟩ := nested_step_next_J F m n i _ _ σ1 h1
    have hw : wrap32 ((j : Int) + 1 + 1) = (j : Int) + 1 + 1 := by
      unfold wrap32; omega
    rw [hw] at h2
    obtain ⟨σ3, r3, h3⟩ := nested_step_for_J_exit F (by omega) m n i _ _ σ2 rn (by omega) h2
    refine ⟨_, _, σ3, run_steps_append F _ _ _ _ _ _ _ (run_steps_append F _ _ _ _ _ _ _ r1 r2) r3, ?_⟩
    have e : n = j + 1 := by omega
    subst e
    simpa [inner_lines, List.append_assoc] using h3
  | succ d ih =>
    intro j σ hj h
    obtain ⟨σ1, r1, h1⟩ := nested_step_print F hF m n i _ _ σ h
    obtain ⟨σ2, r2, h2⟩ := nested_step_next_J F m n i _ _ σ1 h1
    have hw : wrap32 ((j : Int) + 1 + 1) = ((j + 1 : Nat) : Int) + 1 := by
      unfold wrap32; push_cast; omega
    rw [hw] at h2
    obtain ⟨σ3, r3, h3⟩ := nested_step_for_J_continue F (by omega) m n i _ _ σ2 rn
      (by push_cast; omega) h2
    have h3' : nested_inner m n i (((j + 1 : Nat) : Int) + 1) 2
        (base ++ inner_lines i (j + 1)) σ3 := by
      simpa [inner_lines, List.append_assoc] using h3
    obtain ⟨t, tr, σ4, r4, h4⟩ := ih (j + 1) σ3 (by omega) h3'
    exact ⟨_, _, σ4, run_steps_append F _ _ _ _ _ _ _
      (run_steps_append F _ _ _ _ _ _ _ (run_steps_append F _ _ _ _ _ _ _ r1 r2) r3) r4, h4⟩

/-- The `I` loop, from the state in which the lines of the first `i` values are printed. -/
theorem nested_outer_loop (F : Nat) (hF : 5 ≤ F) (m n : Nat) (hm : m ≤ 2147483646)
    (hn : n ≤ 2147483646) (base : List Char) : ∀ (d i : Nat) (σ : Interp), i + 1 + d = m →
    nested_outer m n ((i : Int) + 1) 1 (base ++ nested_lines n i) σ →
    ∃ t tr σ', run_steps F t σ = some (tr, σ')
      ∧ nested_final m n (base ++ nested_lines n m) σ' := by
  have rn : INT_MIN ≤ (n : Int) ∧ (n : Int) ≤ INT_MAX := by
    unfold INT_MIN INT_MAX; omega
  have rm : INT_MIN ≤ (m : Int) ∧ (m : Int) ≤ INT_MAX := by
    unfold INT_MIN INT_MAX; omega
  -- one pass: the inner loop and `NEXT I`
  have pass : ∀ (i : Nat) (σ : Interp), i + 1 ≤ m →
      nested_outer m n ((i : Int) + 1) 1 (base ++ nested_lines n i) σ →
      ∃ t tr σ', run_steps F t σ = some (tr, σ')
        ∧ nested_outer m n ((i : Int) + 1 + 1) 0 (base ++ nested_lines n (i + 1)) σ' := by
    intro i σ him h
    obtain ⟨σ1, r1, h1a, h1b⟩ := nested_step_for_J_init F (by omega) m n _ _ σ rn h
    have hw : wrap32 ((i : Int) + 1 + 1) = (i : Int) + 1 + 1 := by
      unfold wrap32; omega
    by_cases hn0 : 1 ≤ n
    · have h1 := h1a (by omega)
      have h1' : nested_inner m n ((i : Int) + 1) (((0 : Nat) : Int) + 1) 2
          ((base ++ nested_lines n i) ++ inner_lines ((i : Int) + 1) 0) σ1 := by
        simpa [inner_lines] using h1
      obtain ⟨t2, tr2, σ2, r2, h2⟩ := nested_inner_loop F hF m _ n hn _ (n - 1) 0 σ1
        (by omega) h1'
      obtain ⟨σ3, r3, h3⟩ := nested_step_next_I F m n _ _ σ2 h2
      rw [hw] at h3
      refine ⟨_, _, σ3, run_steps_append F _ _ _ _ _ _ _
        (run_steps_append F _ _ _ _ _ _ _ r1 r2) r3, ?_⟩
      simpa [nested_lines, List.append_assoc] using h3
    · have h1 := h1b (by omega)
      obtain ⟨σ3, r3, h3⟩ := nested_step_next_I F m n _ _ σ1 h1
      rw [hw] at h3
      refine ⟨_, _, σ3, run_steps_append F _ _ _ _ _ _ _ r1 r3, ?_⟩
      have e : n = 0 := by omega
      subst e
      simpa [nested_lines, inner_lines] using h3
  intro d
  induction d with
  | zero =>
    intro i σ hi h
    obtain ⟨t1, tr1, σ1, r1, h1⟩ := pass i σ (by omega) h
    obtain ⟨σ2, r2, h2⟩ := nested_step_for_I_exit F (by omega) m n _ _ σ1 rm (by omega) h1
    have e : m = i + 1 := by omega
    subst e
    exact ⟨_, _, σ2, run_steps_append F _ _ _ _ _ _ _ r1 r2, h2⟩
  | succ d ih =>
    intro i σ hi h
    obtain ⟨t1, tr1, σ1, r1, h1⟩ := pass i σ (by omega) h
    obtain ⟨σ2, r2, h2⟩ := nested_step_for_I_continue F (by omega) m n _ _ σ1 rm (by omega) h1
    have h2' : nested_outer m n (((i + 1 : Nat) : Int) + 1) 1 (base ++ nested_lines n (i + 1)) σ2 := by
      simpa using h2
    obtain ⟨t3, tr3, σ3, r3, h3⟩ := ih (i + 1) σ2 (by omega) h2'
    exact ⟨_, _, σ3, run_steps_append F _ _ _ _ _ _ _
      (run_steps_append F _ _ _ _ _ _ _ r1 r2) r3, h3⟩

/-- C3 (amended): for all `0 ≤ m, n ≤ 2147483646`, running the five-line program
`FOR I = 1 TO m`, `FOR J = 1 TO n`, `PRINT I, J`, `NEXT J`, `NEXT I` from a state with an
empty FOR stack terminates, appends to the output exactly the `m * n` lines `i j`, for
`i = 1..m` and within each `i` for `j = 1..n`, in that order, and ends with an empty FOR
stack. -/
theorem C3_nested_loops (m n : Nat) (fuel : Nat) (st : Interp)
    (hm : m ≤ 2147483646) (hn : n ≤ 2147483646)
    (hP : st.program = nested_program m n) (hptr : st.for_stack_ptr = 0) :
    ∃ steps st', run_program (fuel + 5) steps st = some st'
      ∧ st'.stdout = st.stdout ++ nested_lines n m ∧ st'.for_stack_ptr = 0 := by
  have rm : INT_MIN ≤ (m : Int) ∧ (m : Int) ≤ INT_MAX := by
    unfold INT_MIN INT_MAX; omega
  have hsz : program_size st ≠ 0 := by
    simp [program_size, hP, nested_program]
  have fin : ∀ (t : Nat) (tr : List Int) (σ' : Interp),
      run_steps (fuel + 5) t { st with current_line_index := 0 } = some (tr, σ') →
      nested_final m n (st.stdout ++ nested_lines n m) σ' →
      ∃ steps st', run_program (fuel + 5) steps st = some st'
        ∧ st'.stdout = st.stdout ++ nested_lines n m ∧ st'.for_stack_ptr = 0 := by
    intro t tr σ' hr hf
    obtain ⟨fP, fptr, fcli, fout⟩ := hf
    refine ⟨t + 1, σ', ?_, fout, fptr⟩
    simp only [run_program, hsz, if_false]
    rw [run_loop_of_steps (fuel + 5) t 1 _ _ _ hr]
    exact run_loop_end (fuel + 5) 0 σ' (by simp [program_size, fP, fcli, nested_program])
  by_cases hm0 : 1 ≤ m
  · obtain ⟨σ1, r1, h1⟩ := nested_step_for_I_enter (fuel + 5) (by omega) m n
      { st with current_line_index := 0 } rm hP hptr rfl (by omega)
    have h1' : nested_outer m n (((0 : Nat) : Int) + 1) 1 (st.stdout ++ nested_lines n 0) σ1 := by
      simpa [nested_lines] using h1
    obtain ⟨t2, tr2, σ2, r2, h2⟩ := nested_outer_loop (fuel + 5) (by omega) m n hm hn st.stdout
      (m - 1) 0 σ1 (by omega) h1'
    exact fin _ _ σ2 (run_steps_append _ _ _ _ _ _ _ _ r1 r2) h2
  · obtain ⟨σ1, r1, h1⟩ := nested_step_for_I_skip (fuel + 5) (by omega) m n
      { st with current_line_index := 0 } rm hP hptr rfl (by omega)
    have e : m = 0 := by omega
    subst e
    exact fin _ _ σ1 r1 (by simpa [nested_lines] using h1)

theorem C3_nested_loops_witness :
    ∃ steps st',
      run_program 5 steps { init_interpreter [] with program := nested_program 2 2 } = some st'
      ∧ st'.stdout = "1 1\n1 2\n2 1\n2 2\n".toList ∧ st'.for_stack_ptr = 0 :=
  C3_nested_loops 2 2 0 { init_interpreter [] with program := nested_program 2 2 }
    (by decide) (by decide) rfl rfl

theorem parse_expression_small (fuel : Nat) (h : fuel < 3) (s : Interp) :
    parse_expression fuel s = none := by
  interval_cases fuel <;> simp [parse_expression, parse_term, parse_factor]

/-- With `m = 2147483647` and `n = 0` the run of `nested_program` cycles through the lines
`FOR I`, `FOR J`, `NEXT I` for ever: `I` never exceeds the bound. -/
theorem nested_cycle (F : Nat) (hF : 3 ≤ F) : ∀ (steps : Nat) (σ : Interp),
    (∃ i out, i ≤ 2147483647 ∧ (nested_outer 2147483647 0 i 0 out σ
      ∨ nested_outer 2147483647 0 i 1 out σ ∨ nested_outer 2147483647 0 i 4 out σ)) →
    run_loop F steps σ = none := by
  have rm : INT_MIN ≤ (2147483647 : Int) ∧ (2147483647 : Int) ≤ INT_MAX := by decide
  have rn : INT_MIN ≤ (0 : Int) ∧ (0 : Int) ≤ INT_MAX := by decide
  intro steps
  induction steps with
  | zero => intro σ _; rfl
  | succ k ih =>
    intro σ h
    obtain ⟨i, out, hi, h0 | h1 | h4⟩ := h
    · obtain ⟨σ1, r1, g1⟩ := nested_step_for_I_continue F hF _ _ i out σ rm hi h0
      rw [show k + 1 = 1 + k by omega, run_loop_of_steps F 1 k _ _ _ r1]
      exact ih σ1 ⟨i, out, hi, Or.inr (Or.inl g1)⟩
    · obtain ⟨σ1, r1, _, g1⟩ := nested_step_for_J_init F hF _ _ i out σ rn h1
      rw [show k + 1 = 1 + k by omega, run_loop_of_steps F 1 k _ _ _ r1]
      exact ih σ1 ⟨i, out, hi, Or.inr (Or.inr (g1 (by decide)))⟩
    · obtain ⟨σ1, r1, g1⟩ := nested_step_next_I F _ _ i out σ h4
      rw [show k + 1 = 1 + k by omega, run_loop_of_steps F 1 k _ _ _ r1]
      exact ih σ1 ⟨wrap32 (i + 1), out, by unfold wrap32; omega, Or.inl g1⟩

theorem nested_no_fuel (fuel : Nat) (hF : fuel < 3) (m n : Int) (steps : Nat) (σ : Interp)
    (hP : σ.program = nested_program m n) (hcli : σ.current_line_index = 0) :
    run_loop fuel steps σ = none := by
  cases steps with
  | zero => rfl
  | succ k =>
    have hp := parse_expression_small fuel hF
    have hlt : σ.current_line_index < program_size σ := by
      simp [program_size, hP, nested_program, hcli]
    have hl : execute_line fuel σ.current_line_index σ = none := by
      rw [execute_line_for fuel σ σ.current_line_index
        (' ' :: 'I' :: (" = ".toList ++ fmt_d 1 ++ " TO ".toList ++ fmt_d m))
        (by simp [line_text, hP, nested_program, hcli]; rfl)]
      simp [execute_for, skip_ws_cons, isspace, isalpha, hp]
    simp only [run_loop]
    rw [if_pos hlt, hl]

/-- C3 as stated fails at `m = 2147483647`, `n = 0`: when `I` reaches `m`, `NEXT I` wraps it
around to `-2147483648`, the test `I > m` never holds, and the run does not end, whatever
the fuel and the number of steps. -/
theorem C3_counterexample :
    ¬ ∃ fuel steps st',
      run_program fuel steps { init_interpreter [] with program := nested_program 2147483647 0 }
        = some st' := by
  rintro ⟨fuel, steps, st', h⟩
  have hsz : program_size { init_interpreter [] with program := nested_program 2147483647 0 } ≠ 0 := by
    simp [program_size, nested_program]
  simp only [run_program, hsz, if_false] at h
  by_cases hF : 3 ≤ fuel
  · cases steps with
    | zero => simp [run_loop] at h
    | succ k =>
      obtain ⟨σ1, r1, g1⟩ := nested_step_for_I_enter fuel hF 2147483647 0
        { { init_interpreter [] with program := nested_program 2147483647 0 } with
          current_line_index := 0 } (by decide) rfl rfl rfl (by decide)
      rw [show k + 1 = 1 + k by omega, run_loop_of_steps fuel 1 k _ _ _ r1,
        nested_cycle fuel hF k σ1 ⟨1, _, by decide, Or.inr (Or.inl g1)⟩] at h
      exact Option.noConfusion h
  · rw [nested_no_fuel fuel (by omega) 2147483647 0 steps _ rfl rfl] at h
    exact Option.noConfusion h

/-! ## A single loop with an arbitrary body -/

theorem for_program_line_zero (a b s : Int) (body rest : List ProgramLine) (σ : Interp)
    (hP : σ.program = for_program a b s body rest) :
    line_text σ 0
      = 'F' :: 'O' :: 'R' :: ' ' :: 'I' :: (" = ".toList ++ fmt_d a ++ " TO ".toList ++ fmt_d b
          ++ " STEP ".toList ++ fmt_d s) := by
  simp [line_text, hP, for_program]

theorem for_program_line_body (a b s : Int) (body rest : List ProgramLine) (σ : Interp)
    (hP : σ.program = for_program a b s body rest) (j : Nat) (hj : j < body.length) :
    line_text σ ((j : Int) + 1) = (body.get ⟨j, hj⟩).text := by
  have e : ((j : Int) + 1).toNat = j + 1 := by omega
  have g : (for_program a b s body rest).get? (j + 1) = some (body.get ⟨j, hj⟩) := by
    unfold for_program
    rw [List.get?_cons_succ, List.get?_eq_getElem?, List.getElem?_append_left hj,
      List.getElem?_eq_getElem hj]
    rfl
  unfold line_text
  rw [hP, e, g]

theorem for_program_line_next (a b s : Int) (body rest : List ProgramLine) (σ : Interp)
    (hP : σ.program = for_program a b s body rest) :
    line_text σ ((body.length : Int) + 1) = "NEXT I".toList := by
  have e : ((body.length : Int) + 1).toNat = body.length + 1 := by omega
  have g : (for_program a b s body rest).get? (body.length + 1)
      = some ⟨20, "NEXT I".toList⟩ := by
    unfold for_program
    rw [List.get?_cons_succ, List.get?_eq_getElem?, List.getElem?_append_right (le_refl _)]
    simp
  unfold line_text
  rw [hP, e, g]

theorem for_program_size (a b s : Int) (body rest : List ProgramLine) (σ : Interp)
    (hP : σ.program = for_program a b s body rest) :
    program_size σ = (body.length : Int) + 2 + rest.length := by
  simp [program_size, hP, for_program]
  omega

/-- One pass of the scan loop of `skip_to_next` when the next index is inside the program. -/
theorem skip_to_next_loop_step (v : Char) (F : Nat) (nesting : Int) (σ : Interp)
    (h : σ.current_line_index + 1 < program_size σ) :
    skip_to_next_loop v (F + 1) nesting σ
      = if strncasecmp0 (skip_ws (line_text σ (σ.current_line_index + 1))) "FOR".toList then
          skip_to_next_loop v F (nesting + 1)
            { σ with current_line_index := σ.current_line_index + 1 }
        else if strncasecmp0 (skip_ws (line_text σ (σ.current_line_index + 1)))
            "NEXT".toList then
          if nesting = 0 then
            if toupper (peek (skip_ws ((skip_ws (line_text σ (σ.current_line_index + 1))).drop 4)))
                = v then
              some { σ with current_line_index := σ.current_line_index + 1 }
            else skip_to_next_loop v F nesting
              { σ with current_line_index := σ.current_line_index + 1 }
          else skip_to_next_loop v F (nesting - 1)
            { σ with current_line_index := σ.current_line_index + 1 }
        else skip_to_next_loop v F nesting
          { σ with current_line_index := σ.current_line_index + 1 } := by
  have h1 : σ.current_line_index < program_size σ := by omega
  have h2 : ¬ (σ.current_line_index + 1 ≥ program_size σ) := by omega
  simp only [skip_to_next_loop]
  rw [if_pos h1]
  have e : program_size { σ with current_line_index := σ.current_line_index + 1 }
      = program_size σ := rfl
  have e2 : ∀ i, line_text { σ with current_line_index := σ.current_line_index + 1 } i
      = line_text σ i := fun _ => rfl
  simp only [e, e2, h2, if_false]

/-- The scan of `skip_to_next` over the rest of a body without FOR and NEXT lines. -/
theorem for_program_skip (a b s : Int) (body rest : List ProgramLine)
    (hlex : ∀ l ∈ body, strncasecmp0 (skip_ws l.text) "FOR".toList = false
      ∧ strncasecmp0 (skip_ws l.text) "NEXT".toList = false) :
    ∀ (d c : Nat) (F : Nat) (σ : Interp), c + d = body.length → d + 1 ≤ F →
      σ.program = for_program a b s body rest → σ.current_line_index = c →
      skip_to_next_loop 'I' F 0 σ
        = some { σ with current_line_index := (body.length : Int) + 1 } := by
  intro d
  induction d with
  | zero =>
    intro c F σ hc hF hP hcli
    obtain ⟨f, rfl⟩ : ∃ f, F = f + 1 := ⟨F - 1, by omega⟩
    have hsz := for_program_size a b s body rest σ hP
    have hc' : σ.current_line_index + 1 = (body.length : Int) + 1 := by omega
    have hl := for_program_line_next a b s body rest σ hP
    rw [skip_to_next_loop_step 'I' f 0 σ (by omega), hc', hl]
    simp [skip_ws_cons, isspace, strncasecmp0, tolower, toupper]
  | succ d ih =>
    intro c F σ hc hF hP hcli
    obtain ⟨f, rfl⟩ : ∃ f, F = f + 1 := ⟨F - 1, by omega⟩
    have hsz := for_program_size a b s body rest σ hP
    have hcl : c < body.length := by omega
    have hc' : σ.current_line_index + 1 = (c : Int) + 1 := by omega
    have hl := for_program_line_body a b s body rest σ hP c hcl
    obtain ⟨x1, x2⟩ := hlex (body.get ⟨c, hcl⟩) (List.get_mem _ _ _)
    rw [skip_to_next_loop_step 'I' f 0 σ (by omega), hc', hl, x1, x2]
    simp only [Bool.false_eq_true, if_false]
    rw [ih (c + 1) f { σ with current_line_index := (c : Int) + 1 } (by omega) (by omega) hP
      (by simp)]


theorem for_program_line_for (F : Nat) (hF : 3 ≤ F) (a b s : Int) (body rest : List ProgramLine)
    (σ : Interp) (ha : INT_MIN ≤ a ∧ a ≤ INT_MAX) (hb : INT_MIN ≤ b ∧ b ≤ INT_MAX)
    (hs : INT_MIN ≤ s ∧ s ≤ INT_MAX) (hP : σ.program = for_program a b s body rest)
    (hcli : σ.current_line_index = 0) :
    execute_line F σ.current_line_index σ = for_loop_entry F 'I' a b s (set_pos σ []) := by
  obtain ⟨f, rfl⟩ : ∃ f, F = f + 3 := ⟨F - 3, by omega⟩
  rw [hcli, execute_line_for (f + 3) σ 0 _ (for_program_line_zero a b s body rest σ hP)]
  exact execute_for_header_step f σ 'I' a b s (by decide) ha hb hs

theorem for_done_split (b s v : Int) (h : ¬ for_done b s v) :
    ¬ (s > 0 ∧ v > b) ∧ ¬ (s < 0 ∧ v < b) := by
  unfold for_done at h
  exact ⟨fun x => h (Or.inl x), fun x => h (Or.inr x)⟩

theorem for_step_continue (F : Nat) (hF : 3 ≤ F) (a b s v : Int) (body rest : List ProgramLine)
    (σ : Interp) (ha : INT_MIN ≤ a ∧ a ≤ INT_MAX) (hb : INT_MIN ≤ b ∧ b ≤ INT_MAX)
    (hs : INT_MIN ≤ s ∧ s ≤ INT_MAX) (hnd : ¬ for_done b s v)
    (h : for_state (for_program a b s body rest) b s v 0 σ) :
    ∃ σ', run_steps F 1 σ = some ([0], σ')
      ∧ for_state (for_program a b s body rest) b s v 1 σ' := by
  obtain ⟨hP, hI, hptr, hf0, hcli⟩ := h
  obtain ⟨n1, n2⟩ := for_done_split b s v hnd
  have hlt : σ.current_line_index < program_size σ := by
    rw [for_program_size a b s body rest σ hP, hcli]; omega
  have he := for_program_line_for F hF a b s body rest σ ha hb hs hP hcli
  have hev : for_loop_entry F 'I' a b s (set_pos σ []) = some (set_pos σ []) := by
    simp [for_loop_entry, hptr, hf0, hcli, hI, var_index, n1, n2]
  rw [hev] at he
  refine ⟨_, by rw [run_steps_one _ σ _ hlt he, hcli], ?_⟩
  simp [for_state, hP, hI, hptr, hf0, hcli]

theorem for_done_bool (b s v : Int) (h : for_done b s v) :
    (if s > 0 ∧ v > b then true else if s < 0 ∧ v < b then true else false) = true := by
  unfold for_done at h
  rcases h with h | h
  · simp [h]
  · simp [h]

theorem for_step_exit (F : Nat) (a b s v : Int) (body rest : List ProgramLine)
    (hF : body.length + 3 ≤ F)
    (hlex : ∀ l ∈ body, strncasecmp0 (skip_ws l.text) "FOR".toList = false
      ∧ strncasecmp0 (skip_ws l.text) "NEXT".toList = false)
    (σ : Interp) (ha : INT_MIN ≤ a ∧ a ≤ INT_MAX) (hb : INT_MIN ≤ b ∧ b ≤ INT_MAX)
    (hs : INT_MIN ≤ s ∧ s ≤ INT_MAX) (hd : for_done b s v)
    (h : for_state (for_program a b s body rest) b s v 0 σ) :
    ∃ σ', run_steps F 1 σ = some ([0], σ')
      ∧ σ'.program = for_program a b s body rest ∧ σ'.for_stack_ptr = 0
      ∧ σ'.current_line_index = (body.length : Int) + 2 ∧ σ'.variables 8 = v := by
  obtain ⟨hP, hI, hptr, hf0, hcli⟩ := h
  have hlt : σ.current_line_index < program_size σ := by
    rw [for_program_size a b s body rest σ hP, hcli]; omega
  have he := for_program_line_for F (by omega) a b s body rest σ ha hb hs hP hcli
  have hev : for_loop_entry F 'I' a b s (set_pos σ [])
      = skip_to_next F 'I' { set_pos σ [] with for_stack_ptr := 1 - 1 } := by
    rcases hd with ⟨h1, h2⟩ | ⟨h1, h2⟩
    · simp [for_loop_entry, hptr, hf0, hcli, hI, var_index, h1, h2]
    · have h3 : ¬ 0 < s := by omega
      simp [for_loop_entry, hptr, hf0, hcli, hI, var_index, h1, h2, h3]
  rw [hev, skip_to_next, for_program_skip a b s body rest hlex body.length 0 F _ (by omega)
    (by omega) (by simpa using hP) (by simpa using hcli)] at he
  refine ⟨_, by rw [run_steps_one _ σ _ hlt he, hcli], ?_⟩
  simp [hP, hI]
  omega

theorem for_step_enter (F : Nat) (hF : 3 ≤ F) (a b s : Int) (body rest : List ProgramLine)
    (σ : Interp) (ha : INT_MIN ≤ a ∧ a ≤ INT_MAX) (hb : INT_MIN ≤ b ∧ b ≤ INT_MAX)
    (hs : INT_MIN ≤ s ∧ s ≤ INT_MAX) (hnd : ¬ for_done b s a)
    (hP : σ.program = for_program a b s body rest) (hptr : σ.for_stack_ptr = 0)
    (hcli : σ.current_line_index = 0) :
    ∃ σ', run_steps F 1 σ = some ([0], σ')
      ∧ for_state (for_program a b s body rest) b s a 1 σ' := by
  obtain ⟨n1, n2⟩ := for_done_split b s a hnd
  have hlt : σ.current_line_index < program_size σ := by
    rw [for_program_size a b s body rest σ hP, hcli]; omega
  have he := for_program_line_for F hF a b s body rest σ ha hb hs hP hcli
  have hev : for_loop_entry F 'I' a b s (set_pos σ [])
      = some { set_pos σ [] with
          «variables» := set_slot σ.variables 8 a
          for_stack := set_slot σ.for_stack 0 ⟨'I', b, s, 0⟩
          for_stack_ptr := 1 } := by
    simp [for_loop_entry, hptr, hcli, var_index, n1, n2, MAX_FOR_STACK, set_slot]
  rw [hev] at he
  refine ⟨_, by rw [run_steps_one _ σ _ hlt he, hcli], ?_⟩
  simp [for_state, set_slot, hP, hcli]

theorem for_step_enter_skip (F : Nat) (a b s : Int) (body rest : List ProgramLine)
    (hF : body.length + 3 ≤ F)
    (hlex : ∀ l ∈ body, strncasecmp0 (skip_ws l.text) "FOR".toList = false
      ∧ strncasecmp0 (skip_ws l.text) "NEXT".toList = false)
    (σ : Interp) (ha : INT_MIN ≤ a ∧ a ≤ INT_MAX) (hb : INT_MIN ≤ b ∧ b ≤ INT_MAX)
    (hs : INT_MIN ≤ s ∧ s ≤ INT_MAX) (hd : for_done b s a)
    (hP : σ.program = for_program a b s body rest) (hptr : σ.for_stack_ptr = 0)
    (hcli : σ.current_line_index = 0) :
    ∃ σ', run_steps F 1 σ = some ([0], σ')
      ∧ σ'.program = for_program a b s body rest ∧ σ'.for_stack_ptr = 0
      ∧ σ'.current_line_index = (body.length : Int) + 2 ∧ σ'.variables 8 = a := by
  have hlt : σ.current_line_index < program_size σ := by
    rw [for_program_size a b s body rest σ hP, hcli]; omega
  have he := for_program_line_for F (by omega) a b s body rest σ ha hb hs hP hcli
  have hev : for_loop_entry F 'I' a b s (set_pos σ [])
      = skip_to_next F 'I' { set_pos σ [] with
          «variables» := set_slot σ.variables 8 a
          for_stack := set_slot σ.for_stack 0 ⟨'I', b, s, 0⟩
          for_stack_ptr := 0 } := by
    rcases hd with ⟨h1, h2⟩ | ⟨h1, h2⟩
    · simp [for_loop_entry, hptr, hcli, var_index, h1, h2, MAX_FOR_STACK, set_slot]
    · have h3 : ¬ 0 < s := by omega
      simp [for_loop_entry, hptr, hcli, var_index, h1, h2, h3, MAX_FOR_STACK, set_slot]
  rw [hev, skip_to_next, for_program_skip a b s body rest hlex body.length 0 F _ (by omega)
    (by omega) (by simpa using hP) (by simpa using hcli)] at he
  refine ⟨_, by rw [run_steps_one _ σ _ hlt he, hcli], ?_⟩
  simp [hP, set_slot]
  omega

theorem for_step_next (F : Nat) (a b s v : Int) (body rest : List ProgramLine) (σ : Interp)
    (h : for_state (for_program a b s body rest) b s v ((body.length : Int) + 1) σ) :
    ∃ σ', run_steps F 1 σ = some ([(body.length : Int) + 1], σ')
      ∧ for_state (for_program a b s body rest) b s (wrap32 (v + s)) 0 σ' := by
  obtain ⟨hP, hI, hptr, hf0, hcli⟩ := h
  have hlt : σ.current_line_index < program_size σ := by
    rw [for_program_size a b s body rest σ hP, hcli]; omega
  have he : execute_line F σ.current_line_index σ = _ :=
    execute_line_next F σ σ.current_line_index " I".toList
      (by rw [hcli]; exact for_program_line_next a b s body rest σ hP)
  refine ⟨_, by rw [run_steps_one _ σ _ hlt he, hcli], ?_⟩
  simp [for_state, execute_next, skip_ws_cons, isspace, isalpha, toupper, var_index, set_slot,
    hP, hI, hptr, hf0, hcli]

/-- The body lines of `for_program` are executed one after the other. -/
theorem for_body_pass (F : Nat) (a b s v : Int) (body rest : List ProgramLine)
    (hbody : ∀ (j : Nat) (w : Int) (σ : Interp), j < body.length →
      for_state (for_program a b s body rest) b s w ((j : Int) + 1) σ →
      ∃ σ', execute_line F ((j : Int) + 1) σ = some σ'
        ∧ for_state (for_program a b s body rest) b s w ((j : Int) + 1) σ') :
    ∀ (d c : Nat) (σ : Interp), c + d = body.length →
      for_state (for_program a b s body rest) b s v ((c : Int) + 1) σ →
      ∃ σ', run_steps F d σ
          = some ((List.range d).map (fun (j : Nat) => (((c + j : Nat) : Int) + 1)), σ')
        ∧ for_state (for_program a b s body rest) b s v ((body.length : Int) + 1) σ' := by
  intro d
  induction d with
  | zero =>
    intro c σ hc h
    have e : (c : Int) = body.length := by omega
    rw [e] at h
    exact ⟨σ, rfl, h⟩
  | succ d ih =>
    intro c σ hc h
    obtain ⟨σ1, he, h1⟩ := hbody c v σ (by omega) h
    obtain ⟨hP, hI, hptr, hf0, hcli⟩ := h
    obtain ⟨gP, gI, gptr, gf0, gcli⟩ := h1
    have hlt : σ.current_line_index < program_size σ := by
      rw [for_program_size a b s body rest σ hP, hcli]; omega
    rw [← hcli] at he
    have r1 := run_steps_one F σ σ1 hlt he
    have h2 : for_state (for_program a b s body rest) b s v (((c + 1 : Nat) : Int) + 1)
        { σ1 with current_line_index := σ1.current_line_index + 1 } := by
      refine ⟨gP, gI, gptr, gf0, ?_⟩
      simp [gcli]
    obtain ⟨σ3, r3, h3⟩ := ih (c + 1) _ (by omega) h2
    refine ⟨σ3, ?_, h3⟩
    have := run_steps_append F 1 d _ _ _ _ _ r1 r3
    rw [show 1 + d = d + 1 by omega] at this
    rw [this, hcli, List.range_succ_eq_map]
    simp [Function.comp_def, Nat.add_assoc, Nat.add_comm 1]

/-- The loop of `for_program`, from the start of the body of pass `c + 1`, when the body is
to be executed `N` times in all. -/
theorem for_loop_passes (F : Nat) (a b s : Int) (body rest : List ProgramLine)
    (hF : body.length + 3 ≤ F)
    (ha : INT_MIN ≤ a ∧ a ≤ INT_MAX) (hb : INT_MIN ≤ b ∧ b ≤ INT_MAX)
    (hs : INT_MIN ≤ s ∧ s ≤ INT_MAX)
    (hlex : ∀ l ∈ body, strncasecmp0 (skip_ws l.text) "FOR".toList = false
      ∧ strncasecmp0 (skip_ws l.text) "NEXT".toList = false)
    (hbody : ∀ (j : Nat) (w : Int) (σ : Interp), j < body.length →
      for_state (for_program a b s body rest) b s w ((j : Int) + 1) σ →
      ∃ σ', execute_line F ((j : Int) + 1) σ = some σ'
        ∧ for_state (for_program a b s body rest) b s w ((j : Int) + 1) σ')
    (N : Nat) (hcont : ∀ c : Nat, c < N → ¬ for_done b s (a + c * s))
    (hdone : for_done b s (a + N * s))
    (hrange : ∀ c : Nat, c ≤ N → INT_MIN ≤ a + c * s ∧ a + c * s ≤ INT_MAX) :
    ∀ (d c : Nat) (σ : Interp), c + 1 + d = N →
      for_state (for_program a b s body rest) b s (a + c * s) 1 σ →
      ∃ t σ', run_steps F t σ
          = some ((List.replicate (d + 1)
              ((List.range body.length).map (fun (j : Nat) => ((j : Int) + 1))
                ++ [(body.length : Int) + 1, 0])).flatten, σ')
        ∧ σ'.program = for_program a b s body rest ∧ σ'.for_stack_ptr = 0
        ∧ σ'.current_line_index = (body.length : Int) + 2
        ∧ σ'.variables 8 = a + N * s := by
  -- the body and `NEXT I`
  have pass : ∀ (c : Nat) (σ : Interp), c + 1 ≤ N →
      for_state (for_program a b s body rest) b s (a + c * s) 1 σ →
      ∃ σ', run_steps F (body.length + 1) σ
          = some ((List.range body.length).map (fun (j : Nat) => ((j : Int) + 1))
              ++ [(body.length : Int) + 1], σ')
        ∧ for_state (for_program a b s body rest) b s (a + ((c + 1 : Nat) : Int) * s) 0 σ' := by
    intro c σ hc h
    have h' : for_state (for_program a b s body rest) b s (a + c * s) (((0 : Nat) : Int) + 1) σ := by
      simpa using h
    obtain ⟨σ1, r1, h1⟩ := for_body_pass F a b s _ body rest hbody body.length 0 σ (by omega) h'
    obtain ⟨σ2, r2, h2⟩ := for_step_next F a b s _ body rest σ1 h1
    have hw : wrap32 (a + c * s + s) = a + ((c + 1 : Nat) : Int) * s := by
      have := hrange (c + 1) hc
      have e : a + (c : Int) * s + s = a + ((c + 1 : Nat) : Int) * s := by
        push_cast; ring
      rw [e]
      exact wrap32_of_range _ this
    rw [hw] at h2
    refine ⟨σ2, ?_, h2⟩
    have := run_steps_append F _ _ _ _ _ _ _ r1 r2
    simpa using this
  intro d
  induction d with
  | zero =>
    intro c σ hc h
    obtain ⟨σ1, r1, h1⟩ := pass c σ (by omega) h
    have e : c + 1 = N := by omega
    rw [e] at h1
    obtain ⟨σ2, r2, h2⟩ := for_step_exit F a b s _ body rest hF hlex σ1 ha hb hs hdone h1
    refine ⟨body.length + 1 + 1, σ2, ?_, h2⟩
    have := run_steps_append F _ _ _ _ _ _ _ r1 r2
    simpa using this
  | succ d ih =>
    intro c σ hc h
    obtain ⟨σ1, r1, h1⟩ := pass c σ (by omega) h
    obtain ⟨σ2, r2, h2⟩ := for_step_continue F (by omega) a b s _ body rest σ1 ha hb hs
      (hcont (c + 1) (by omega)) h1
    obtain ⟨t3, σ3, r3, h3⟩ := ih (c + 1) σ2 (by omega) h2
    refine ⟨body.length + 1 + 1 + t3, σ3, ?_, h3⟩
    have := run_steps_append F _ _ _ _ _ _ _ (run_steps_append F _ _ _ _ _ _ _ r1 r2) r3
    rw [this]
    simp [List.replicate_succ]

/-- The count of `for_count` is the number of values `a, a + s, ...` that pass the
termination test. -/
theorem for_count_spec (a b s : Int) (hs0 : s ≠ 0) :
    0 ≤ for_count a b s
      ∧ (∀ c : Int, 0 ≤ c → c < for_count a b s → ¬ for_done b s (a + c * s))
      ∧ for_done b s (a + for_count a b s * s) := by
  by_cases hs : s > 0
  · have hN : for_count a b s = max 0 ((b - a) / s + 1) := by
      unfold for_count; rw [if_pos hs]
    rw [hN]
    have h1 : (b - a) / s * s ≤ b - a := Int.ediv_mul_le _ hs0
    have h2 : b - a < ((b - a) / s + 1) * s := Int.lt_ediv_add_one_mul_self _ hs
    refine ⟨le_max_left _ _, ?_, ?_⟩
    · intro c hc0 hc
      have hc' : c ≤ (b - a) / s := by
        rcases lt_max_iff.1 hc with h | h <;> omega
      have : c * s ≤ (b - a) / s * s := Int.mul_le_mul_of_nonneg_right hc' (le_of_lt hs)
      rintro (⟨_, hd⟩ | ⟨hd, _⟩) <;> omega
    · left
      refine ⟨hs, ?_⟩
      by_cases hq : 0 ≤ (b - a) / s + 1
      · rw [max_eq_right hq]; omega
      · rw [max_eq_left (by omega)]
        have : ((b - a) / s + 1) * s ≤ 0 :=
          Int.mul_nonpos_of_nonpos_of_nonneg (by omega) (le_of_lt hs)
        omega
  · have hs' : 0 < -s := by omega
    have hN : for_count a b s = max 0 ((a - b) / (-s) + 1) := by
      unfold for_count; rw [if_neg hs]
    rw [hN]
    have h1 : (a - b) / (-s) * (-s) ≤ a - b := Int.ediv_mul_le _ (by omega)
    have h2 : a - b < ((a - b) / (-s) + 1) * (-s) := Int.lt_ediv_add_one_mul_self _ hs'
    refine ⟨le_max_left _ _, ?_, ?_⟩
    · intro c hc0 hc
      have hc' : c ≤ (a - b) / (-s) := by
        rcases lt_max_iff.1 hc with h | h <;> omega
      have h3 : c * (-s) ≤ (a - b) / (-s) * (-s) :=
        Int.mul_le_mul_of_nonneg_right hc' (le_of_lt hs')
      have e : c * s = -(c * (-s)) := by ring
      rintro (⟨hd, _⟩ | ⟨_, hd⟩)
      · exact hs hd
      · rw [e] at hd
        generalize c * (-s) = x at h3 hd
        generalize (a - b) / (-s) * (-s) = y at h1 h3
        omega
    · right
      refine ⟨by omega, ?_⟩
      by_cases hq : 0 ≤ (a - b) / (-s) + 1
      · rw [max_eq_right hq]
        have e : ((a - b) / (-s) + 1) * s = -(((a - b) / (-s) + 1) * (-s)) := by ring
        rw [e]
        generalize ((a - b) / (-s) + 1) * (-s) = y at h2
        omega
      · rw [max_eq_left (by omega)]
        have : ((a - b) / (-s) + 1) * (-s) ≤ 0 :=
          Int.mul_nonpos_of_nonpos_of_nonneg (by omega) (le_of_lt hs')
        generalize ((a - b) / (-s) + 1) * (-s) = y at h2 this
        omega

theorem for_values_range (a s : Int) (N c : Nat) (hc : c ≤ N)
    (ha : INT_MIN ≤ a ∧ a ≤ INT_MAX)
    (hov : INT_MIN ≤ a + N * s ∧ a + N * s ≤ INT_MAX) :
    INT_MIN ≤ a + c * s ∧ a + c * s ≤ INT_MAX := by
  have hcN : (c : Int) ≤ N := by exact_mod_cast hc
  have hc0 : (0 : Int) ≤ c := by positivity
  by_cases hs : 0 ≤ s
  · have h1 : (c : Int) * s ≤ N * s := Int.mul_le_mul_of_nonneg_right hcN hs
    have h2 : 0 ≤ (c : Int) * s := Int.mul_nonneg hc0 hs
    omega
  · have h1 : (N : Int) * s ≤ c * s := Int.mul_le_mul_of_nonpos_right hcN (by omega)
    have h2 : (c : Int) * s ≤ 0 := Int.mul_nonpos_of_nonneg_of_nonpos hc0 (by omega)
    omega

theorem count_body_indices (k j : Nat) :
    ((List.range k).map (fun (i : Nat) => ((i : Int) + 1))).count ((j : Int) + 1)
      = if j < k then 1 else 0 := by
  induction k with
  | zero => simp
  | succ k ih =>
    rw [List.range_succ, List.map_append, List.count_append, ih]
    by_cases h : j = k
    · subst h
      simp
    · have h0 : List.count ((j : Int) + 1) (List.map (fun (i : Nat) => ((i : Int) + 1)) [k]) = 0 := by
        rw [List.count_eq_zero]
        simp
        omega
      rw [h0]
      by_cases h1 : j < k
      · rw [if_pos h1, if_pos (by omega)]
      · rw [if_neg h1, if_neg (by omega)]

/-- Every body line occurs exactly `N` times in the trace of `N` passes. -/
theorem for_trace_count (k N j : Nat) (hj : j < k) :
    (for_trace k N).count ((j : Int) + 1) = N := by
  unfold for_trace
  have h0 : (j : Int) + 1 ≠ 0 := by omega
  rw [List.count_cons_of_ne h0]
  induction N with
  | zero => simp
  | succ N ih =>
    rw [List.replicate_succ, List.flatten_cons, List.count_append, ih, List.count_append,
      count_body_indices]
    have h2 : List.count ((j : Int) + 1) [(k : Int) + 1, 0] = 0 := by
      rw [List.count_eq_zero]
      simp
      omega
    rw [if_pos hj, h2]
    omega

/-- C2: for 32-bit integers `a`, `b` and `s ≠ 0` such that the loop variable does not
overflow, running the program `FOR I = a TO b STEP s`, a body, `NEXT I` from its first line
with an empty FOR stack executes the FOR line, then `N` times the body lines in order, the
NEXT line and the FOR line again, where `N` is `max(0, ⌊(b-a)/s⌋ + 1)` for `s > 0` and
`max(0, ⌊(a-b)/(-s)⌋ + 1)` for `s < 0` (`for_count`); every body line is executed exactly `N`
times; afterwards the FOR stack is empty again and the run continues with the line after
`NEXT I`.  The body is any list of lines, none starting with FOR or NEXT, whose execution in
a state of the loop changes neither `I`, nor the FOR stack, nor the line index. -/
theorem C2_for_loop_count (a b s : Int) (body rest : List ProgramLine) (F : Nat) (st : Interp)
    (ha : INT_MIN ≤ a ∧ a ≤ INT_MAX) (hb : INT_MIN ≤ b ∧ b ≤ INT_MAX)
    (hs : INT_MIN ≤ s ∧ s ≤ INT_MAX) (hs0 : s ≠ 0)
    (hov : INT_MIN ≤ a + for_count a b s * s ∧ a + for_count a b s * s ≤ INT_MAX)
    (hF : body.length + 3 ≤ F)
    (hlex : ∀ l ∈ body, strncasecmp0 (skip_ws l.text) "FOR".toList = false
      ∧ strncasecmp0 (skip_ws l.text) "NEXT".toList = false)
    (hbody : ∀ (j : Nat) (w : Int) (σ : Interp), j < body.length →
      for_state (for_program a b s body rest) b s w ((j : Int) + 1) σ →
      ∃ σ', execute_line F ((j : Int) + 1) σ = some σ'
        ∧ for_state (for_program a b s body rest) b s w ((j : Int) + 1) σ')
    (hP : st.program = for_program a b s body rest) (hptr : st.for_stack_ptr = 0)
    (hcli : st.current_line_index = 0) :
    ∃ t st',
      run_steps F t st = some (for_trace body.length (for_count a b s).toNat, st')
      ∧ (∀ j : Nat, j < body.length →
          (for_trace body.length (for_count a b s).toNat).count ((j : Int) + 1)
            = (for_count a b s).toNat)
      ∧ st'.current_line_index = (body.length : Int) + 2
      ∧ st'.for_stack_ptr = 0
      ∧ st'.program = for_program a b s body rest
      ∧ st'.variables 8 = a + for_count a b s * s
      ∧ ∀ r, run_loop F (t + r) st = run_loop F r st' := by
  obtain ⟨hc0, hcont, hdone⟩ := for_count_spec a b s hs0
  obtain ⟨N, hN⟩ : ∃ N : Nat, for_count a b s = N := ⟨(for_count a b s).toNat, by omega⟩
  rw [hN] at hov hdone ⊢
  have hNt : ((N : Int)).toNat = N := by omega
  rw [hNt]
  have hcont' : ∀ c : Nat, c < N → ¬ for_done b s (a + c * s) := by
    intro c hc
    exact hcont c (by omega) (by rw [hN]; exact_mod_cast hc)
  have hrange : ∀ c : Nat, c ≤ N → INT_MIN ≤ a + c * s ∧ a + c * s ≤ INT_MAX :=
    fun c hc => for_values_range a s N c hc ha hov
  have fin : ∀ (t : Nat) (st' : Interp),
      run_steps F t st = some (for_trace body.length N, st') →
      (st'.program = for_program a b s body rest ∧ st'.for_stack_ptr = 0
        ∧ st'.current_line_index = (body.length : Int) + 2 ∧ st'.variables 8 = a + N * s) →
      ∃ t st',
        run_steps F t st = some (for_trace body.length N, st')
        ∧ (∀ j : Nat, j < body.length →
            (for_trace body.length N).count ((j : Int) + 1) = N)
        ∧ st'.current_line_index = (body.length : Int) + 2
        ∧ st'.for_stack_ptr = 0
        ∧ st'.program = for_program a b s body rest
        ∧ st'.variables 8 = a + N * s
        ∧ ∀ r, run_loop F (t + r) st = run_loop F r st' := by
    intro t st' hr ⟨f1, f2, f3, f4⟩
    exact ⟨t, st', hr, fun j hj => for_trace_count body.length N j hj, f3, f2, f1, f4,
      fun r => run_loop_of_steps F t r st st' _ hr⟩
  cases N with
  | zero =>
    have hd : for_done b s a := by simpa using hdone
    obtain ⟨σ1, r1, h1⟩ := for_step_enter_skip F a b s body rest hF hlex st ha hb hs hd hP hptr
      hcli
    refine fin 1 σ1 (by simpa [for_trace] using r1) ?_
    simpa using h1
  | succ M =>
    have hnd : ¬ for_done b s a := by
      have := hcont' 0 (by omega)
      simpa using this
    obtain ⟨σ1, r1, h1⟩ := for_step_enter F (by omega) a b s body rest st ha hb hs hnd hP hptr
      hcli
    have h1' : for_state (for_program a b s body rest) b s (a + ((0 : Nat) : Int) * s) 1 σ1 := by
      simpa using h1
    obtain ⟨t2, σ2, r2, h2⟩ := for_loop_passes F a b s body rest hF ha hb hs hlex hbody (M + 1)
      hcont' hdone hrange M 0 σ1 (by omega) h1'
    refine fin (1 + t2) σ2 ?_ h2
    have := run_steps_append F _ _ _ _ _ _ _ r1 r2
    simpa [for_trace] using this

/-- The line `PRINT I` as body of the loop of `for_program`. -/
theorem print_I_body (F : Nat) (hF : 4 ≤ F) (a b s : Int) (rest : List ProgramLine) :
    ∀ (j : Nat) (w : Int) (σ : Interp), j < [(⟨15, "PRINT I".toList⟩ : ProgramLine)].length →
      for_state (for_program a b s [⟨15, "PRINT I".toList⟩] rest) b s w ((j : Int) + 1) σ →
      ∃ σ', execute_line F ((j : Int) + 1) σ = some σ'
        ∧ for_state (for_program a b s [⟨15, "PRINT I".toList⟩] rest) b s w ((j : Int) + 1) σ' := by
  intro j w σ hj h
  obtain ⟨f, rfl⟩ : ∃ f, F = f + 4 := ⟨F - 4, by omega⟩
  have hj0 : j = 0 := by simpa using hj
  subst hj0
  obtain ⟨hP, hI, hptr, hf0, hcli⟩ := h
  have hl := for_program_line_body a b s [⟨15, "PRINT I".toList⟩] rest σ hP 0 (by simp)
  have he : execute_line (f + 4) (((0 : Nat) : Int) + 1) σ
      = some (set_pos (printf σ (fmt_d (σ.variables 8) ++ ['\n'])) []) := by
    rw [execute_line_print (f + 4) σ _ " I".toList (by rw [hl]; rfl)]
    simp [execute_print, execute_print_loop, parse_string_operand, parse_expression, parse_term,
      parse_factor, parse_term_loop, parse_expression_loop, skip_ws_cons, strncasecmp0, tolower,
      isspace, isalpha, var_index, toupper]
  exact ⟨_, he, by simp [for_state, hP, hI, hptr, hf0, hcli]⟩

theorem C2_for_loop_count_witness :
    ∃ t st',
      run_steps 5 t { init_interpreter [] with
          program := for_program 1 5 2 [⟨15, "PRINT I".toList⟩] [] }
        = some ([0, 1, 2, 0, 1, 2, 0, 1, 2, 0], st')
      ∧ st'.current_line_index = 3 ∧ st'.for_stack_ptr = 0 ∧ st'.variables 8 = 7 :=
  (C2_for_loop_count 1 5 2 [⟨15, "PRINT I".toList⟩] [] 5
      { init_interpreter [] with program := for_program 1 5 2 [⟨15, "PRINT I".toList⟩] [] }
      (by decide) (by decide) (by decide) (by decide) (by decide) (by decide) (by decide)
      (print_I_body 5 (by decide) 1 5 2 []) rfl rfl rfl).elim
    fun t h => h.elim fun st' h => ⟨t, st', h.1, h.2.2.1, h.2.2.2.1, h.2.2.2.2.2.1⟩

/-- Evaluation of `INSTR(op1, op2)` for operand texts, each of which evaluates to a string
or to the NULL result, and leaves the cursor behind it. -/
theorem parse_instr_opt (g : Nat) (st : Interp) (op1 op2 rest : List Char)
    (s t : Option (List Char))
    (hop1 : ∀ r, parse_string_operand g (set_pos st (op1 ++ ',' :: r)) = some (s, set_pos st (',' :: r)))
    (hop2 : ∀ r, parse_string_operand g (set_pos st (op2 ++ ')' :: r)) = some (t, set_pos st (')' :: r))) :
    parse_factor (g + 1) (set_pos st ("INSTR(".toList ++ op1 ++ ',' :: (op2 ++ ')' :: rest)))
      = some (instr_result s t, set_pos st rest) := by
  have k : ∀ u, strncasecmp0 ('I' :: 'N' :: 'S' :: 'T' :: 'R' :: u) ['I', 'N', 'S', 'T', 'R']
      = true := by
    intro u; simp [strncasecmp0]
  have a : isalpha 'I' = true := by decide
  simp [parse_factor, skip_ws_cons, isspace, k, a, hop1, hop2]

theorem strstr_empty_needle (h : List Char) : strstr h [] = some 0 := by
  cases h <;> simp [strstr, strstr_from, starts_with]

theorem strstr_empty_haystack (n : List Char) (hn : n ≠ []) : strstr [] n = none := by
  simp [strstr, strstr_from, hn]

/-- C11: `INSTR(H, N)` with an empty needle `N` (the literal `""` or an unassigned string
variable) evaluates to `1` for every operand `H` that evaluates to a string; with an empty
haystack (the literal `""` or an unassigned string variable) and an operand `N` that
evaluates to a non-empty string it evaluates to `0`; with an absent operand it evaluates
to `0`. -/
theorem C11_instr_empty (st : Interp) (op s rest : List Char) (v : Char) (g0 fuel : Nat)
    (hop : ∀ (g : Nat) (r : List Char), g0 ≤ g →
      parse_string_operand g (set_pos st (op ++ r)) = some (some s, set_pos st r))
    (hv : isalpha v = true) (hu : st.string_variables (var_index (toupper v)) = none) :
    parse_factor (g0 + fuel + 2)
        (set_pos st ("INSTR(".toList ++ op ++ ",".toList ++ ['"', '"'] ++ ")".toList ++ rest))
      = some (1, set_pos st rest)
    ∧ parse_factor (g0 + fuel + 2)
        (set_pos st ("INSTR(".toList ++ op ++ ",".toList ++ [v, '$'] ++ ")".toList ++ rest))
      = some (1, set_pos st rest)
    ∧ (s ≠ [] →
      parse_factor (g0 + fuel + 2)
          (set_pos st ("INSTR(".toList ++ ['"', '"'] ++ ",".toList ++ op ++ ")".toList ++ rest))
        = some (0, set_pos st rest)
      ∧ parse_factor (g0 + fuel + 2)
          (set_pos st ("INSTR(".toList ++ [v, '$'] ++ ",".toList ++ op ++ ")".toList ++ rest))
        = some (0, set_pos st rest))
    ∧ parse_factor (g0 + fuel + 2)
        (set_pos st ("INSTR(".toList ++ op ++ ",".toList ++ ")".toList ++ rest))
      = some (0, set_pos st rest)
    ∧ parse_factor (g0 + fuel + 2)
        (set_pos st ("INSTR(".toList ++ ",".toList ++ op ++ ")".toList ++ rest))
      = some (0, set_pos st rest) := by
  have e : g0 + fuel + 2 = (g0 + fuel + 1) + 1 := rfl
  rw [e]
  have h1 : ∀ r, parse_string_operand (g0 + fuel + 1) (set_pos st (op ++ r))
      = some (some s, set_pos st r) := fun r => hop _ r (by omega)
  have h2 : ∀ r, parse_string_operand (g0 + fuel + 1) (set_pos st (['"', '"'] ++ r))
      = some (some [], set_pos st r) := fun r => by
    have := string_literal_operand st [] (by decide) (by simp) (g0 + fuel + 1) r (by omega)
    simpa using this
  have h3 : ∀ r, parse_string_operand (g0 + fuel + 1) (set_pos st ([v, '$'] ++ r))
      = some (some [], set_pos st r) := fun r => by
    have := parse_string_operand_var (g0 + fuel) st v r hv
    rw [hu] at this
    simpa using this
  have h4 : ∀ r, parse_string_operand (g0 + fuel + 1) (set_pos st ([] ++ ')' :: r))
      = some (none, set_pos st (')' :: r)) := fun r =>
    parse_string_operand_none _ st ')' r (by decide) (by decide) (by decide)
  have h5 : ∀ r, parse_string_operand (g0 + fuel + 1) (set_pos st ([] ++ ',' :: r))
      = some (none, set_pos st (',' :: r)) := fun r =>
    parse_string_operand_none _ st ',' r (by decide) (by decide) (by decide)
  have one : wrap32 (0 + 1) = 1 := by decide
  refine ⟨?_, ?_, ?_, ?_, ?_⟩
  · have := parse_instr _ st op ['"', '"'] s [] rest h1 h2
    simpa [instr_result, strstr_empty_needle, one] using this
  · have := parse_instr _ st op [v, '$'] s [] rest h1 h3
    simpa [instr_result, strstr_empty_needle, one] using this
  · intro hs
    constructor
    · have := parse_instr _ st ['"', '"'] op [] s rest h2 h1
      simpa [instr_result, strstr_empty_haystack s hs] using this
    · have := parse_instr _ st [v, '$'] op [] s rest h3 h1
      simpa [instr_result, strstr_empty_haystack s hs] using this
  · have := parse_instr_opt _ st op [] rest (some s) none (fun r => h1 _) h4
    simpa [instr_result] using this
  · have := parse_instr_opt _ st [] op rest none (some s) h5 (fun r => h1 _)
    simpa [instr_result] using this

theorem C11_instr_empty_witness :
    parse_factor 3
        (set_pos (init_interpreter [])
          ("INSTR(".toList ++ ('"' :: ("HELLO".toList ++ ['"'])) ++ ",".toList ++ ['"', '"']
            ++ ")".toList ++ []))
      = some (1, set_pos (init_interpreter []) []) :=
  (C11_instr_empty (init_interpreter []) ('"' :: ("HELLO".toList ++ ['"'])) "HELLO".toList []
    'N' 1 0 (string_literal_operand (init_interpreter []) "HELLO".toList (by decide) (by decide))
    (by decide) rfl).1

/-- C11 as stated fails: `INSTR("HELLO", "")` evaluates to `1`, not to `0`. -/
theorem C11_counterexample :
    (parse_factor 3
        (set_pos (init_interpreter [])
          ("INSTR(".toList ++ ['"'] ++ "HELLO".toList ++ ['"', ',', '"', '"', ')']))).map
      Prod.fst = some 1
    ∧ ¬ (parse_factor 3
        (set_pos (init_interpreter [])
          ("INSTR(".toList ++ ['"'] ++ "HELLO".toList ++ ['"', ',', '"', '"', ')']))).map
      Prod.fst = some 0 := by
  have h : (parse_factor 3
        (set_pos (init_interpreter [])
          ("INSTR(".toList ++ ['"'] ++ "HELLO".toList ++ ['"', ',', '"', '"', ')']))).map
      Prod.fst = some 1 := by rfl
  exact ⟨h, by rw [h]; decide⟩

theorem skip_ws_of_head (c : Char) (t : List Char) (h : isspace c = false) :
    skip_ws (c :: t) = c :: t := by
  simp [skip_ws_cons, h]

/-- The operator scan of `execute_if` on each of the seven operators it reads. -/
theorem read_operator_ops (st : Interp) (op r : List Char)
    (hop : op ∈ ["=".toList, "==".toList, "<>".toList, "<".toList, ">".toList, "<=".toList,
      ">=".toList]) :
    read_operator (set_pos st (op ++ ' ' :: r)) = (op, set_pos st (' ' :: r)) := by
  simp at hop
  rcases hop with rfl | rfl | rfl | rfl | rfl | rfl | rfl <;>
    simp [read_operator, advance]

/-- The left side, the operator and the right side of `IF x op y ...` for integer
literals. -/
theorem execute_if_literals (fuel : Nat) (st : Interp) (x y : Int) (op rest : List Char)
    (hx : INT_MIN ≤ x ∧ x ≤ INT_MAX) (hy : INT_MIN ≤ y ∧ y ≤ INT_MAX)
    (hop : op ∈ ["=".toList, "==".toList, "<>".toList, "<".toList, ">".toList, "<=".toList,
      ">=".toList])
    (h1 : isdigit (peek rest) = false)
    (h3 : peek (skip_ws rest) ≠ '+') (h4 : peek (skip_ws rest) ≠ '-')
    (h5 : peek (skip_ws rest) ≠ '*') (h6 : peek (skip_ws rest) ≠ '/') :
    execute_if (fuel + 3) (set_pos st (fmt_d x ++ ' ' :: (op ++ ' ' :: (fmt_d y ++ rest))))
      = execute_if_then (fuel + 3) (eval_condition op (int_cmp x y))
          (set_pos st (skip_ws rest)) := by
  obtain ⟨c, t, hc, c1, c2, c3, c4⟩ := fmt_d_head x
  have hso : skip_ws (op ++ ' ' :: (fmt_d y ++ rest)) = op ++ ' ' :: (fmt_d y ++ rest) := by
    simp at hop
    rcases hop with rfl | rfl | rfl | rfl | rfl | rfl | rfl <;> simp [skip_ws_cons, isspace]
  have hpk : peek (op ++ ' ' :: (fmt_d y ++ rest)) ≠ '+'
      ∧ peek (op ++ ' ' :: (fmt_d y ++ rest)) ≠ '-'
      ∧ peek (op ++ ' ' :: (fmt_d y ++ rest)) ≠ '*'
      ∧ peek (op ++ ' ' :: (fmt_d y ++ rest)) ≠ '/' := by
    simp at hop
    rcases hop with rfl | rfl | rfl | rfl | rfl | rfl | rfl <;> simp
  have e1 := parse_expression_literal_ws fuel st x (' ' :: (op ++ ' ' :: (fmt_d y ++ rest))) hx
    (by simp [isdigit]) (by simpa [skip_ws_cons, isspace, hso] using hpk.1)
    (by simpa [skip_ws_cons, isspace, hso] using hpk.2.1)
    (by simpa [skip_ws_cons, isspace, hso] using hpk.2.2.1)
    (by simpa [skip_ws_cons, isspace, hso] using hpk.2.2.2)
  have e2 := parse_expression_literal_ws fuel st y rest hy h1 h3 h4 h5 h6
  have e3 := parse_expression_space (fuel + 3) st (fmt_d y ++ rest)
  have e0 := parse_string_operand_none (fuel + 2) st c
    (t ++ ' ' :: (op ++ ' ' :: (fmt_d y ++ rest))) c1 c2 c3
  have hro := read_operator_ops st op (fmt_d y ++ rest) hop
  simp only [skip_ws_cons, isspace, Bool.or_self, Bool.false_eq_true, if_false, decide_True,
    Bool.true_or, Bool.or_true, if_true, hso] at e1
  rw [hc] at e1
  rw [hc]
  simp only [List.cons_append] at e1
  simp only [execute_if, skip_whitespace, set_pos_current_pos, List.cons_append,
    skip_ws_of_head c _ c1, set_pos_set_pos, e0, e1, hso, hro, e3, e2]

/-- The tail of `execute_if` on an optional `THEN` followed by a statement that starts with
a letter. -/
theorem execute_if_then_stmt (F : Nat) (st : Interp) (cond : Bool) (th stmt : List Char)
    (hth : th = " THEN ".toList ∨ th = " ".toList)
    (hstmt : isalpha (peek stmt) = true)
    (hnt : strncasecmp0 stmt "THEN".toList = false) :
    execute_if_then F cond (set_pos st (skip_ws (th ++ stmt)))
      = if cond = true then
          (if strncasecmp0 stmt "GOTO".toList then execute_goto F (set_pos st (stmt.drop 4))
          else if strncasecmp0 stmt "PRINT".toList then
            execute_print F (set_pos st (stmt.drop 5))
          else if strncasecmp0 stmt "LET".toList then execute_let F (set_pos st (stmt.drop 3))
          else execute_let F (set_pos st stmt))
        else some (set_pos st stmt) := by
  obtain ⟨c, t, rfl⟩ : ∃ c t, stmt = c :: t := by
    cases stmt with
    | nil => exact absurd hstmt (by decide)
    | cons c t => exact ⟨c, t, rfl⟩
  simp only [peek_cons] at hstmt
  obtain ⟨a1, -⟩ := isalpha_props c hstmt
  have hs : skip_ws (c :: t) = c :: t := skip_ws_of_head c t a1
  have k : ∀ u, strncasecmp0 ('T' :: 'H' :: 'E' :: 'N' :: u) ['T', 'H', 'E', 'N'] = true := by
    intro u; simp [strncasecmp0]
  have hnt' : strncasecmp0 (c :: t) ['T', 'H', 'E', 'N'] = false := hnt
  rcases hth with rfl | rfl
  · simp [execute_if_then, skip_ws_cons, isspace, k, advance, hs, hstmt, a1]
  · simp [execute_if_then, skip_ws_cons, isspace, advance, hs, hstmt, a1, hnt']

/-- C12: for all 32-bit integers `x` and `y` written as literals, `IF x op y THEN stmt` and
`IF x op y stmt`, where `stmt` starts with a letter (`GOTO`, `PRINT`, `LET` or a bare
assignment), run the trailing statement exactly when the relation named by `op` holds
between `x` and `y`: equal for `=` and `==`, different for `<>`, less for `<`, greater for
`>`, at most for `<=`, at least for `>=`. Otherwise nothing but the cursor changes. -/
theorem C12_if_operators (st : Interp) (x y : Int) (th stmt : List Char) (fuel : Nat)
    (hx : INT_MIN ≤ x ∧ x ≤ INT_MAX) (hy : INT_MIN ≤ y ∧ y ≤ INT_MAX)
    (hth : th = " THEN ".toList ∨ th = " ".toList)
    (hstmt : isalpha (peek stmt) = true)
    (hnt : strncasecmp0 stmt "THEN".toList = false) :
    ∀ taken : Option Interp,
      taken = (if strncasecmp0 stmt "GOTO".toList then
            execute_goto (fuel + 3) (set_pos st (stmt.drop 4))
          else if strncasecmp0 stmt "PRINT".toList then
            execute_print (fuel + 3) (set_pos st (stmt.drop 5))
          else if strncasecmp0 stmt "LET".toList then
            execute_let (fuel + 3) (set_pos st (stmt.drop 3))
          else execute_let (fuel + 3) (set_pos st stmt)) →
      execute_if (fuel + 3) (set_pos st (fmt_d x ++ " = ".toList ++ fmt_d y ++ th ++ stmt))
        = (if x = y then taken else some (set_pos st stmt))
      ∧ execute_if (fuel + 3) (set_pos st (fmt_d x ++ " == ".toList ++ fmt_d y ++ th ++ stmt))
        = (if x = y then taken else some (set_pos st stmt))
      ∧ execute_if (fuel + 3) (set_pos st (fmt_d x ++ " <> ".toList ++ fmt_d y ++ th ++ stmt))
        = (if x ≠ y then taken else some (set_pos st stmt))
      ∧ execute_if (fuel + 3) (set_pos st (fmt_d x ++ " < ".toList ++ fmt_d y ++ th ++ stmt))
        = (if x < y then taken else some (set_pos st stmt))
      ∧ execute_if (fuel + 3) (set_pos st (fmt_d x ++ " > ".toList ++ fmt_d y ++ th ++ stmt))
        = (if x > y then taken else some (set_pos st stmt))
      ∧ execute_if (fuel + 3) (set_pos st (fmt_d x ++ " <= ".toList ++ fmt_d y ++ th ++ stmt))
        = (if x ≤ y then taken else some (set_pos st stmt))
      ∧ execute_if (fuel + 3) (set_pos st (fmt_d x ++ " >= ".toList ++ fmt_d y ++ th ++ stmt))
        = (if x ≥ y then taken else some (set_pos st stmt)) := by
  intro taken htaken
  obtain ⟨c, t, hct⟩ : ∃ c t, stmt = c :: t := by
    cases stmt with
    | nil => exact absurd hstmt (by decide)
    | cons c t => exact ⟨c, t, rfl⟩
  have hc : isalpha c = true := by simpa [hct] using hstmt
  obtain ⟨a1, a2, -, -, -, -, -, -, -, a10⟩ := isalpha_props c hc
  have hs1 : skip_ws (" ".toList ++ stmt) = stmt := by
    rw [hct]
    show skip_ws (' ' :: c :: t) = c :: t
    rw [skip_ws_cons, skip_ws_of_head c t a1]
    simp [isspace]
  have hpk : ∀ d : Char, isalpha d = false → peek (skip_ws (th ++ stmt)) ≠ d := by
    intro d hd
    rcases hth with rfl | rfl
    · simp [skip_ws_cons, isspace]
      intro h; rw [← h] at hd; exact absurd hd (by decide)
    · rw [hs1, hct]
      simp only [peek_cons]
      intro h; rw [h] at hc; rw [hc] at hd; exact absurd hd (by decide)
  have hdg : isdigit (peek (th ++ stmt)) = false := by
    rcases hth with rfl | rfl <;> simp [isdigit]
  have key : ∀ op, op ∈ ["=".toList, "==".toList, "<>".toList, "<".toList, ">".toList,
      "<=".toList, ">=".toList] →
      execute_if (fuel + 3)
          (set_pos st (fmt_d x ++ ' ' :: (op ++ ' ' :: (fmt_d y ++ (th ++ stmt)))))
        = if eval_condition op (int_cmp x y) = true then taken
          else some (set_pos st stmt) := by
    intro op hop
    rw [execute_if_literals fuel st x y op (th ++ stmt) hx hy hop hdg
      (hpk '+' (by decide)) (hpk '-' (by decide)) (hpk '*' (by decide)) (hpk '/' (by decide)),
      execute_if_then_stmt (fuel + 3) st _ th stmt hth hstmt hnt, htaken]
  have k1 := key "=".toList (by simp)
  have k2 := key "==".toList (by simp)
  have k3 := key "<>".toList (by simp)
  have k4 := key "<".toList (by simp)
  have k5 := key ">".toList (by simp)
  have k6 := key "<=".toList (by simp)
  have k7 := key ">=".toList (by simp)
  have c1 : eval_condition "=".toList (int_cmp x y) = decide (x = y) := by
    have e : ∀ cmp : Int, eval_condition "=".toList cmp = decide (cmp = 0) := fun _ => rfl
    rw [e]
    unfold int_cmp
    split_ifs <;> simp <;> omega
  have c2 : eval_condition "==".toList (int_cmp x y) = decide (x = y) := by
    have e : ∀ cmp : Int, eval_condition "==".toList cmp = decide (cmp = 0) := fun _ => rfl
    rw [e]
    unfold int_cmp
    split_ifs <;> simp <;> omega
  have c3 : eval_condition "<>".toList (int_cmp x y) = decide (x ≠ y) := by
    have e : ∀ cmp : Int, eval_condition "<>".toList cmp = decide (cmp ≠ 0) := fun _ => rfl
    rw [e]
    unfold int_cmp
    split_ifs <;> simp <;> omega
  have c4 : eval_condition "<".toList (int_cmp x y) = decide (x < y) := by
    have e : ∀ cmp : Int, eval_condition "<".toList cmp = decide (cmp < 0) := fun _ => rfl
    rw [e]
    unfold int_cmp
    split_ifs <;> simp <;> omega
  have c5 : eval_condition ">".toList (int_cmp x y) = decide (x > y) := by
    have e : ∀ cmp : Int, eval_condition ">".toList cmp = decide (cmp > 0) := fun _ => rfl
    rw [e]
    unfold int_cmp
    split_ifs <;> simp <;> omega
  have c6 : eval_condition "<=".toList (int_cmp x y) = decide (x ≤ y) := by
    have e : ∀ cmp : Int, eval_condition "<=".toList cmp = decide (cmp ≤ 0) := fun _ => rfl
    rw [e]
    unfold int_cmp
    split_ifs <;> simp <;> omega
  have c7 : eval_condition ">=".toList (int_cmp x y) = decide (x ≥ y) := by
    have e : ∀ cmp : Int, eval_condition ">=".toList cmp = decide (cmp ≥ 0) := fun _ => rfl
    rw [e]
    unfold int_cmp
    split_ifs <;> simp <;> omega
  rw [c1] at k1; rw [c2] at k2; rw [c3] at k3; rw [c4] at k4; rw [c5] at k5; rw [c6] at k6
  rw [c7] at k7
  refine ⟨?_, ?_, ?_, ?_, ?_, ?_, ?_⟩
  · simpa using k1
  · simpa using k2
  · simpa using k3
  · simpa using k4
  · simpa using k5
  · simpa using k6
  · simpa using k7

theorem C12_if_operators_witness :
    execute_if 5
        (set_pos (init_interpreter [])
          (fmt_d 1 ++ " < ".toList ++ fmt_d 2 ++ " THEN ".toList ++ "PRINT 7".toList))
      = (if (1 : Int) < 2 then execute_print 5 (set_pos (init_interpreter []) " 7".toList)
        else some (set_pos (init_interpreter []) "PRINT 7".toList)) :=
  (C12_if_operators (init_interpreter []) 1 2 " THEN ".toList "PRINT 7".toList 2 (by decide)
    (by decide) (Or.inl rfl) (by decide) (by decide) _ rfl).2.2.2.1

/-- An expression that starts with `!` evaluates to `0` and consumes nothing. -/
theorem parse_expression_bang (fuel : Nat) (st : Interp) (r : List Char) :
    parse_expression (fuel + 3) (set_pos st ('!' :: r)) = some (0, set_pos st ('!' :: r)) := by
  simp [parse_expression, parse_term, parse_factor, parse_term_loop, parse_expression_loop,
    skip_ws_cons, isspace, isalpha, isdigit]

/-- C13: the operator scan of `execute_if` does not read `!=`. For all 32-bit integers `x`
and `y` written as literals, `IF x != y THEN stmt` and `IF x != y stmt` leave the cursor at
the `!` and never run the trailing statement, whether or not `x` differs from `y`. -/
theorem C13_bang_equal_not_read (st : Interp) (x y : Int) (th stmt : List Char) (fuel : Nat)
    (hx : INT_MIN ≤ x ∧ x ≤ INT_MAX) :
    execute_if (fuel + 3) (set_pos st (fmt_d x ++ " != ".toList ++ fmt_d y ++ th ++ stmt))
      = some (set_pos st ("!= ".toList ++ fmt_d y ++ th ++ stmt)) := by
  obtain ⟨c, t, hc, c1, c2, c3, c4⟩ := fmt_d_head x
  have e1 := parse_expression_literal_ws fuel st x (" != ".toList ++ fmt_d y ++ th ++ stmt) hx
    (by simp [isdigit]) (by simp [skip_ws_cons, isspace]) (by simp [skip_ws_cons, isspace])
    (by simp [skip_ws_cons, isspace]) (by simp [skip_ws_cons, isspace])
  have e0 := parse_string_operand_none (fuel + 2) st c
    (t ++ (" != ".toList ++ fmt_d y ++ th ++ stmt)) c1 c2 c3
  have e2 := parse_expression_bang fuel st ('=' :: ' ' :: (fmt_d y ++ (th ++ stmt)))
  have k : ∀ u, strncasecmp0 ('!' :: u) ['T', 'H', 'E', 'N'] = false := by
    intro u; simp [strncasecmp0, tolower]
  have ec : ∀ cmp : Int, eval_condition [] cmp = false := fun _ => rfl
  rw [hc] at e1
  simp only [skip_ws_cons, isspace, List.cons_append, List.append_assoc, String.toList,
    List.nil_append] at e1 e0 ⊢
  simp at e1
  rw [hc]
  simp only [execute_if, skip_whitespace, set_pos_current_pos, List.cons_append,
    List.append_assoc, skip_ws_of_head c _ c1, set_pos_set_pos, e0, e1]
  simp [read_operator, skip_ws_cons, isspace, e2, ec, execute_if_then, k]

theorem C13_bang_equal_not_read_witness :
    execute_if 5
        (set_pos (init_interpreter [])
          (fmt_d 1 ++ " != ".toList ++ fmt_d 2 ++ " THEN ".toList ++ "PRINT 7".toList))
      = some (set_pos (init_interpreter [])
          ("!= ".toList ++ fmt_d 2 ++ " THEN ".toList ++ "PRINT 7".toList)) :=
  C13_bang_equal_not_read (init_interpreter []) 1 2 " THEN ".toList "PRINT 7".toList 2
    (by decide)

/-! ## Frame of the evaluators -/

@[simp] theorem frame_set_pos (s : Interp) (p : List Char) : frame (set_pos s p) = frame s := rfl
@[simp] theorem frame_eprintf (s : Interp) (p : List Char) : frame (eprintf s p) = frame s := rfl
@[simp] theorem frame_advance (s : Interp) (n : Nat) : frame (advance n s) = frame s := rfl
@[simp] theorem frame_skip_whitespace (s : Interp) : frame (skip_whitespace s) = frame s := rfl
theorem frame_ite (c : Prop) [Decidable c] (a b : Interp) :
    frame (if c then a else b) = if c then frame a else frame b := by
  split <;> rfl
theorem frame_read_string_literal (s : Interp) : frame (read_string_literal s).2 = frame s := by
  unfold read_string_literal
  simp only []
  split
  · rfl
  · split <;> rfl

set_option maxHeartbeats 2000000 in
theorem parse_frame (fuel : Nat) :
    (∀ s v s', parse_factor fuel s = some (v, s') → frame s' = frame s)
    ∧ (∀ r s v s', parse_term_loop fuel r s = some (v, s') → frame s' = frame s)
    ∧ (∀ s v s', parse_term fuel s = some (v, s') → frame s' = frame s)
    ∧ (∀ r s v s', parse_expression_loop fuel r s = some (v, s') → frame s' = frame s)
    ∧ (∀ s v s', parse_expression fuel s = some (v, s') → frame s' = frame s)
    ∧ (∀ s v s', parse_string_operand fuel s = some (v, s') → frame s' = frame s) := by
  induction fuel with
  | zero =>
    refine ⟨?_, ?_, ?_, ?_, ?_, ?_⟩ <;> intros <;> rename_i h <;>
      simp [parse_factor, parse_term_loop, parse_term, parse_expression_loop, parse_expression,
        parse_string_operand] at h
  | succ fuel ih =>
    obtain ⟨ihF, ihTL, ihT, ihEL, ihE, ihS⟩ := ih
    refine ⟨?_, ?_, ?_, ?_, ?_, ?_⟩
    · intro s v s' h
      simp only [parse_factor] at h
      repeat' split at h
      all_goals (try cases h)
      all_goals
        repeat (first
          | with_reducible rfl
          | refine Eq.trans (ihF _ _ _ (by assumption)) ?_
          | refine Eq.trans (ihTL _ _ _ _ (by assumption)) ?_
          | refine Eq.trans (ihT _ _ _ (by assumption)) ?_
          | refine Eq.trans (ihEL _ _ _ _ (by assumption)) ?_
          | refine Eq.trans (ihE _ _ _ (by assumption)) ?_
          | refine Eq.trans (ihS _ _ _ (by assumption)) ?_
          | simp only [frame_set_pos, frame_eprintf, frame_advance, frame_skip_whitespace,
              frame_ite, ite_self, frame_read_string_literal])
    · intro r s v s' h
      simp only [parse_term_loop] at h
      repeat' split at h
      all_goals (try cases h)
      all_goals
        repeat (first
          | with_reducible rfl
          | refine Eq.trans (ihF _ _ _ (by assumption)) ?_
          | refine Eq.trans (ihTL _ _ _ _ (by assumption)) ?_
          | refine Eq.trans (ihT _ _ _ (by assumption)) ?_
          | refine Eq.trans (ihEL _ _ _ _ (by assumption)) ?_
          | refine Eq.trans (ihE _ _ _ (by assumption)) ?_
          | refine Eq.trans (ihS _ _ _ (by assumption)) ?_
          | simp only [frame_set_pos, frame_eprintf, frame_advance, frame_skip_whitespace,
              frame_ite, ite_self, frame_read_string_literal])
    · intro s v s' h
      simp only [parse_term] at h
      repeat' split at h
      all_goals (try cases h)
      all_goals
        repeat (first
          | with_reducible rfl
          | refine Eq.trans (ihF _ _ _ (by assumption)) ?_
          | refine Eq.trans (ihTL _ _ _ _ (by assumption)) ?_
          | simp only [frame_set_pos, frame_eprintf, frame_advance, frame_skip_whitespace,
              frame_ite, ite_self, frame_read_string_literal])
    · intro r s v s' h
      simp only [parse_expression_loop] at h
      repeat' split at h
      all_goals (try cases h)
      all_goals
        repeat (first
          | with_reducible rfl
          | refine Eq.trans (ihF _ _ _ (by assumption)) ?_
          | refine Eq.trans (ihTL _ _ _ _ (by assumption)) ?_
          | refine Eq.trans (ihT _ _ _ (by assumption)) ?_
          | refine Eq.trans (ihEL _ _ _ _ (by assumption)) ?_
          | refine Eq.trans (ihE _ _ _ (by assumption)) ?_
          | refine Eq.trans (ihS _ _ _ (by assumption)) ?_
          | simp only [frame_set_pos, frame_eprintf, frame_advance, frame_skip_whitespace,
              frame_ite, ite_self, frame_read_string_literal])
    · intro s v s' h
      simp only [parse_expression] at h
      repeat' split at h
      all_goals (try cases h)
      all_goals
        repeat (first
          | with_reducible rfl
          | refine Eq.trans (ihF _ _ _ (by assumption)) ?_
          | refine Eq.trans (ihTL _ _ _ _ (by assumption)) ?_
          | refine Eq.trans (ihT _ _ _ (by assumption)) ?_
          | refine Eq.trans (ihEL _ _ _ _ (by assumption)) ?_
          | simp only [frame_set_pos, frame_eprintf, frame_advance, frame_skip_whitespace,
              frame_ite, ite_self, frame_read_string_literal])
    · intro s v s' h
      simp only [parse_string_operand] at h
      split at h
      · have e := congrArg Prod.snd (Option.some.inj h)
        simp only at e
        rw [← e, frame_read_string_literal, frame_skip_whitespace]
      · repeat' split at h
        all_goals (try cases h)
        all_goals
          repeat (first
            | with_reducible rfl
            | refine Eq.trans (ihF _ _ _ (by assumption)) ?_
            | refine Eq.trans (ihTL _ _ _ _ (by assumption)) ?_
            | refine Eq.trans (ihT _ _ _ (by assumption)) ?_
            | refine Eq.trans (ihEL _ _ _ _ (by assumption)) ?_
            | refine Eq.trans (ihE _ _ _ (by assumption)) ?_
            | refine Eq.trans (ihS _ _ _ (by assumption)) ?_
            | simp only [frame_set_pos, frame_eprintf, frame_advance, frame_skip_whitespace,
                frame_ite, ite_self, frame_read_string_literal])

/-! ## GOTO -/

/-- The search of `find_line` returns the index of the first line with the number. -/
theorem find_line_from_found (k : Int) : ∀ (P : List ProgramLine) (i0 : Int) (i : Nat)
    (l : ProgramLine), P.get? i = some l → l.line_number = k →
    (∀ (j : Nat) (l' : ProgramLine), j < i → P.get? j = some l' → l'.line_number ≠ k) →
    find_line_from k P i0 = i0 + i := by
  intro P
  induction P with
  | nil => intro i0 i l h; simp at h
  | cons a P ih =>
    intro i0 i l h hk hmin
    cases i with
    | zero =>
      simp at h
      subst h
      simp [find_line_from, hk]
    | succ i =>
      have ha : a.line_number ≠ k := hmin 0 a (by omega) rfl
      simp only [find_line_from, ha, if_false]
      rw [ih (i0 + 1) i l (by simpa using h) hk
        (fun j l' hj hl' => hmin (j + 1) l' (by omega) (by simpa using hl'))]
      push_cast
      omega

/-- The search of `find_line` returns `-1` when no line has the number. -/
theorem find_line_from_absent (k : Int) : ∀ (P : List ProgramLine) (i0 : Int),
    (∀ l ∈ P, l.line_number ≠ k) → find_line_from k P i0 = -1 := by
  intro P
  induction P with
  | nil => intro i0 _; rfl
  | cons a P ih =>
    intro i0 h
    have ha : a.line_number ≠ k := h a (by simp)
    simp only [find_line_from, ha, if_false]
    exact ih _ (fun l hl => h l (by simp [hl]))

/-- Equal frames: all fields but the cursor and the diagnostics agree. -/
theorem frame_fields (s s' : Interp) (h : frame s' = frame s) :
    s'.program = s.program ∧ s'.variables = s.variables
      ∧ s'.string_variables = s.string_variables ∧ s'.arrays = s.arrays
      ∧ s'.for_stack = s.for_stack ∧ s'.for_stack_ptr = s.for_stack_ptr
      ∧ s'.current_line_index = s.current_line_index ∧ s'.stdin = s.stdin
      ∧ s'.stdout = s.stdout := by
  have h1 := congrArg Interp.program h
  have h2 := congrArg Interp.variables h
  have h3 := congrArg Interp.string_variables h
  have h4 := congrArg Interp.arrays h
  have h5 := congrArg Interp.for_stack h
  have h6 := congrArg Interp.for_stack_ptr h
  have h7 := congrArg Interp.current_line_index h
  have h8 := congrArg Interp.stdin h
  have h9 := congrArg Interp.stdout h
  exact ⟨h1, h2, h3, h4, h5, h6, h7, h8, h9⟩

theorem execute_line_goto (fuel : Nat) (st : Interp) (i : Int) (p : List Char)
    (h : line_text st i = 'G' :: 'O' :: 'T' :: 'O' :: p) :
    execute_line fuel i st = execute_goto fuel (set_pos st p) := by
  simp [execute_line, h, skip_ws_cons, isspace, strncasecmp0, tolower, advance]

/-- C14: let the current line be `GOTO e` where the expression `e` evaluates to `k`. If some
program line has the number `k` and `i` is the index of the first such line,
`execute_goto` sets `current_line_index` to `i - 1` and the run loop continues with the
line of index `i`; if no line has the number `k`, `execute_goto` writes a diagnostic,
leaves `current_line_index` unchanged, and the run loop continues with the line that
follows the GOTO. -/
theorem C14_goto (fuel t : Nat) (s s1 : Interp) (e : List Char) (k : Int)
    (hcli : s.current_line_index < program_size s)
    (hline : line_text s s.current_line_index = "GOTO".toList ++ e)
    (hpe : parse_expression fuel (set_pos s e) = some (k, s1)) :
    (∀ (i : Nat) (l : ProgramLine), s.program.get? i = some l → l.line_number = k →
      (∀ (j : Nat) (l' : ProgramLine), j < i → s.program.get? j = some l' →
        l'.line_number ≠ k) →
      execute_goto fuel (set_pos s e) = some { s1 with current_line_index := (i : Int) - 1 }
      ∧ (i : Int) < program_size s1
      ∧ run_loop fuel (t + 1) s = run_loop fuel t { s1 with current_line_index := i })
    ∧ ((∀ l ∈ s.program, l.line_number ≠ k) →
      execute_goto fuel (set_pos s e)
        = some (eprintf s1 ("Error: Line ".toList ++ fmt_d k ++ " not found\n".toList))
      ∧ s1.current_line_index = s.current_line_index
      ∧ run_loop fuel (t + 1) s
        = run_loop fuel t
          { eprintf s1 ("Error: Line ".toList ++ fmt_d k ++ " not found\n".toList) with
            current_line_index := s.current_line_index + 1 }) := by
  have hfr : frame s1 = frame s := by
    have := (parse_frame fuel).2.2.2.2.1 _ _ _ hpe
    simpa using this
  have hprog := (frame_fields _ _ hfr).1
  have hidx := (frame_fields _ _ hfr).2.2.2.2.2.2.1
  have hl := execute_line_goto fuel s s.current_line_index e hline
  constructor
  · intro i l hi hk hmin
    have hf : find_line s1 k = i := by
      unfold find_line
      rw [hprog, find_line_from_found k s.program 0 i l hi hk hmin]
      simp
    have hg : execute_goto fuel (set_pos s e)
        = some { s1 with current_line_index := (i : Int) - 1 } := by
      simp [execute_goto, hpe, hf]
    refine ⟨hg, ?_, ?_⟩
    · have := List.get?_eq_some.1 hi
      obtain ⟨hlt, -⟩ := this
      simp [program_size, hprog, hlt]
    · rw [run_loop]
      simp [hcli, hl, hg]
  · intro habs
    have hf : find_line s1 k = -1 := by
      unfold find_line
      rw [hprog]
      exact find_line_from_absent k s.program 0 habs
    have hg : execute_goto fuel (set_pos s e)
        = some (eprintf s1 ("Error: Line ".toList ++ fmt_d k ++ " not found\n".toList)) := by
      simp [execute_goto, hpe, hf]
    refine ⟨hg, hidx, ?_⟩
    rw [run_loop]
    simp [hcli, hl, hg, hidx]

theorem C14_goto_witness :
    execute_goto 3 (set_pos goto_example " 30".toList)
      = some { set_pos goto_example [] with current_line_index := ((2 : Nat) : Int) - 1 }
    ∧ ((2 : Nat) : Int) < program_size (set_pos goto_example [])
    ∧ run_loop 3 (5 + 1) goto_example
      = run_loop 3 5 { set_pos goto_example [] with current_line_index := (2 : Nat) } :=
  (C14_goto 3 5 goto_example (set_pos goto_example []) " 30".toList 30 (by decide) rfl rfl).1
    2 ⟨30, "END".toList⟩ rfl rfl (by
      intro j l' hj hl'
      have : j = 0 ∨ j = 1 := by omega
      rcases this with rfl | rfl
      · simp [goto_example] at hl'
        subst hl'
        decide
      · simp [goto_example] at hl'
        subst hl'
        decide)

/-! ## Program editing -/

/-- The scan of `insert_line` stops at the first line that has the number. -/
theorem insert_scan_found (n : Int) (l : ProgramLine) (B : List ProgramLine)
    (hl : l.line_number = n) : ∀ (A : List ProgramLine) (i0 p0 : Nat),
    (∀ x ∈ A, x.line_number ≠ n) →
    (insert_scan n (A ++ l :: B) i0 p0).1 = some (i0 + A.length) := by
  intro A
  induction A with
  | nil => intro i0 p0 _; simp [insert_scan, hl]
  | cons a A ih =>
    intro i0 p0 h
    have ha : a.line_number ≠ n := h a (by simp)
    simp only [List.cons_append, insert_scan, ha, if_false, List.length_cons]
    change (insert_scan n (A ++ l :: B) _ _).1 = _
    rw [ih _ _ (fun x hx => h x (by simp [hx]))]
    congr 1
    omega

/-- Lines with greater numbers leave the insertion point alone. -/
theorem insert_scan_above (n : Int) : ∀ (B : List ProgramLine) (i0 p0 : Nat),
    (∀ x ∈ B, n < x.line_number) → insert_scan n B i0 p0 = (none, p0) := by
  intro B
  induction B with
  | nil => intro i0 p0 _; rfl
  | cons b B ih =>
    intro i0 p0 h
    have hb : n < b.line_number := h b (by simp)
    have h1 : b.line_number ≠ n := by omega
    have h2 : ¬ b.line_number < n := by omega
    simp only [insert_scan, h1, h2, if_false]
    exact ih _ _ (fun x hx => h x (by simp [hx]))

/-- The insertion point found by the scan: behind the lines with smaller numbers. -/
theorem insert_scan_absent (n : Int) (B : List ProgramLine) (hB : ∀ x ∈ B, n < x.line_number) :
    ∀ (A : List ProgramLine) (i0 : Nat), (∀ x ∈ A, x.line_number < n) →
    insert_scan n (A ++ B) i0 i0 = (none, i0 + A.length) := by
  intro A
  induction A with
  | nil => intro i0 _; simpa using insert_scan_above n B i0 i0 hB
  | cons a A ih =>
    intro i0 h
    have ha : a.line_number < n := h a (by simp)
    have h1 : a.line_number ≠ n := by omega
    simp only [List.cons_append, insert_scan, h1, ha, if_false, if_true, List.length_cons]
    change insert_scan n (A ++ B) _ _ = _
    rw [ih _ (fun x hx => h x (by simp [hx]))]
    congr 1
    omega

/-- A sorted program without the number `n` splits into the lines below and above `n`. -/
theorem sorted_split_absent (n : Int) : ∀ (P : List ProgramLine), program_sorted P →
    (∀ x ∈ P, x.line_number ≠ n) →
    ∃ A B, P = A ++ B ∧ (∀ x ∈ A, x.line_number < n) ∧ (∀ x ∈ B, n < x.line_number) := by
  intro P
  induction P with
  | nil => intro _ _; exact ⟨[], [], rfl, by simp, by simp⟩
  | cons a P ih =>
    intro hs hn
    have hs' : program_sorted P := by
      unfold program_sorted at hs ⊢
      simp only [List.map_cons, List.pairwise_cons] at hs
      exact hs.2
    have hall : ∀ x ∈ P, a.line_number < x.line_number := by
      unfold program_sorted at hs
      simp only [List.map_cons, List.pairwise_cons] at hs
      intro x hx
      exact hs.1 _ (List.mem_map_of_mem _ hx)
    have ha : a.line_number ≠ n := hn a (by simp)
    by_cases hlt : a.line_number < n
    · obtain ⟨A, B, hP, hA, hB⟩ := ih hs' (fun x hx => hn x (by simp [hx]))
      refine ⟨a :: A, B, by simp [hP], ?_, hB⟩
      intro x hx
      simp at hx
      rcases hx with rfl | hx
      · exact hlt
      · exact hA x hx
    · refine ⟨[], a :: P, rfl, by simp, ?_⟩
      intro x hx
      simp at hx
      rcases hx with rfl | hx
      · omega
      · have := hall x hx
        omega

/-- A sorted program with the number `n` splits at the line that has it. -/
theorem sorted_split_present (n : Int) (P : List ProgramLine) (hs : program_sorted P)
    (hn : ∃ x ∈ P, x.line_number = n) :
    ∃ A l B, P = A ++ l :: B ∧ l.line_number = n ∧ (∀ x ∈ A, x.line_number < n)
      ∧ (∀ x ∈ B, n < x.line_number) := by
  obtain ⟨l, hl, hnum⟩ := hn
  obtain ⟨A, B, rfl⟩ := List.append_of_mem hl
  unfold program_sorted at hs
  simp only [List.map_append, List.map_cons, List.pairwise_append, List.pairwise_cons,
    List.mem_map, List.mem_cons, forall_exists_index, and_imp,
    forall_apply_eq_imp_iff₂] at hs
  obtain ⟨-, ⟨hB, -⟩, hA⟩ := hs
  refine ⟨A, l, B, rfl, hnum, ?_, ?_⟩
  · intro x hx
    have := hA x hx l.line_number (Or.inl rfl)
    omega
  · intro x hx
    have := hB x hx
    omega

theorem modify_append_length (f : ProgramLine → ProgramLine) (l : ProgramLine)
    (B : List ProgramLine) : ∀ A : List ProgramLine,
    List.modify f A.length (A ++ l :: B) = A ++ f l :: B := by
  intro A
  induction A with
  | nil => rfl
  | cons a A ih => simpa [List.modify] using ih

theorem eraseIdx_append_length (l : ProgramLine) (B : List ProgramLine) :
    ∀ A : List ProgramLine, (A ++ l :: B).eraseIdx A.length = A ++ B := by
  intro A
  induction A with
  | nil => rfl
  | cons a A ih => simpa using ih

/-- The effect of `insert_line` when the program has a line with the number. -/
theorem insert_line_present (s : Interp) (n : Int) (text : List Char)
    (A B : List ProgramLine) (l : ProgramLine) (hP : s.program = A ++ l :: B)
    (hl : l.line_number = n) (hA : ∀ x ∈ A, x.line_number ≠ n) :
    insert_line s n text
      = if text = [] then { s with program := A ++ B }
        else { s with program := A ++ { l with text := text.take 255 } :: B } := by
  have h := insert_scan_found n l B hl A 0 0 hA
  unfold insert_line
  rw [hP]
  generalize insert_scan n (A ++ l :: B) 0 0 = r at h ⊢
  obtain ⟨r1, r2⟩ := r
  simp only [Nat.zero_add] at h
  subst h
  by_cases ht : text = []
  · simp [ht, eraseIdx_append_length]
  · simp [ht, modify_append_length, MAX_LINE_LENGTH]

/-- The effect of `insert_line` when the program is sorted and has no line with the
number. -/
theorem insert_line_absent (s : Interp) (n : Int) (text : List Char)
    (A B : List ProgramLine) (hP : s.program = A ++ B)
    (hA : ∀ x ∈ A, x.line_number < n) (hB : ∀ x ∈ B, n < x.line_number) :
    insert_line s n text
      = if text ≠ [] ∧ program_size s < 1000 then
          { s with program := A ++ ⟨n, text.take 255⟩ :: B }
        else s := by
  have h := insert_scan_absent n B hB A 0 hA
  unfold insert_line
  simp only [hP, h, Nat.zero_add]
  by_cases ht : text = []
  · simp [ht]
  · have : 0 < text.length := List.length_pos.2 ht
    by_cases hf : program_size s < 1000
    · simp [ht, hf, this, MAX_LINES, MAX_LINE_LENGTH]
    · simp [ht, hf, this, MAX_LINES, MAX_LINE_LENGTH]

/-- One call of `insert_line` keeps the line numbers strictly increasing and the size
within the buffer. -/
theorem insert_line_invariant (s : Interp) (n : Int) (text : List Char)
    (hs : program_sorted s.program) (hsz : program_size s ≤ 1000) :
    program_sorted (insert_line s n text).program
      ∧ program_size (insert_line s n text) ≤ 1000 := by
  by_cases hn : ∃ x ∈ s.program, x.line_number = n
  · obtain ⟨A, l, B, hP, hl, hA, hB⟩ := sorted_split_present n s.program hs hn
    rw [insert_line_present s n text A B l hP hl (fun x hx => by have := hA x hx; omega)]
    unfold program_sorted program_size at *
    rw [hP] at hs hsz
    split
    · simp only [List.map_append, List.map_cons, List.pairwise_append, List.pairwise_cons,
        List.mem_map, List.mem_cons, forall_exists_index, and_imp,
        forall_apply_eq_imp_iff₂, List.length_append, List.length_cons] at hs hsz ⊢
      refine ⟨⟨hs.1, hs.2.1.2, fun a ha b hb => ?_⟩, by push_cast at hsz ⊢; omega⟩
      have := hA a ha
      have := hB b hb
      omega
    · simp only [List.map_append, List.map_cons, List.length_append, List.length_cons]
        at hs hsz ⊢
      exact ⟨hs, hsz⟩
  · have hn' : ∀ x ∈ s.program, x.line_number ≠ n := fun x hx h => hn ⟨x, hx, h⟩
    obtain ⟨A, B, hP, hA, hB⟩ := sorted_split_absent n s.program hs hn'
    rw [insert_line_absent s n text A B hP hA hB]
    split
    · rename_i hc
      unfold program_sorted program_size at *
      rw [hP] at hs hsz hc
      simp only [List.map_append, List.map_cons, List.pairwise_append, List.pairwise_cons,
        List.mem_map, List.mem_cons, forall_exists_index, and_imp,
        forall_apply_eq_imp_iff₂, List.length_append, List.length_cons] at hs hsz hc ⊢
      refine ⟨⟨hs.1, ⟨fun b hb => hB b hb, hs.2.1⟩, fun a ha b hb => ?_⟩,
        by push_cast at hc ⊢; omega⟩
      rcases hb with rfl | ⟨x, hx, rfl⟩
      · exact hA a ha
      · have := hA a ha
        have := hB x hx
        omega
    · exact ⟨hs, hsz⟩

/-- C15: starting from the empty program, after any finite sequence of calls
`insert_line(n, text)` the stored line numbers are strictly increasing, hence free of
duplicates, and `0 ≤ program_size ≤ 1000`. -/
theorem C15_insert_line_sorted (input : List Char) (calls : List (Int × List Char)) :
    program_sorted
        (calls.foldl (fun s c => insert_line s c.1 c.2) (init_interpreter input)).program
    ∧ ((calls.foldl (fun s c => insert_line s c.1 c.2) (init_interpreter input)).program.map
        ProgramLine.line_number).Nodup
    ∧ 0 ≤ program_size
        (calls.foldl (fun s c => insert_line s c.1 c.2) (init_interpreter input))
    ∧ program_size
        (calls.foldl (fun s c => insert_line s c.1 c.2) (init_interpreter input)) ≤ 1000 := by
  have key : ∀ (cs : List (Int × List Char)) (s : Interp), program_sorted s.program →
      program_size s ≤ 1000 →
      program_sorted (cs.foldl (fun s c => insert_line s c.1 c.2) s).program
        ∧ program_size (cs.foldl (fun s c => insert_line s c.1 c.2) s) ≤ 1000 := by
    intro cs
    induction cs with
    | nil => intro s h1 h2; exact ⟨h1, h2⟩
    | cons c cs ih =>
      intro s h1 h2
      obtain ⟨k1, k2⟩ := insert_line_invariant s c.1 c.2 h1 h2
      exact ih _ k1 k2
  obtain ⟨h1, h2⟩ := key calls (init_interpreter input)
    (by simp [program_sorted, init_interpreter]) (by simp [program_size, init_interpreter])
  refine ⟨h1, ?_, by unfold program_size; omega, h2⟩
  unfold program_sorted at h1
  exact h1.imp (fun h => by omega)

/-- The search of `find_line` in a program split at the first line with the number. -/
theorem find_line_split (s : Interp) (n : Int) (A B : List ProgramLine) (l : ProgramLine)
    (hP : s.program = A ++ l :: B) (hl : l.line_number = n)
    (hA : ∀ x ∈ A, x.line_number ≠ n) :
    find_line s n = A.length ∧ s.program.get? A.length = some l := by
  have hg : s.program.get? A.length = some l := by
    rw [hP, List.get?_eq_getElem?, List.getElem?_append_right (le_refl _)]
    simp
  refine ⟨?_, hg⟩
  unfold find_line
  rw [find_line_from_found n s.program 0 A.length l hg hl]
  · simp
  · intro j l' hj hl'
    rw [hP, List.get?_eq_getElem?, List.getElem?_append_left hj] at hl'
    exact hA l' (List.mem_iff_getElem?.2 ⟨j, hl'⟩)

/-- C16: on a program with strictly increasing line numbers, `insert_line(n, text)` acts as
an update of the line numbered `n`. With an empty text the line numbered `n` is removed
when present (and `program_size` drops by one), and nothing changes when it is absent. With
a non-empty text, if `n` was present or the buffer held fewer than 1000 lines, `find_line(n)`
afterwards locates a line numbered `n` whose text is `text` truncated to 255 characters;
nothing changes when `n` is new and the buffer is full. In every case the lines with
numbers other than `n` are the same, in the same order. -/
theorem C16_insert_line_update (s : Interp) (n : Int) (text : List Char)
    (hs : program_sorted s.program) :
    (text = [] → (∃ x ∈ s.program, x.line_number = n) →
      (∀ x ∈ (insert_line s n text).program, x.line_number ≠ n)
      ∧ program_size (insert_line s n text) = program_size s - 1)
    ∧ (text = [] → (∀ x ∈ s.program, x.line_number ≠ n) → insert_line s n text = s)
    ∧ (text ≠ [] → ((∃ x ∈ s.program, x.line_number = n) ∨ program_size s < 1000) →
      0 ≤ find_line (insert_line s n text) n
      ∧ ∃ l, (insert_line s n text).program.get? (find_line (insert_line s n text) n).toNat
          = some l
        ∧ l.line_number = n ∧ l.text = text.take 255)
    ∧ (text ≠ [] → (∀ x ∈ s.program, x.line_number ≠ n) → 1000 ≤ program_size s →
      insert_line s n text = s)
    ∧ (insert_line s n text).program.filter (fun x => decide (x.line_number ≠ n))
      = s.program.filter (fun x => decide (x.line_number ≠ n)) := by
  by_cases hn : ∃ x ∈ s.program, x.line_number = n
  · obtain ⟨A, l, B, hP, hl, hA, hB⟩ := sorted_split_present n s.program hs hn
    have hA' : ∀ x ∈ A, x.line_number ≠ n := fun x hx => by have := hA x hx; omega
    have hB' : ∀ x ∈ B, x.line_number ≠ n := fun x hx => by have := hB x hx; omega
    have hi := insert_line_present s n text A B l hP hl hA'
    refine ⟨?_, ?_, ?_, ?_, ?_⟩
    · intro ht _
      rw [hi, if_pos ht]
      refine ⟨?_, ?_⟩
      · intro x hx
        simp only [List.mem_append] at hx
        rcases hx with hx | hx
        · exact hA' x hx
        · exact hB' x hx
      · simp only [program_size, hP, List.length_append, List.length_cons]
        push_cast
        omega
    · intro _ habs
      obtain ⟨x, hx, hxn⟩ := hn
      exact absurd hxn (habs x hx)
    · intro ht _
      rw [hi, if_neg ht]
      obtain ⟨f1, f2⟩ := find_line_split
        { s with program := A ++ { l with text := text.take 255 } :: B } n A B
        { l with text := text.take 255 } rfl hl hA'
      rw [f1]
      exact ⟨by omega, { l with text := text.take 255 }, by simpa using f2, hl, rfl⟩
    · intro _ habs
      obtain ⟨x, hx, hxn⟩ := hn
      exact absurd hxn (habs x hx)
    · rw [hi, hP]
      split <;> simp [List.filter_append, List.filter_cons, hl]
  · have hn' : ∀ x ∈ s.program, x.line_number ≠ n := fun x hx h => hn ⟨x, hx, h⟩
    obtain ⟨A, B, hP, hA, hB⟩ := sorted_split_absent n s.program hs hn'
    have hA' : ∀ x ∈ A, x.line_number ≠ n := fun x hx => by have := hA x hx; omega
    have hi := insert_line_absent s n text A B hP hA hB
    refine ⟨?_, ?_, ?_, ?_, ?_⟩
    · intro _ h
      exact absurd h hn
    · intro ht _
      rw [hi, if_neg (by simp [ht])]
    · intro ht hc
      have hc' : program_size s < 1000 := by
        rcases hc with hc | hc
        · exact absurd hc hn
        · exact hc
      rw [hi, if_pos ⟨ht, hc'⟩]
      obtain ⟨f1, f2⟩ := find_line_split
        { s with program := A ++ ⟨n, text.take 255⟩ :: B } n A B ⟨n, text.take 255⟩ rfl rfl hA'
      rw [f1]
      exact ⟨by omega, ⟨n, text.take 255⟩, by simpa using f2, rfl, rfl⟩
    · intro _ _ hfull
      rw [hi, if_neg (by omega)]
    · rw [hi]
      split
      · simp [hP, List.filter_append, List.filter_cons]
      · rfl

theorem C16_insert_line_update_witness :
    0 ≤ find_line (insert_line goto_example 20 "PRINT 2".toList) 20
    ∧ ∃ l, (insert_line goto_example 20 "PRINT 2".toList).program.get?
          (find_line (insert_line goto_example 20 "PRINT 2".toList) 20).toNat = some l
        ∧ l.line_number = 20 ∧ l.text = "PRINT 2".toList.take 255 :=
  (C16_insert_line_update goto_example 20 "PRINT 2".toList
    (by simp [program_sorted, goto_example])).2.2.1 (by decide) (Or.inr (by decide))

/-! ## LET with and without `=` -/

theorem skip_ws_blank (r : List Char) : ∀ ws : List Char, (∀ c ∈ ws, isspace c = true) →
    skip_ws (ws ++ r) = skip_ws r := by
  intro ws
  induction ws with
  | nil => intro _; rfl
  | cons c ws ih =>
    intro h
    have hc : isspace c = true := h c (by simp)
    simp only [List.cons_append, skip_ws_cons, hc, if_true]
    exact ih (fun x hx => h x (by simp [hx]))

/-- The expression evaluator skips the blanks at the cursor first. -/
theorem parse_expression_skip_ws (fuel : Nat) (st : Interp) (p : List Char) :
    parse_expression fuel (set_pos st (skip_ws p)) = parse_expression fuel (set_pos st p) := by
  by_cases h : fuel < 3
  · rw [parse_expression_small fuel h, parse_expression_small fuel h]
  · obtain ⟨g, rfl⟩ : ∃ g, fuel = g + 3 := ⟨fuel - 3, by omega⟩
    simp only [parse_expression, parse_term, parse_factor, skip_whitespace,
      set_pos_current_pos, set_pos_set_pos, skip_ws_idem]

/-- The string-operand evaluator skips the blanks at the cursor first. -/
theorem parse_string_operand_skip_ws (fuel : Nat) (st : Interp) (p : List Char) :
    parse_string_operand fuel (set_pos st (skip_ws p))
      = parse_string_operand fuel (set_pos st p) := by
  cases fuel with
  | zero => simp [parse_string_operand]
  | succ g =>
    simp only [parse_string_operand, skip_whitespace, set_pos_current_pos, set_pos_set_pos,
      skip_ws_idem]

/-- The array element case of `execute_let`, with its last part folded into
`let_array_store`. -/
theorem execute_let_array_eq (fuel : Nat) (s0 : Interp)
    (h1 : isalpha (peek (skip_whitespace s0).current_pos) = true)
    (h2 : peek (skip_whitespace (advance 1 (skip_whitespace s0))).current_pos ≠ '$')
    (h3 : peek (skip_whitespace (advance 1 (skip_whitespace s0))).current_pos = '['
      ∨ peek (skip_whitespace (advance 1 (skip_whitespace s0))).current_pos = '(') :
    execute_let fuel s0
      = match parse_expression fuel
          (advance 1 (skip_whitespace (advance 1 (skip_whitespace s0)))) with
        | none => none
        | some (index, s2) =>
          let_array_store fuel (toupper (peek (skip_whitespace s0).current_pos)) index
            (if peek (skip_whitespace
                (if peek (skip_whitespace s2).current_pos
                    = (if peek (skip_whitespace (advance 1 (skip_whitespace s0))).current_pos
                        = '[' then ']' else ')')
                  then advance 1 (skip_whitespace s2) else skip_whitespace s2)).current_pos = '='
              then advance 1 (skip_whitespace
                (if peek (skip_whitespace s2).current_pos
                    = (if peek (skip_whitespace (advance 1 (skip_whitespace s0))).current_pos
                        = '[' then ']' else ')')
                  then advance 1 (skip_whitespace s2) else skip_whitespace s2))
              else skip_whitespace
                (if peek (skip_whitespace s2).current_pos
                    = (if peek (skip_whitespace (advance 1 (skip_whitespace s0))).current_pos
                        = '[' then ']' else ')')
                  then advance 1 (skip_whitespace s2) else skip_whitespace s2)) := by
  unfold execute_let
  simp only [h1, Bool.true_eq_false, if_false, h2, h3, if_true]
  rfl

/-- LET with an array element target whose subscript text `idx` evaluates to `i`: what is
left is `let_array_store` behind the optional `=`. -/
theorem execute_let_array_target (F : Nat) (st st1 : Interp) (v : Char)
    (ws idx tail : List Char) (sq : Bool) (i : Int)
    (hv : isalpha v = true) (hws : ∀ c ∈ ws, isspace c = true)
    (hidx : ∀ r, parse_expression F (set_pos st (idx ++ (if sq then ']' else ')') :: r))
      = some (i, set_pos st1 ((if sq then ']' else ')') :: r))) :
    execute_let F
        (set_pos st (v :: (ws ++ (if sq then '[' else '(') :: (idx
          ++ (if sq then ']' else ')') :: tail))))
      = let_array_store F (toupper v) i
          (if peek (skip_ws tail) = '=' then set_pos st1 ((skip_ws tail).drop 1)
            else set_pos st1 (skip_ws tail)) := by
  obtain ⟨a1, -⟩ := isalpha_props v hv
  have hsv : ∀ r, skip_ws (v :: r) = v :: r := fun r => skip_ws_of_head v r a1
  have hb : ∀ r, skip_ws (ws ++ r) = skip_ws r := fun r => skip_ws_blank r ws hws
  rcases bracket_cases sq with ⟨e1, e2, _⟩ | ⟨e1, e2, _⟩
  · simp only [e1, e2] at hidx ⊢
    have so : ∀ r, skip_ws ('[' :: r) = '[' :: r := fun r => skip_ws_of_head '[' r (by decide)
    have sc : ∀ r, skip_ws (']' :: r) = ']' :: r := fun r => skip_ws_of_head ']' r (by decide)
    rw [execute_let_array_eq _ _ (by simp [hsv, hv]) (by simp [hsv, advance, hb, so])
      (by simp [hsv, advance, hb, so])]
    simp [hsv, advance, hb, so, sc, hidx]
  · simp only [e1, e2] at hidx ⊢
    have so : ∀ r, skip_ws ('(' :: r) = '(' :: r := fun r => skip_ws_of_head '(' r (by decide)
    have sc : ∀ r, skip_ws (')' :: r) = ')' :: r := fun r => skip_ws_of_head ')' r (by decide)
    rw [execute_let_array_eq _ _ (by simp [hsv, hv]) (by simp [hsv, advance, hb, so])
      (by simp [hsv, advance, hb, so])]
    simp [hsv, advance, hb, so, sc, hidx]

/-- Up to the final cursor, `let_array_store` does not depend on blanks at the cursor. -/
theorem let_array_store_skip_ws (F : Nat) (c : Char) (i : Int) (st1 : Interp)
    (e : List Char) :
    (let_array_store F c i (set_pos st1 (skip_ws e))).map (fun s => set_pos s [])
      = (let_array_store F c i (set_pos st1 e)).map (fun s => set_pos s []) := by
  unfold let_array_store
  simp only [set_pos_arrays, parse_expression_skip_ws]
  split
  · rfl
  · split
    · rfl
    · rfl

/-- C17: in LET the `=` may be left out. For a scalar target `v`, a string target `v$` and an
array element target `v[i]` (or `v(i)`), and every right-hand-side text `e` whose first
non-blank character is not `=` (and, for the scalar target, not `$`, `[` or `(`), executing
the assignment without the `=` gives the same state as executing it with the `=`: exactly
the same state for the scalar and the string target, and the same state up to the final
position of the cursor for the array element target. -/
theorem C17_let_optional_equals (F : Nat) (st st1 : Interp) (v : Char)
    (ws ws2 idx e : List Char) (sq : Bool) (i : Int)
    (hv : isalpha v = true)
    (hws : ∀ c ∈ ws, isspace c = true) (hws2 : ∀ c ∈ ws2, isspace c = true)
    (he : peek (skip_ws e) ≠ '=')
    (hidx : ∀ r, parse_expression F (set_pos st (idx ++ (if sq then ']' else ')') :: r))
      = some (i, set_pos st1 ((if sq then ']' else ')') :: r))) :
    ((peek (skip_ws e) ≠ '$' ∧ peek (skip_ws e) ≠ '[' ∧ peek (skip_ws e) ≠ '(') →
      execute_let F (set_pos st (v :: (ws ++ e)))
        = execute_let F (set_pos st (v :: (ws ++ '=' :: e))))
    ∧ execute_let F (set_pos st (v :: (ws ++ '$' :: (ws2 ++ e))))
        = execute_let F (set_pos st (v :: (ws ++ '$' :: (ws2 ++ '=' :: e))))
    ∧ (execute_let F
          (set_pos st (v :: (ws ++ (if sq then '[' else '(') :: (idx
            ++ (if sq then ']' else ')') :: (ws2 ++ e)))))).map (fun s => set_pos s [])
        = (execute_let F
          (set_pos st (v :: (ws ++ (if sq then '[' else '(') :: (idx
            ++ (if sq then ']' else ')') :: (ws2 ++ '=' :: e)))))).map
              (fun s => set_pos s []) := by
  obtain ⟨a1, -⟩ := isalpha_props v hv
  have hsv : ∀ r, skip_ws (v :: r) = v :: r := fun r => skip_ws_of_head v r a1
  have hse : skip_ws ('=' :: e) = '=' :: e := skip_ws_of_head '=' e (by decide)
  have hsd : ∀ r, skip_ws ('$' :: r) = '$' :: r := fun r => skip_ws_of_head '$' r (by decide)
  have hb : ∀ r, skip_ws (ws ++ r) = skip_ws r := fun r => skip_ws_blank r ws hws
  have hb2 : ∀ r, skip_ws (ws2 ++ r) = skip_ws r := fun r => skip_ws_blank r ws2 hws2
  refine ⟨?_, ?_, ?_⟩
  · rintro ⟨h1, h2, h3⟩
    simp [execute_let, hsv, hv, advance, hb, hse, h1, h2, h3, he]
    rw [parse_expression_skip_ws]
  · simp [execute_let, hsv, hv, advance, hb, hb2, hse, hsd, he]
    rw [parse_string_operand_skip_ws]
  · rw [execute_let_array_target F st st1 v ws idx (ws2 ++ e) sq i hv hws hidx,
      execute_let_array_target F st st1 v ws idx (ws2 ++ '=' :: e) sq i hv hws hidx]
    simp only [hb2, hse, he, if_false, peek_cons, if_true, List.drop_succ_cons, List.drop_zero]
    exact let_array_store_skip_ws F (toupper v) i st1 e

theorem C17_let_optional_equals_witness :
    execute_let 3 (set_pos (init_interpreter []) ('A' :: (" ".toList ++ "5".toList)))
      = execute_let 3 (set_pos (init_interpreter []) ('A' :: (" ".toList ++ '=' :: "5".toList))) :=
  (C17_let_optional_equals 3 (init_interpreter []) (init_interpreter []) 'A' " ".toList []
    "0".toList "5".toList true 0 (by decide) (by decide) (by simp) (by decide)
    (fun r => by
      have := parse_expression_literal_ws 0 (init_interpreter []) 0 (']' :: r) (by decide)
        rfl (by simp [skip_ws_cons, isspace]) (by simp [skip_ws_cons, isspace])
        (by simp [skip_ws_cons, isspace]) (by simp [skip_ws_cons, isspace])
      simpa [skip_ws_cons, isspace, fmt_d] using this)).1
    ⟨by decide, by decide, by decide⟩

/-- C17 as stated fails for a right-hand side that starts with a parenthesis: `LET A (3)` is
read as an assignment to the array element `A(3)` and leaves `A` at `0`, while
`LET A = (3)` sets `A` to `3`. -/
theorem C17_counterexample :
    (execute_let 6 (set_pos (init_interpreter []) " A (3)".toList)).map
        (fun s => s.variables 0) = some 0
    ∧ (execute_let 6 (set_pos (init_interpreter []) " A = (3)".toList)).map
        (fun s => s.variables 0) = some 3
    ∧ ¬ (execute_let 6 (set_pos (init_interpreter []) " A (3)".toList)).map
        (fun s => s.variables)
      = (execute_let 6 (set_pos (init_interpreter []) " A = (3)".toList)).map
        (fun s => s.variables) := by
  have h1 : (execute_let 6 (set_pos (init_interpreter []) " A (3)".toList)).map
        (fun s => s.variables 0) = some 0 := by rfl
  have h2 : (execute_let 6 (set_pos (init_interpreter []) " A = (3)".toList)).map
        (fun s => s.variables 0) = some 3 := by rfl
  refine ⟨h1, h2, ?_⟩
  intro h
  have h3 := congrArg (fun o => o.map (fun (f : Nat → Int) => f 0)) h
  simp only [Option.map_map] at h3
  have h4 : (execute_let 6 (set_pos (init_interpreter []) " A (3)".toList)).map
        (fun s => s.variables 0)
      = (execute_let 6 (set_pos (init_interpreter []) " A = (3)".toList)).map
        (fun s => s.variables 0) := h3
  rw [h1, h2] at h4
  exact absurd h4 (by decide)

/-! ## Division by zero -/

theorem parse_factor_zero (fuel : Nat) (st : Interp) (rest : List Char)
    (hr : isdigit (peek rest) = false) :
    parse_factor (fuel + 1) (set_pos st ('0' :: rest)) = some (0, set_pos st rest) := by
  have hz : fmt_d 0 = ['0'] := by decide
  have := parse_factor_literal fuel st 0 rest (by decide) hr
  rw [hz] at this
  exact this

/-- C18: when the factor after `/` evaluates to `0`, the loop of `parse_term` writes the
diagnostic, keeps the accumulator `a` and goes on behind the divisor; if no `*` or `/`
follows, the term evaluates to `a`. For 32-bit literals `a` and `c`, `a / 0 * c` evaluates
to `a * c` and `a / 0 + c` to `a + c` (in 32-bit arithmetic), with one diagnostic written and
the whole text consumed. -/
theorem C18_division_by_zero (fuel : Nat) (a c : Int) (s s1 st : Interp) (p : List Char)
    (hcur : skip_ws s.current_pos = '/' :: p)
    (hf : parse_factor (fuel + 1) (set_pos s p) = some (0, s1))
    (ha : INT_MIN ≤ a ∧ a ≤ INT_MAX) (hc : INT_MIN ≤ c ∧ c ≤ INT_MAX) :
    parse_term_loop (fuel + 2) a s
      = parse_term_loop (fuel + 1) a (eprintf s1 "Error: Division by zero\n".toList)
    ∧ (peek (skip_ws s1.current_pos) ≠ '*' → peek (skip_ws s1.current_pos) ≠ '/' →
      parse_term_loop (fuel + 2) a s
        = some (a, skip_whitespace (eprintf s1 "Error: Division by zero\n".toList)))
    ∧ parse_expression (fuel + 5)
        (set_pos st (fmt_d a ++ " / 0 * ".toList ++ fmt_d c))
      = some (wrap32 (a * c), set_pos (eprintf st "Error: Division by zero\n".toList) [])
    ∧ parse_expression (fuel + 5)
        (set_pos st (fmt_d a ++ " / 0 + ".toList ++ fmt_d c))
      = some (wrap32 (a + c), set_pos (eprintf st "Error: Division by zero\n".toList) []) := by
  have step : parse_term_loop (fuel + 2) a s
      = parse_term_loop (fuel + 1) a (eprintf s1 "Error: Division by zero\n".toList) := by
    simp [parse_term_loop, skip_whitespace, hcur, advance, hf]
  have d1 : isdigit ' ' = false := by decide
  refine ⟨step, ?_, ?_, ?_⟩
  · intro h1 h2
    rw [step]
    simp [parse_term_loop, skip_whitespace, h1, h2]
  · simp [parse_expression, parse_term, parse_expression_loop, parse_term_loop,
      parse_factor_literal, parse_factor_literal_end, parse_factor_space, parse_factor_zero,
      skip_ws_cons, isspace, ha, hc, d1]
  · simp [parse_expression, parse_term, parse_expression_loop, parse_term_loop,
      parse_factor_literal, parse_factor_literal_end, parse_factor_space, parse_factor_zero,
      skip_ws_cons, isspace, ha, hc, d1]

theorem C18_division_by_zero_witness :
    parse_term_loop 2 7 (set_pos (init_interpreter []) " / 0".toList)
      = some (7, skip_whitespace
          (eprintf (set_pos (set_pos (init_interpreter []) " / 0".toList) [])
            "Error: Division by zero\n".toList)) :=
  (C18_division_by_zero 0 7 1 (set_pos (init_interpreter []) " / 0".toList)
    (set_pos (set_pos (init_interpreter []) " / 0".toList) []) (init_interpreter [])
    " 0".toList rfl rfl (by decide) (by decide)).2.1 (by decide) (by decide)

/-! ## PRINT -/

theorem printf_nil (s : Interp) : printf s [] = s := by
  simp [printf]

theorem skip_ws_replicate (k : Nat) (r : List Char) :
    skip_ws (List.replicate k ' ' ++ r) = skip_ws r :=
  skip_ws_blank r _ (fun c hc => by
    rw [List.eq_of_mem_replicate hc]
    decide)

/-- PRINT at the end of the line writes the newline. -/
theorem execute_print_loop_end (F : Nat) (first : Bool) (s : Interp) (k : Nat) :
    execute_print_loop (F + 1) first (set_pos s (List.replicate k ' '))
      = some (set_pos (printf s ['\n']) []) := by
  have h : skip_ws (List.replicate k ' ') = [] := by
    have := skip_ws_replicate k []
    simpa using this
  simp [execute_print_loop, h]

/-- One pass of the loop of PRINT over a well-formed operand in front of the end of the
line or of a comma. -/
theorem execute_print_loop_item (g0 F : Nat) (st : Interp) (it : PrintItem)
    (hwf : well_formed_item g0 st it) (hF : g0 ≤ F) (first : Bool) (out r : List Char)
    (hr : r = [] ∨ peek r = ',') :
    execute_print_loop (F + 1) first (set_pos (printf st out) (item_text it ++ r))
      = execute_print_loop F false
          (set_pos (printf st (out ++ (if first then [] else [' ']) ++ item_output it))
            (r.drop 1)) := by
  obtain ⟨⟨c, cs, hop, hc, hc0⟩, hev⟩ := hwf
  have hsk : skip_ws (item_text it ++ r) = it.op ++ r := by
    unfold item_text
    rw [List.append_assoc, skip_ws_replicate, hop]
    exact skip_ws_of_head c _ hc
  have hpk : peek (it.op ++ r) = c := by rw [hop]; rfl
  have hcn : c ≠ '\n' := by
    intro h; rw [h] at hc; exact absurd hc (by decide)
  have hr2 : skip_ws r = r ∧ (if peek r = ',' then r.drop 1 else r) = r.drop 1 := by
    rcases hr with rfl | hr
    · simp
    · cases r with
      | nil => simp
      | cons d r' =>
        simp only [peek_cons] at hr
        subst hr
        simp [skip_ws_cons, isspace]
  have hev' := hev F (out ++ (if first then [] else [' '])) r hF hr
  have hs1 : (if first = true then set_pos (printf st out) (it.op ++ r)
      else printf (set_pos (printf st out) (it.op ++ r)) [' '])
      = set_pos (printf st (out ++ (if first then [] else [' ']))) (it.op ++ r) := by
    cases first <;> simp
  rw [execute_print_loop]
  simp only [skip_whitespace_set_pos, hsk, set_pos_current_pos, hpk, hc0, hcn, or_self,
    if_false, String.toList, hs1]
  cases hv : it.value with
  | str s =>
    rw [hv] at hev'
    simp only at hev'
    simp only [hev', item_output, hv, printf_set_pos, printf_printf, skip_whitespace_set_pos,
      hr2.1, set_pos_current_pos, advance_set_pos]
    rcases hr with rfl | hr
    · simp
    · simp [hr]
  | num v =>
    rw [hv] at hev'
    simp only at hev'
    obtain ⟨⟨p, h1⟩, h2⟩ := hev'
    simp only [h1, set_pos_set_pos, h2, item_output, hv, printf_set_pos, printf_printf,
      skip_whitespace_set_pos, hr2.1, set_pos_current_pos, advance_set_pos]
    rcases hr with rfl | hr
    · simp
    · simp [hr]

/-- The loop of PRINT over a non-empty list of well-formed operands. -/
theorem execute_print_loop_items (g0 : Nat) (st : Interp) :
    ∀ (items : List PrintItem) (it : PrintItem) (F : Nat) (first : Bool) (out : List Char),
      (∀ x ∈ it :: items, well_formed_item g0 st x) → g0 + items.length + 1 ≤ F →
      execute_print_loop (F + 1) first (set_pos (printf st out) (print_text (it :: items)))
        = some (set_pos (printf st (out ++ (if first then [] else [' '])
            ++ print_output (it :: items) ++ ['\n'])) []) := by
  intro items
  induction items with
  | nil =>
    intro it F first out hwf hF
    obtain ⟨G, rfl⟩ : ∃ G, F = G + 1 := ⟨F - 1, by omega⟩
    have h := execute_print_loop_item g0 (G + 1) st it (hwf it (by simp)) (by omega) first out []
      (Or.inl rfl)
    simp only [List.append_nil] at h
    simp only [print_text, print_output, h, List.drop_nil]
    have := execute_print_loop_end G false
      (printf st (out ++ (if first then [] else [' ']) ++ item_output it)) 0
    simpa using this
  | cons it2 items ih =>
    intro it F first out hwf hF
    obtain ⟨G, rfl⟩ : ∃ G, F = G + 1 := ⟨F - 1, by simp at hF; omega⟩
    have h := execute_print_loop_item g0 (G + 1) st it (hwf it (by simp))
      (by simp at hF; omega) first out (',' :: print_text (it2 :: items)) (Or.inr rfl)
    have h2 := ih it2 G false (out ++ (if first then [] else [' ']) ++ item_output it)
      (fun x hx => hwf x (by simp at hx ⊢; exact Or.inr hx)) (by simp at hF; omega)
    simp only [print_text, print_output, h, List.drop_succ_cons, List.drop_zero, h2]
    simp

/-- A quoted literal is a well-formed string operand. -/
theorem well_formed_string_literal (g0 lead : Nat) (st : Interp) (s : List Char)
    (hlen : s.length ≤ 255) (hc : ∀ c ∈ s, c ≠ '"' ∧ c ≠ '\x00') :
    well_formed_item (g0 + 1) st ⟨lead, '"' :: (s ++ ['"']), PrintValue.str s⟩ := by
  refine ⟨⟨'"', s ++ ['"'], rfl, by decide, by decide⟩, ?_⟩
  intro g out r hg _
  exact string_literal_operand (printf st out) s hlen hc g r (by omega)

/-- A string variable is a well-formed string operand. -/
theorem well_formed_string_variable (g0 lead : Nat) (st : Interp) (v : Char)
    (hv : isalpha v = true) :
    well_formed_item (g0 + 1) st
      ⟨lead, [v, '$'], PrintValue.str ((st.string_variables (var_index (toupper v))).getD [])⟩ := by
  obtain ⟨a1, -, a3, -⟩ := isalpha_props v hv
  refine ⟨⟨v, ['$'], rfl, a1, a3⟩, ?_⟩
  intro g out r hg _
  obtain ⟨f, rfl⟩ : ∃ f, g = f + 1 := ⟨g - 1, by omega⟩
  exact parse_string_operand_var f (printf st out) v r hv

/-- An integer literal is a well-formed numeric operand. -/
theorem well_formed_int_literal (g0 lead : Nat) (st : Interp) (v : Int)
    (hv : INT_MIN ≤ v ∧ v ≤ INT_MAX) :
    well_formed_item (g0 + 3) st ⟨lead, fmt_d v, PrintValue.num v⟩ := by
  obtain ⟨c, t, hc, c1, c2, c3, c4⟩ := fmt_d_head v
  refine ⟨⟨c, t, hc, c1, c4⟩, ?_⟩
  intro g out r hg hr
  obtain ⟨f, rfl⟩ : ∃ f, g = f + 3 := ⟨g - 3, by omega⟩
  have hsk : skip_ws r = r ∧ isdigit (peek r) = false ∧ peek r ≠ '+' ∧ peek r ≠ '-'
      ∧ peek r ≠ '*' ∧ peek r ≠ '/' := by
    rcases hr with rfl | hr
    · simp [isdigit]
    · cases r with
      | nil => simp [isdigit]
      | cons d r' =>
        simp only [peek_cons] at hr
        subst hr
        simp [skip_ws_cons, isspace, isdigit]
  obtain ⟨k1, k2, k3, k4, k5, k6⟩ := hsk
  refine ⟨⟨fmt_d v ++ r, ?_⟩, ?_⟩
  · show parse_string_operand (f + 3) (set_pos (printf st out) (fmt_d v ++ r)) = _
    rw [hc]
    exact parse_string_operand_none (f + 2) (printf st out) c (t ++ r) c1 c2 c3
  · have := parse_expression_literal_ws f (printf st out) v r hv k2 (by rw [k1]; exact k3)
      (by rw [k1]; exact k4) (by rw [k1]; exact k5) (by rw [k1]; exact k6)
    rw [k1] at this
    exact this

/-- C19: for every list of well-formed operands separated by commas (each with any number of
blanks in front), `execute_print` writes the outputs of the operands, the characters of a
string operand and the signed decimal numeral of a numeric operand, separated by single
spaces and followed by one newline; on an empty or blank remainder it writes just the
newline. -/
theorem C19_print (g0 fuel : Nat) (st : Interp) (items : List PrintItem)
    (hwf : ∀ x ∈ items, well_formed_item g0 st x) :
    execute_print (g0 + items.length + 2 + fuel) (set_pos st (print_text items))
      = some (set_pos (printf st (print_output items ++ ['\n'])) [])
    ∧ ∀ k : Nat, execute_print (fuel + 1) (set_pos st (List.replicate k ' '))
      = some (set_pos (printf st ['\n']) []) := by
  constructor
  · cases items with
    | nil =>
      have := execute_print_loop_end (g0 + 1 + fuel) true st 0
      simpa [execute_print, print_text, print_output, Nat.add_assoc, Nat.add_comm] using this
    | cons it items =>
      have h := execute_print_loop_items g0 st items it (g0 + items.length + 2 + fuel) true []
        hwf (by omega)
      simp only [printf_nil, if_true, List.append_nil, List.nil_append] at h
      have e : g0 + (it :: items).length + 2 + fuel = g0 + items.length + 2 + fuel + 1 := by
        simp only [List.length_cons]
        omega
      rw [execute_print, e]
      exact h
  · intro k
    exact execute_print_loop_end fuel true st k

theorem C19_print_witness :
    execute_print 7
        (set_pos (init_interpreter []) ['"', 'H', 'I', '"', ',', ' ', '4', '2'])
      = some (set_pos (printf (init_interpreter []) "HI 42\n".toList) []) :=
  (C19_print 3 0 (init_interpreter [])
    [⟨0, '"' :: ("HI".toList ++ ['"']), PrintValue.str "HI".toList⟩,
      ⟨1, fmt_d 42, PrintValue.num 42⟩]
    (by
      intro x hx
      simp only [List.mem_cons, List.mem_singleton, List.not_mem_nil, or_false] at hx
      rcases hx with rfl | rfl
      · exact well_formed_string_literal 2 0 (init_interpreter []) "HI".toList (by decide)
          (by decide)
      · exact well_formed_int_literal 0 1 (init_interpreter []) 42 (by decide))).1

/-! ## The depth of the FOR stack -/

theorem parse_expression_ptr (fuel : Nat) (s : Interp) (v : Int) (s' : Interp)
    (h : parse_expression fuel s = some (v, s')) : s'.for_stack_ptr = s.for_stack_ptr :=
  (frame_fields _ _ ((parse_frame fuel).2.2.2.2.1 s v s' h)).2.2.2.2.2.1

theorem parse_string_operand_ptr (fuel : Nat) (s : Interp) (v : Option (List Char))
    (s' : Interp) (h : parse_string_operand fuel s = some (v, s')) :
    s'.for_stack_ptr = s.for_stack_ptr :=
  (frame_fields _ _ ((parse_frame fuel).2.2.2.2.2 s v s' h)).2.2.2.2.2.1

@[simp] theorem advance_for_stack_ptr (n : Nat) (s : Interp) :
    (advance n s).for_stack_ptr = s.for_stack_ptr := rfl
@[simp] theorem skip_whitespace_for_stack_ptr (s : Interp) :
    (skip_whitespace s).for_stack_ptr = s.for_stack_ptr := rfl
theorem read_string_literal_ptr (s : Interp) :
    (read_string_literal s).2.for_stack_ptr = s.for_stack_ptr :=
  (frame_fields _ _ (frame_read_string_literal s)).2.2.2.2.2.1

set_option maxHeartbeats 1000000 in
theorem execute_print_loop_ptr (fuel : Nat) : ∀ (first : Bool) (s s' : Interp),
    execute_print_loop fuel first s = some s' → s'.for_stack_ptr = s.for_stack_ptr := by
  induction fuel with
  | zero => intro first s s' h; simp [execute_print_loop] at h
  | succ fuel ih =>
    intro first s s' h
    simp only [execute_print_loop] at h
    repeat' split at h
    all_goals (try cases h)
    all_goals
      repeat (first
        | with_reducible rfl
        | refine Eq.trans (ih _ _ _ (by assumption)) ?_
        | refine Eq.trans (parse_expression_ptr _ _ _ _ (by assumption)) ?_
        | refine Eq.trans (parse_string_operand_ptr _ _ _ _ (by assumption)) ?_
        | simp only [set_pos_for_stack_ptr, printf_for_stack_ptr, eprintf_for_stack_ptr,
            advance_for_stack_ptr, skip_whitespace_for_stack_ptr,
            apply_ite Interp.for_stack_ptr, ite_self])

theorem execute_print_ptr (fuel : Nat) (s s' : Interp) (h : execute_print fuel s = some s') :
    s'.for_stack_ptr = s.for_stack_ptr :=
  execute_print_loop_ptr fuel true s s' h

set_option maxHeartbeats 1000000 in
theorem execute_let_ptr (fuel : Nat) (s s' : Interp) (h : execute_let fuel s = some s') :
    s'.for_stack_ptr = s.for_stack_ptr := by
  simp only [execute_let] at h
  repeat' split at h
  all_goals (try cases h)
  all_goals
    repeat (first
      | with_reducible rfl
      | refine Eq.trans (parse_expression_ptr _ _ _ _ (by assumption)) ?_
      | refine Eq.trans (parse_string_operand_ptr _ _ _ _ (by assumption)) ?_
      | simp only [set_pos_for_stack_ptr, printf_for_stack_ptr, eprintf_for_stack_ptr,
          advance_for_stack_ptr, skip_whitespace_for_stack_ptr,
          apply_ite Interp.for_stack_ptr, ite_self])

set_option maxHeartbeats 1000000 in
theorem execute_dim_ptr (fuel : Nat) (s s' : Interp) (h : execute_dim fuel s = some s') :
    s'.for_stack_ptr = s.for_stack_ptr := by
  simp only [execute_dim] at h
  repeat' split at h
  all_goals (try cases h)
  all_goals
    repeat (first
      | with_reducible rfl
      | refine Eq.trans (parse_expression_ptr _ _ _ _ (by assumption)) ?_
      | simp only [set_pos_for_stack_ptr, printf_for_stack_ptr, eprintf_for_stack_ptr,
          advance_for_stack_ptr, skip_whitespace_for_stack_ptr,
          apply_ite Interp.for_stack_ptr, ite_self])

set_option maxHeartbeats 4000000 in
/-- The body of the destination loop of `execute_input`. -/
theorem execute_input_loop_succ (fuel : Nat) (s0 : Interp) :
    execute_input_loop (fuel + 1) s0 =
     (let s := skip_whitespace s0
    if peek s.current_pos = '\x00' ∨ peek s.current_pos = '\n' then some (s, true)
    else if isalpha (peek s.current_pos) = false then
      some (eprintf s "Error: Expected variable name in INPUT\n".toList, false)
    else
      let var_name := toupper (peek s.current_pos)
      let s1 := advance 1 s
      if peek s1.current_pos = '$' then
        let s2 := advance 1 s1
        let r := scanf_s s2.stdin
        let s3 : Interp :=
          match r.1 with
          | some buffer =>
            { s2 with
              stdin := r.2
              string_variables := set_slot s2.string_variables (var_index var_name)
                (some (buffer.takeWhile (fun c => c ≠ '\x00'))) }
          | none => { s2 with stdin := r.2 }
        let s4 := skip_whitespace s3
        if peek s4.current_pos = ',' then execute_input_loop fuel (advance 1 s4)
        else some (s4, true)
      else
        let s2 := skip_whitespace s1
        if peek s2.current_pos = '[' ∨ peek s2.current_pos = '(' then
          let closing := if peek s2.current_pos = '[' then ']' else ')'
          match parse_expression fuel (advance 1 s2) with
          | none => none
          | some (index, s3) =>
            let s4 := skip_whitespace s3
            let s5 := if peek s4.current_pos = closing then advance 1 s4 else s4
            let arr_idx := var_index var_name
            if (s5.arrays arr_idx).allocated = false then
              some (eprintf s5
                ("Error: Array ".toList ++ [var_name] ++ " not dimensioned\n".toList), false)
            else if index < 0 ∨ index ≥ (s5.arrays arr_idx).size then
              some (eprintf s5
                ("Error: Array index ".toList ++ fmt_d index ++ " out of bounds for ".toList
                  ++ [var_name] ++ "\n".toList), false)
            else
              match scanf_d s5.stdin with
              | (none, rest) =>
                some (eprintf { s5 with stdin := drain_line rest }
                  "Error: Invalid input\n".toList, false)
              | (some v, rest) =>
                let s6 : Interp :=
                  { s5 with
                    stdin := rest
                    arrays := set_slot s5.arrays arr_idx
                      { s5.arrays arr_idx with
                        data := (s5.arrays arr_idx).data.set index.toNat v } }
                let s7 := skip_whitespace s6
                if peek s7.current_pos = ',' then execute_input_loop fuel (advance 1 s7)
                else some (s7, true)
        else
          match scanf_d s2.stdin with
          | (none, rest) =>
            some (eprintf { s2 with stdin := drain_line rest }
              "Error: Invalid input\n".toList, false)
          | (some v, rest) =>
            let s6 : Interp :=
              { s2 with
                stdin := rest
                «variables» := set_slot s2.variables (var_index var_name) v }
            let s7 := skip_whitespace s6
            if peek s7.current_pos = ',' then execute_input_loop fuel (advance 1 s7)
            else some (s7, true)) :=
  rfl

set_option maxHeartbeats 4000000 in
theorem execute_input_loop_ptr (fuel : Nat) : ∀ (s s' : Interp) (b : Bool),
    execute_input_loop fuel s = some (s', b) → s'.for_stack_ptr = s.for_stack_ptr := by
  induction fuel with
  | zero => intro s s' b h; exact absurd h (by rw [show execute_input_loop 0 s = none from rfl]; simp)
  | succ fuel ih =>
    intro s s' b h
    rw [execute_input_loop_succ] at h
    simp only [] at h
    repeat' split at h
    all_goals (try cases h)
    all_goals
      repeat (first
        | with_reducible rfl
        | refine Eq.trans (ih _ _ _ (by assumption)) ?_
        | refine Eq.trans (parse_expression_ptr _ _ _ _ (by assumption)) ?_
        | simp only [set_pos_for_stack_ptr, printf_for_stack_ptr, eprintf_for_stack_ptr,
            advance_for_stack_ptr, skip_whitespace_for_stack_ptr,
            apply_ite Interp.for_stack_ptr, ite_self])

theorem execute_input_ptr (fuel : Nat) (s s' : Interp) (h : execute_input fuel s = some s') :
    s'.for_stack_ptr = s.for_stack_ptr := by
  have hs1 : ∀ s1 : Interp, s1 = (if peek (skip_whitespace s).current_pos = '"' then
        (if peek (skip_whitespace (printf (read_string_literal (skip_whitespace s)).2
            ((read_string_literal (skip_whitespace s)).1.getD []))).current_pos = ','
          then advance 1 (skip_whitespace (printf (read_string_literal (skip_whitespace s)).2
            ((read_string_literal (skip_whitespace s)).1.getD [])))
          else skip_whitespace (printf (read_string_literal (skip_whitespace s)).2
            ((read_string_literal (skip_whitespace s)).1.getD [])))
        else skip_whitespace s) → s1.for_stack_ptr = s.for_stack_ptr := by
    intro s1 e
    rw [e]
    simp only [apply_ite Interp.for_stack_ptr, advance_for_stack_ptr,
      skip_whitespace_for_stack_ptr, printf_for_stack_ptr, read_string_literal_ptr, ite_self]
  simp only [execute_input] at h
  generalize hg : (if peek (skip_whitespace s).current_pos = '"' then
        (if peek (skip_whitespace (printf (read_string_literal (skip_whitespace s)).2
            ((read_string_literal (skip_whitespace s)).1.getD []))).current_pos = ','
          then advance 1 (skip_whitespace (printf (read_string_literal (skip_whitespace s)).2
            ((read_string_literal (skip_whitespace s)).1.getD [])))
          else skip_whitespace (printf (read_string_literal (skip_whitespace s)).2
            ((read_string_literal (skip_whitespace s)).1.getD [])))
        else skip_whitespace s) = s1 at h
  have h1 := hs1 s1 hg.symm
  cases hl : execute_input_loop fuel s1 with
  | none => rw [hl] at h; cases h
  | some r =>
    obtain ⟨s3, b⟩ := r
    have h3 := execute_input_loop_ptr fuel s1 s3 b hl
    rw [hl] at h
    cases b
    · cases h
      exact h3.trans h1
    · cases h
      exact h3.trans h1

theorem read_operator_ptr (s : Interp) :
    (read_operator s).2.for_stack_ptr = s.for_stack_ptr := by
  simp only [read_operator]
  repeat' split
  all_goals rfl

theorem execute_goto_ptr (fuel : Nat) (s s' : Interp) (h : execute_goto fuel s = some s') :
    s'.for_stack_ptr = s.for_stack_ptr := by
  simp only [execute_goto] at h
  repeat' split at h
  all_goals (try cases h)
  all_goals
    repeat (first
      | with_reducible rfl
      | refine Eq.trans (parse_expression_ptr _ _ _ _ (by assumption)) ?_
      | simp only [set_pos_for_stack_ptr, printf_for_stack_ptr, eprintf_for_stack_ptr,
          advance_for_stack_ptr, skip_whitespace_for_stack_ptr,
          apply_ite Interp.for_stack_ptr, ite_self, read_string_literal_ptr,
          read_operator_ptr])

set_option maxHeartbeats 1000000 in
theorem execute_if_then_ptr (fuel : Nat) (c : Bool) (s s' : Interp)
    (h : execute_if_then fuel c s = some s') : s'.for_stack_ptr = s.for_stack_ptr := by
  simp only [execute_if_then] at h
  repeat' split at h
  all_goals (try cases h)
  all_goals
    repeat (first
      | with_reducible rfl
      | refine Eq.trans (execute_goto_ptr _ _ _ (by assumption)) ?_
      | refine Eq.trans (execute_print_ptr _ _ _ (by assumption)) ?_
      | refine Eq.trans (execute_let_ptr _ _ _ (by assumption)) ?_
      | simp only [set_pos_for_stack_ptr, printf_for_stack_ptr, eprintf_for_stack_ptr,
          advance_for_stack_ptr, skip_whitespace_for_stack_ptr,
          apply_ite Interp.for_stack_ptr, ite_self, read_string_literal_ptr,
          read_operator_ptr])

set_option maxHeartbeats 1000000 in
theorem execute_if_ptr (fuel : Nat) (s s' : Interp) (h : execute_if fuel s = some s') :
    s'.for_stack_ptr = s.for_stack_ptr := by
  simp only [execute_if] at h
  repeat' split at h
  all_goals (try cases h)
  all_goals
    repeat (first
      | with_reducible rfl
      | refine Eq.trans (execute_if_then_ptr _ _ _ _ (by assumption)) ?_
      | refine Eq.trans (parse_expression_ptr _ _ _ _ (by assumption)) ?_
      | refine Eq.trans (parse_string_operand_ptr _ _ _ _ (by assumption)) ?_
      | simp only [set_pos_for_stack_ptr, printf_for_stack_ptr, eprintf_for_stack_ptr,
          advance_for_stack_ptr, skip_whitespace_for_stack_ptr,
          apply_ite Interp.for_stack_ptr, ite_self, read_string_literal_ptr,
          read_operator_ptr])

theorem execute_next_ptr (s : Interp) : (execute_next s).for_stack_ptr = s.for_stack_ptr := by
  simp only [execute_next]
  repeat' split
  all_goals rfl

theorem skip_to_next_loop_ptr (c : Char) (fuel : Nat) : ∀ (n : Int) (s s' : Interp),
    skip_to_next_loop c fuel n s = some s' → s'.for_stack_ptr = s.for_stack_ptr := by
  induction fuel with
  | zero => intro n s s' h; simp [skip_to_next_loop] at h
  | succ fuel ih =>
    intro n s s' h
    simp only [skip_to_next_loop] at h
    repeat' split at h
    all_goals (try cases h)
    all_goals
      repeat (first
        | with_reducible rfl
        | refine Eq.trans (ih _ _ _ (by assumption)) ?_
        | simp only [set_pos_for_stack_ptr, printf_for_stack_ptr, eprintf_for_stack_ptr,
            advance_for_stack_ptr, skip_whitespace_for_stack_ptr,
            apply_ite Interp.for_stack_ptr, ite_self, read_string_literal_ptr,
          read_operator_ptr])

theorem skip_to_next_ptr (fuel : Nat) (c : Char) (s s' : Interp)
    (h : skip_to_next fuel c s = some s') : s'.for_stack_ptr = s.for_stack_ptr :=
  skip_to_next_loop_ptr c fuel 0 s s' h

/-- The entry part of `execute_for` keeps the depth of the FOR stack within its bounds. -/
theorem for_loop_entry_bounds (fuel : Nat) (v : Char) (a b c : Int) (s7 s' : Interp)
    (hb : 0 ≤ s7.for_stack_ptr ∧ s7.for_stack_ptr ≤ 10)
    (h : for_loop_entry fuel v a b c s7 = some s') :
    0 ≤ s'.for_stack_ptr ∧ s'.for_stack_ptr ≤ 10 := by
  rw [for_loop_entry] at h
  simp only [] at h
  by_cases c1 : s7.for_stack_ptr > 0
      ∧ (s7.for_stack (s7.for_stack_ptr - 1).toNat).line_index = s7.current_line_index
  · rw [if_pos c1] at h
    simp only [] at h
    repeat' split at h
    all_goals first
      | (have e := skip_to_next_ptr _ _ _ _ h
         simp only [] at e
         omega)
      | (cases h
         exact hb)
  · rw [if_neg c1] at h
    by_cases c2 : s7.for_stack_ptr ≥ MAX_FOR_STACK
    · rw [if_pos c2] at h
      simp only [] at h
      cases h
      exact hb
    · rw [if_neg c2] at h
      simp only [] at h
      have c3 : s7.for_stack_ptr < 10 := by
        unfold MAX_FOR_STACK at c2
        omega
      repeat' split at h
      all_goals first
        | (have e := skip_to_next_ptr _ _ _ _ h
           simp only [] at e
           omega)
        | (cases h
           simp only []
           omega)

/-- The entry part of `execute_for` on initial entry with a full FOR stack. -/
theorem for_loop_entry_overflow (fuel : Nat) (v : Char) (a b c : Int) (s7 : Interp)
    (hp : s7.for_stack_ptr = 10)
    (hl : (s7.for_stack 9).line_index ≠ s7.current_line_index) :
    for_loop_entry fuel v a b c s7 = some (eprintf s7 "Error: FOR stack overflow\n".toList) := by
  rw [for_loop_entry]
  simp only []
  have c1 : ¬ (s7.for_stack_ptr > 0
      ∧ (s7.for_stack (s7.for_stack_ptr - 1).toNat).line_index = s7.current_line_index) := by
    rw [hp]
    intro hc
    exact hl hc.2
  have c2 : s7.for_stack_ptr ≥ MAX_FOR_STACK := by
    rw [hp]
    decide
  rw [if_neg c1, if_pos c2]

/-- The two ways through `execute_for`: it returns after a diagnostic of the header, or it
reaches the entry part in a state that differs from the initial one by the cursor and the
diagnostics at most. -/
theorem execute_for_cases (fuel : Nat) (s s' : Interp) (h : execute_for fuel s = some s') :
    frame s' = frame s
    ∨ ∃ v a b c s7, frame s7 = frame s ∧ for_loop_entry fuel v a b c s7 = some s' := by
  simp only [execute_for] at h
  split at h
  · cases h
    left
    rfl
  · split at h
    · cases h
    · next start_val s3 h3 =>
      have f3 := (parse_frame fuel).2.2.2.2.1 _ _ _ h3
      simp only [frame_ite, frame_advance, frame_skip_whitespace, ite_self] at f3
      split at h
      · cases h
        left
        simpa using f3
      · split at h
        · cases h
        · next end_val s5 h5 =>
          have f5 := (parse_frame fuel).2.2.2.2.1 _ _ _ h5
          simp only [frame_advance, frame_skip_whitespace] at f5
          split at h
          · cases h
          · next step_val s7 h7 =>
            right
            refine ⟨_, _, _, _, s7, ?_, h⟩
            split at h7
            · have f7 := (parse_frame fuel).2.2.2.2.1 _ _ _ h7
              simp only [frame_advance, frame_skip_whitespace] at f7
              rw [f7, f5, f3]
            · cases h7
              simp only [frame_skip_whitespace]
              rw [f5, f3]

theorem execute_for_bounds (fuel : Nat) (s s' : Interp)
    (hb : 0 ≤ s.for_stack_ptr ∧ s.for_stack_ptr ≤ 10) (h : execute_for fuel s = some s') :
    0 ≤ s'.for_stack_ptr ∧ s'.for_stack_ptr ≤ 10 := by
  rcases execute_for_cases fuel s s' h with hf | ⟨v, a, b, c, s7, hf, he⟩
  · rw [(frame_fields _ _ hf).2.2.2.2.2.1]
    exact hb
  · refine for_loop_entry_bounds fuel v a b c s7 s' ?_ he
    rw [(frame_fields _ _ hf).2.2.2.2.2.1]
    exact hb

/-- A FOR on initial entry with ten active frames changes nothing but the cursor and the
diagnostics. -/
theorem execute_for_overflow (fuel : Nat) (s s' : Interp) (hp : s.for_stack_ptr = 10)
    (hl : (s.for_stack 9).line_index ≠ s.current_line_index)
    (h : execute_for fuel s = some s') : frame s' = frame s := by
  rcases execute_for_cases fuel s s' h with hf | ⟨v, a, b, c, s7, hf, he⟩
  · exact hf
  · obtain ⟨-, -, -, -, k5, k6, k7, -⟩ := frame_fields _ _ hf
    rw [for_loop_entry_overflow fuel v a b c s7 (by rw [k6, hp]) (by rw [k5, k7]; exact hl)] at he
    cases he
    simpa using hf

set_option maxHeartbeats 1000000 in
theorem execute_line_bounds (fuel : Nat) (i : Int) (s s' : Interp)
    (hb : 0 ≤ s.for_stack_ptr ∧ s.for_stack_ptr ≤ 10) (h : execute_line fuel i s = some s') :
    0 ≤ s'.for_stack_ptr ∧ s'.for_stack_ptr ≤ 10 := by
  simp only [execute_line] at h
  split at h
  · rw [execute_print_ptr _ _ _ h]
    exact hb
  split at h
  · rw [execute_let_ptr _ _ _ h]
    exact hb
  split at h
  · rw [execute_goto_ptr _ _ _ h]
    exact hb
  split at h
  · rw [execute_if_ptr _ _ _ h]
    exact hb
  split at h
  · rw [execute_dim_ptr _ _ _ h]
    exact hb
  split at h
  · rw [execute_input_ptr _ _ _ h]
    exact hb
  split at h
  · refine execute_for_bounds _ _ _ ?_ h
    exact hb
  split at h
  · cases h
    rw [execute_next_ptr]
    exact hb
  split at h
  · cases h
    exact hb
  split at h
  · rw [execute_let_ptr _ _ _ h]
    exact hb
  · cases h
    exact hb

set_option maxHeartbeats 1000000 in
theorem execute_immediate_bounds (fuel : Nat) (input : List Char) (s s' : Interp)
    (hb : 0 ≤ s.for_stack_ptr ∧ s.for_stack_ptr ≤ 10)
    (h : execute_immediate fuel input s = some s') :
    0 ≤ s'.for_stack_ptr ∧ s'.for_stack_ptr ≤ 10 := by
  simp only [execute_immediate] at h
  split at h
  · rw [execute_print_ptr _ _ _ h]
    exact hb
  split at h
  · rw [execute_let_ptr _ _ _ h]
    exact hb
  split at h
  · rw [execute_dim_ptr _ _ _ h]
    exact hb
  split at h
  · rw [execute_input_ptr _ _ _ h]
    exact hb
  split at h
  · refine execute_for_bounds _ _ _ ?_ h
    exact hb
  split at h
  · cases h
    rw [execute_next_ptr]
    exact hb
  · cases h
    exact hb

theorem run_loop_bounds (fuel : Nat) : ∀ (steps : Nat) (s s' : Interp),
    0 ≤ s.for_stack_ptr ∧ s.for_stack_ptr ≤ 10 → run_loop fuel steps s = some s' →
    0 ≤ s'.for_stack_ptr ∧ s'.for_stack_ptr ≤ 10 := by
  intro steps
  induction steps with
  | zero => intro s s' _ h; simp [run_loop] at h
  | succ steps ih =>
    intro s s' hb h
    rw [run_loop] at h
    split at h
    · split at h
      · cases h
      · next s1 h1 =>
        refine ih _ _ ?_ h
        exact execute_line_bounds fuel _ s s1 hb h1
    · cases h
      exact hb

theorem insert_line_ptr (s : Interp) (n : Int) (text : List Char) :
    (insert_line s n text).for_stack_ptr = s.for_stack_ptr := by
  unfold insert_line
  repeat' split
  all_goals rfl

theorem apply_action_bounds (a : Nat × Action) (s s' : Interp)
    (hb : 0 ≤ s.for_stack_ptr ∧ s.for_stack_ptr ≤ 10) (h : apply_action a s = some s') :
    0 ≤ s'.for_stack_ptr ∧ s'.for_stack_ptr ≤ 10 := by
  obtain ⟨fuel, act⟩ := a
  cases act with
  | line i => exact execute_line_bounds fuel i s s' hb h
  | set_index k =>
    simp only [apply_action] at h
    cases h
    exact hb
  | immediate input => exact execute_immediate_bounds fuel input s s' hb h
  | insert n text =>
    simp only [apply_action] at h
    cases h
    rw [insert_line_ptr]
    exact hb
  | run steps =>
    simp only [apply_action, run_program] at h
    split at h
    · cases h
      exact hb
    · refine run_loop_bounds fuel steps _ s' ?_ h
      exact hb

/-- C20: in every state reached from the initial state by a sequence of steps (program
lines executed by `execute_line`, statements typed at the prompt, entries of numbered lines,
assignments to the line index, whole runs) the depth of the FOR stack satisfies
`0 ≤ for_stack_ptr ≤ 10`; and a FOR on initial entry with ten active frames changes neither
the stack nor any variable (nothing but the cursor and the diagnostics). -/
theorem C20_for_stack_bounded :
    (∀ (input : List Char) (acts : List (Nat × Action)) (s : Interp),
      run_actions acts (init_interpreter input) = some s →
      0 ≤ s.for_stack_ptr ∧ s.for_stack_ptr ≤ MAX_FOR_STACK)
    ∧ (∀ (fuel : Nat) (s s' : Interp), s.for_stack_ptr = MAX_FOR_STACK →
      (s.for_stack 9).line_index ≠ s.current_line_index →
      execute_for fuel s = some s' →
      s'.for_stack = s.for_stack ∧ s'.for_stack_ptr = s.for_stack_ptr
        ∧ s'.variables = s.variables ∧ frame s' = frame s) := by
  constructor
  · intro input acts
    have key : ∀ (acts : List (Nat × Action)) (s0 s : Interp),
        0 ≤ s0.for_stack_ptr ∧ s0.for_stack_ptr ≤ 10 → run_actions acts s0 = some s →
        0 ≤ s.for_stack_ptr ∧ s.for_stack_ptr ≤ 10 := by
      intro acts
      induction acts with
      | nil =>
        intro s0 s hb h
        simp only [run_actions] at h
        cases h
        exact hb
      | cons a acts ih =>
        intro s0 s hb h
        simp only [run_actions] at h
        split at h
        · cases h
        · next s1 h1 => exact ih s1 s (apply_action_bounds a s0 s1 hb h1) h
    intro s h
    exact key acts _ s (by simp [init_interpreter]) h
  · intro fuel s s' hp hl h
    have hf := execute_for_overflow fuel s s' hp hl h
    obtain ⟨-, k2, -, -, k5, k6, -⟩ := frame_fields _ _ hf
    exact ⟨k5, k6, k2, hf⟩

theorem C20_for_stack_bounded_witness :
    (∃ s, run_actions [(5, Action.immediate "FOR I = 1 TO 3".toList)] (init_interpreter [])
        = some s
      ∧ 0 ≤ s.for_stack_ptr ∧ s.for_stack_ptr ≤ MAX_FOR_STACK)
    ∧ ∃ s', execute_for 5 (set_pos full_stack_example " I = 1 TO 3".toList) = some s'
      ∧ s'.for_stack = (set_pos full_stack_example " I = 1 TO 3".toList).for_stack
      ∧ s'.for_stack_ptr = (set_pos full_stack_example " I = 1 TO 3".toList).for_stack_ptr
      ∧ s'.variables = (set_pos full_stack_example " I = 1 TO 3".toList).variables
      ∧ frame s' = frame (set_pos full_stack_example " I = 1 TO 3".toList) :=
  ⟨⟨_, rfl, C20_for_stack_bounded.1 [] [(5, Action.immediate "FOR I = 1 TO 3".toList)] _ rfl⟩,
    ⟨_, rfl, C20_for_stack_bounded.2 5 (set_pos full_stack_example " I = 1 TO 3".toList) _
      rfl (by decide) rfl⟩⟩

/-! ## Unary minus -/

/-- The factor evaluator skips the blanks in front of the factor. -/
theorem parse_factor_blank (fuel : Nat) (st : Interp) (ws p : List Char)
    (hws : ∀ x ∈ ws, isspace x = true) :
    parse_factor (fuel + 1) (set_pos st (ws ++ p)) = parse_factor (fuel + 1) (set_pos st p) := by
  simp only [parse_factor, skip_whitespace_set_pos, skip_ws_blank p ws hws]

/-- C25: unary minus is read by `parse_factor` only in front of a digit. For a text whose
first non-blank characters are `-` and a digit `d`, `parse_factor` returns the negated value
of the digit string (for the numeral of a negative 32-bit integer `v`, the value `v`). For a
text whose first non-blank character is `-` followed by a character that is not a digit, or
by the end of the text, `parse_factor` returns `0` and leaves the cursor at the `-`;
`parse_expression` then reads that `-` as a subtraction, so `a * -(e)` evaluates to
`(a * 0) - e` and `a * -X` to `(a * 0) - X` (in 32-bit arithmetic). -/
theorem C25_unary_minus (fuel : Nat) (st : Interp) (ws r : List Char) (d c : Char)
    (v a e : Int) (hws : ∀ x ∈ ws, isspace x = true) (hd : isdigit d = true)
    (hc : isdigit c = false) (hv : INT_MIN ≤ v ∧ v < 0) (hr : isdigit (peek r) = false)
    (ha : INT_MIN ≤ a ∧ a ≤ INT_MAX) (he : INT_MIN ≤ e ∧ e ≤ INT_MAX) :
    parse_factor (fuel + 1) (set_pos st (ws ++ '-' :: d :: r))
      = some (wrap32 (-(parse_digits 0 (d :: r)).1), set_pos st (parse_digits 0 (d :: r)).2)
    ∧ parse_factor (fuel + 1) (set_pos st (ws ++ fmt_d v ++ r)) = some (v, set_pos st r)
    ∧ parse_factor (fuel + 1) (set_pos st (ws ++ '-' :: c :: r))
      = some (0, set_pos st ('-' :: c :: r))
    ∧ parse_factor (fuel + 1) (set_pos st (ws ++ ['-'])) = some (0, set_pos st ['-'])
    ∧ parse_expression (fuel + 8) (set_pos st (fmt_d a ++ " * -(".toList ++ fmt_d e ++ [')']))
      = some (wrap32 (wrap32 (a * 0) - e), set_pos st [])
    ∧ parse_expression (fuel + 8) (set_pos st (fmt_d a ++ " * -X".toList))
      = some (wrap32 (wrap32 (a * 0) - st.variables 23), set_pos st []) := by
  have m1 : isspace '-' = false := by decide
  have m2 : isalpha '-' = false := by decide
  have m3 : isdigit '-' = false := by decide
  have d1 : isdigit ' ' = false := by decide
  have d2 : isdigit ')' = false := by decide
  have key : ∀ (g : Nat) (σ : Interp) (c' : Char) (r' : List Char), isdigit c' = false →
      parse_factor (g + 1) (set_pos σ ('-' :: c' :: r')) = some (0, set_pos σ ('-' :: c' :: r')) := by
    intro g σ c' r' h
    simp [parse_factor, skip_ws_cons, m1, m2, m3, h]
  refine ⟨?_, ?_, ?_, ?_, ?_, ?_⟩
  · rw [parse_factor_blank fuel st ws _ hws]
    simp [parse_factor, skip_ws_cons, m1, m2, m3, hd, advance]
  · rw [List.append_assoc, parse_factor_blank fuel st ws _ hws]
    exact parse_factor_literal fuel st v r ⟨hv.1, by unfold INT_MAX; omega⟩ hr
  · rw [parse_factor_blank fuel st ws _ hws]
    exact key fuel st c r hc
  · rw [parse_factor_blank fuel st ws _ hws]
    simp [parse_factor, skip_ws_cons, m1, m2, m3, isdigit]
  · have k1 := key (fuel + 4) st '(' (fmt_d e ++ [')']) (by decide)
    have hp : parse_factor (fuel + 5) (set_pos st ('(' :: (fmt_d e ++ [')'])))
        = some (e, set_pos st []) := by
      rw [parse_factor_paren, parse_expression_literal (fuel + 1) st e [')'] he (by decide)
        (by decide) (by decide) (by decide) (by decide) (by decide)]
      simp [skip_ws_cons, isspace, advance]
    simp [parse_expression, parse_term, parse_expression_loop, parse_term_loop,
      parse_factor_literal, parse_factor_space, skip_ws_cons, isspace, ha, d1, k1, hp, advance]
  · have k1 := key (fuel + 4) st 'X' [] (by decide)
    have hp : parse_factor (fuel + 5) (set_pos st ['X'])
        = some (st.variables 23, set_pos st []) := by
      simp [parse_factor, skip_ws_cons, isspace, isalpha, strncasecmp0, tolower, toupper,
        advance, var_index]
    simp [parse_expression, parse_term, parse_expression_loop, parse_term_loop,
      parse_factor_literal, parse_factor_space, skip_ws_cons, isspace, ha, d1, k1, hp, advance]

theorem C25_unary_minus_witness :
    parse_factor 1 (set_pos (init_interpreter []) (" ".toList ++ '-' :: '(' :: "X+1)".toList))
      = some (0, set_pos (init_interpreter []) ('-' :: '(' :: "X+1)".toList)) :=
  (C25_unary_minus 0 (init_interpreter []) " ".toList "X+1)".toList '5' '(' (-3) 2 4
    (by decide) (by decide) (by decide) (by decide) (by decide) (by decide) (by decide)).2.2.1

/-! ## Associativity and division -/

/-- C27: operators of equal precedence associate to the left and division truncates toward
zero. For 32-bit integers `a`, `b`, `c` written as literals, `a - b - c` evaluates to
`(a - b) - c`, and for non-zero `b` and `c`, `a / b / c` evaluates to `(a / b) / c` and
`a / b * c` to `(a / b) * c`, where `/` is the division of C (`Int.tdiv`), provided the
results and the intermediate results are in the 32-bit range; `-7 / 2` and `7 / -2` both
evaluate to `-3`. -/
theorem C27_left_assoc (st : Interp) (a b c : Int) (fuel : Nat)
    (ha : INT_MIN ≤ a ∧ a ≤ INT_MAX) (hb : INT_MIN ≤ b ∧ b ≤ INT_MAX)
    (hc : INT_MIN ≤ c ∧ c ≤ INT_MAX) :
    ((INT_MIN ≤ a - b ∧ a - b ≤ INT_MAX) → (INT_MIN ≤ a - b - c ∧ a - b - c ≤ INT_MAX) →
      parse_expression (fuel + 8)
          (set_pos st (fmt_d a ++ " - ".toList ++ fmt_d b ++ " - ".toList ++ fmt_d c))
        = some ((a - b) - c, set_pos st []))
    ∧ (b ≠ 0 → c ≠ 0 → (INT_MIN ≤ Int.tdiv a b ∧ Int.tdiv a b ≤ INT_MAX) →
      (INT_MIN ≤ Int.tdiv (Int.tdiv a b) c ∧ Int.tdiv (Int.tdiv a b) c ≤ INT_MAX) →
      parse_expression (fuel + 8)
          (set_pos st (fmt_d a ++ " / ".toList ++ fmt_d b ++ " / ".toList ++ fmt_d c))
        = some (Int.tdiv (Int.tdiv a b) c, set_pos st []))
    ∧ (b ≠ 0 → (INT_MIN ≤ Int.tdiv a b ∧ Int.tdiv a b ≤ INT_MAX) →
      (INT_MIN ≤ Int.tdiv a b * c ∧ Int.tdiv a b * c ≤ INT_MAX) →
      parse_expression (fuel + 8)
          (set_pos st (fmt_d a ++ " / ".toList ++ fmt_d b ++ " * ".toList ++ fmt_d c))
        = some (Int.tdiv a b * c, set_pos st []))
    ∧ parse_expression (fuel + 8) (set_pos st "-7 / 2".toList) = some (-3, set_pos st [])
    ∧ parse_expression (fuel + 8) (set_pos st "7 / -2".toList) = some (-3, set_pos st []) := by
  have d1 : isdigit ' ' = false := by decide
  have div2 : ∀ x y : Int, (INT_MIN ≤ x ∧ x ≤ INT_MAX) → (INT_MIN ≤ y ∧ y ≤ INT_MAX) → y ≠ 0 →
      (INT_MIN ≤ Int.tdiv x y ∧ Int.tdiv x y ≤ INT_MAX) →
      parse_expression (fuel + 8) (set_pos st (fmt_d x ++ " / ".toList ++ fmt_d y))
        = some (Int.tdiv x y, set_pos st []) := by
    intro x y hx hy hy0 h1
    have e1 := wrap32_of_range _ h1
    simp [parse_expression, parse_term, parse_expression_loop, parse_term_loop,
      parse_factor_literal, parse_factor_literal_end, parse_factor_space, skip_ws_cons,
      isspace, hx, hy, e1, d1, hy0]
  refine ⟨?_, ?_, ?_, ?_, ?_⟩
  · intro h1 h2
    have e1 := wrap32_of_range _ h1
    have e2 := wrap32_of_range _ h2
    simp [parse_expression, parse_term, parse_expression_loop, parse_term_loop,
      parse_factor_literal, parse_factor_literal_end, parse_factor_space, skip_ws_cons,
      isspace, ha, hb, hc, e1, e2, d1]
  · intro hb0 hc0 h1 h2
    have e1 := wrap32_of_range _ h1
    have e2 := wrap32_of_range _ h2
    simp [parse_expression, parse_term, parse_expression_loop, parse_term_loop,
      parse_factor_literal, parse_factor_literal_end, parse_factor_space, skip_ws_cons,
      isspace, ha, hb, hc, e1, e2, d1, hb0, hc0]
  · intro hb0 h1 h2
    have e1 := wrap32_of_range _ h1
    have e2 := wrap32_of_range _ h2
    simp [parse_expression, parse_term, parse_expression_loop, parse_term_loop,
      parse_factor_literal, parse_factor_literal_end, parse_factor_space, skip_ws_cons,
      isspace, ha, hb, hc, e1, e2, d1, hb0]
  · have h := div2 (-7) 2 (by decide) (by decide) (by decide) (by decide)
    rw [show Int.tdiv (-7) 2 = -3 from by decide] at h
    rw [show "-7 / 2".toList = fmt_d (-7) ++ " / ".toList ++ fmt_d 2 from by decide]
    exact h
  · have h := div2 7 (-2) (by decide) (by decide) (by decide) (by decide)
    rw [show Int.tdiv 7 (-2) = -3 from by decide] at h
    rw [show "7 / -2".toList = fmt_d 7 ++ " / ".toList ++ fmt_d (-2) from by decide]
    exact h

theorem C27_left_assoc_witness :
    parse_expression 8
        (set_pos (init_interpreter [])
          (fmt_d 10 ++ " - ".toList ++ fmt_d 4 ++ " - ".toList ++ fmt_d 3))
      = some ((10 - 4) - 3, set_pos (init_interpreter []) []) :=
  (C27_left_assoc (init_interpreter []) 10 4 3 0 (by decide) (by decide) (by decide)).1
    (by decide) (by decide)

/-! ## PRINT on a character that starts no operand -/

/-- On a character that starts neither a factor nor an operator, the expression evaluator
returns `0` and consumes nothing. -/
theorem parse_expression_stuck (fuel : Nat) (st : Interp) (c : Char) (r : List Char)
    (h1 : isspace c = false) (h2 : isalpha c = false) (h3 : isdigit c = false)
    (h4 : c ∉ ['(', '+', '-', '*', '/']) :
    parse_expression (fuel + 3) (set_pos st (c :: r)) = some (0, set_pos st (c :: r)) := by
  simp only [List.mem_cons, List.mem_singleton, List.not_mem_nil, or_false, not_or] at h4
  obtain ⟨k1, k2, k3, k4, k5⟩ := h4
  simp [parse_expression, parse_term, parse_factor, parse_term_loop, parse_expression_loop,
    skip_ws_of_head c r h1, h2, h3, k1, k2, k3, k4, k5]

/-- C26: the operand loop of `execute_print` makes no progress on a character `c` that
starts neither a string operand nor a numeric factor and is no operator (such as `)`, `=`
or `@`): `parse_string_operand` refuses the text, `parse_expression` evaluates it to `0`,
both without consuming a character, so a pass of the loop writes `0` and starts again at
the same cursor, and the loop does not return for any amount of fuel. -/
theorem C26_print_no_progress (st : Interp) (c : Char) (r : List Char)
    (h1 : isspace c = false) (h2 : isalpha c = false) (h3 : isdigit c = false)
    (h4 : c ∉ ['(', '+', '-', '*', '/']) (h5 : c ∉ ['\x00', '"', ',']) :
    (∀ fuel : Nat,
      parse_string_operand (fuel + 1) (set_pos st (c :: r)) = some (none, set_pos st (c :: r))
      ∧ parse_expression (fuel + 3) (set_pos st (c :: r)) = some (0, set_pos st (c :: r)))
    ∧ (∀ (fuel : Nat) (first : Bool) (out : List Char),
      execute_print_loop fuel first (set_pos (printf st out) (c :: r)) = none)
    ∧ ∀ fuel : Nat, execute_print fuel (set_pos st (c :: r)) = none := by
  simp only [List.mem_cons, List.mem_singleton, List.not_mem_nil, or_false, not_or] at h5
  obtain ⟨k1, k2, k3⟩ := h5
  have hn : c ≠ '\n' := by
    intro h; rw [h] at h1; exact absurd h1 (by decide)
  have f0 : fmt_d 0 = ['0'] := by decide
  have pass : ∀ (σ : Interp) (fuel : Nat) (first : Bool),
      execute_print_loop (fuel + 4) first (set_pos σ (c :: r))
        = execute_print_loop (fuel + 3) false
            (set_pos (printf σ ((if first then [] else [' ']) ++ ['0'])) (c :: r)) := by
    intro σ fuel first
    have e0 : ∀ τ : Interp, parse_string_operand (fuel + 3) (set_pos τ (c :: r))
        = some (none, set_pos τ (c :: r)) := fun τ =>
      parse_string_operand_none (fuel + 2) τ c r h1 h2 k2
    have e1 : ∀ τ : Interp, parse_expression (fuel + 3) (set_pos τ (c :: r))
        = some (0, set_pos τ (c :: r)) := fun τ =>
      parse_expression_stuck fuel τ c r h1 h2 h3 h4
    rw [execute_print_loop]
    cases first <;>
      simp [skip_ws_of_head c r h1, k1, k3, hn, e0, e1, f0]
  have small : ∀ (σ : Interp) (fuel : Nat) (first : Bool), fuel < 4 →
      execute_print_loop fuel first (set_pos σ (c :: r)) = none := by
    intro σ fuel first hf
    cases fuel with
    | zero => rfl
    | succ g =>
      rw [execute_print_loop]
      cases g with
      | zero => cases first <;> simp [skip_ws_of_head c r h1, k1, hn, parse_string_operand]
      | succ g' =>
        have e0 : ∀ τ : Interp, parse_string_operand (g' + 1) (set_pos τ (c :: r))
            = some (none, set_pos τ (c :: r)) := fun τ =>
          parse_string_operand_none g' τ c r h1 h2 k2
        have e1 : ∀ τ : Interp, parse_expression (g' + 1) (set_pos τ (c :: r)) = none :=
          fun τ => parse_expression_small (g' + 1) (by omega) _
        cases first <;> simp [skip_ws_of_head c r h1, k1, hn, e0, e1]
  have never : ∀ (fuel : Nat) (σ : Interp) (first : Bool),
      execute_print_loop fuel first (set_pos σ (c :: r)) = none := by
    intro fuel
    induction fuel with
    | zero => intro σ first; rfl
    | succ g ih =>
      intro σ first
      by_cases hg : g + 1 < 4
      · exact small σ (g + 1) first hg
      · obtain ⟨f, rfl⟩ : ∃ f, g = f + 3 := ⟨g - 3, by omega⟩
        rw [pass σ f first]
        exact ih _ _
  exact ⟨fun fuel => ⟨parse_string_operand_none fuel st c r h1 h2 k2,
      parse_expression_stuck fuel st c r h1 h2 h3 h4⟩,
    fun fuel first out => never fuel _ first, fun fuel => never fuel st true⟩

theorem C26_print_no_progress_witness :
    (parse_string_operand 1 (set_pos (init_interpreter []) [')'])
        = some (none, set_pos (init_interpreter []) [')'])
      ∧ parse_expression 3 (set_pos (init_interpreter []) [')'])
        = some (0, set_pos (init_interpreter []) [')']))
    ∧ execute_print 100 (set_pos (init_interpreter []) [')']) = none :=
  ⟨(C26_print_no_progress (init_interpreter []) ')' [] (by decide) (by decide) (by decide)
      (by decide) (by decide)).1 0,
    (C26_print_no_progress (init_interpreter []) ')' [] (by decide) (by decide) (by decide)
      (by decide) (by decide)).2.2 100⟩

/-! ## IF with a condition that does not hold -/

theorem frame_read_operator (s : Interp) : frame (read_operator s).2 = frame s := by
  simp only [read_operator]
  repeat' split
  all_goals rfl

/-- With a false condition the tail of `execute_if` skips `THEN` and returns. -/
theorem execute_if_then_false (fuel : Nat) (s : Interp) :
    ∃ s', execute_if_then fuel false s = some s' ∧ frame s' = frame s := by
  simp only [execute_if_then]
  refine ⟨_, rfl, ?_⟩
  simp only [frame_ite, frame_skip_whitespace, frame_advance, ite_self]

/-- C22: an IF whose condition does not hold changes nothing but the cursor and the
diagnostics: no output is written, and the numeric variables, the string variables, the
arrays, the FOR stack and `current_line_index` (all fields kept by `frame`) are as before,
whatever follows the comparison. This holds when both sides are string operands and the
comparison is false, when the left side is a string operand and the right side is not (the
type mismatch, which writes its diagnostic), and when both sides are numeric and the
comparison is false. -/
theorem C22_if_false_no_effect (fuel : Nat) (s : Interp) :
    (∀ (l r : List Char) (s1 s2 : Interp),
      parse_string_operand fuel (skip_whitespace s) = some (some l, s1) →
      parse_string_operand fuel (read_operator (skip_whitespace s1)).2 = some (some r, s2) →
      eval_condition (read_operator (skip_whitespace s1)).1 (strcmp l r) = false →
      ∃ s', execute_if fuel s = some s' ∧ frame s' = frame s)
    ∧ (∀ (l : List Char) (s1 s2 : Interp),
      parse_string_operand fuel (skip_whitespace s) = some (some l, s1) →
      parse_string_operand fuel (read_operator (skip_whitespace s1)).2 = some (none, s2) →
      execute_if fuel s = some (eprintf s2 "Error: Type mismatch in IF\n".toList)
      ∧ frame (eprintf s2 "Error: Type mismatch in IF\n".toList) = frame s)
    ∧ (∀ (x y : Int) (s1 s2 s3 : Interp),
      parse_string_operand fuel (skip_whitespace s) = some (none, s1) →
      parse_expression fuel (set_pos s1 (skip_whitespace s).current_pos) = some (x, s2) →
      parse_expression fuel (read_operator (skip_whitespace s2)).2 = some (y, s3) →
      eval_condition (read_operator (skip_whitespace s2)).1 (int_cmp x y) = false →
      ∃ s', execute_if fuel s = some s' ∧ frame s' = frame s) := by
  have pS := (parse_frame fuel).2.2.2.2.2
  have pE := (parse_frame fuel).2.2.2.2.1
  refine ⟨?_, ?_, ?_⟩
  · intro l r s1 s2 h1 h2 hc
    have f1 := pS _ _ _ h1
    have f2 := pS _ _ _ h2
    simp only [frame_read_operator, frame_skip_whitespace] at f1 f2
    obtain ⟨s', hs, hf⟩ := execute_if_then_false fuel s2
    refine ⟨s', ?_, by rw [hf, f2, f1]⟩
    simp only [execute_if, h1, h2, hc]
    exact hs
  · intro l s1 s2 h1 h2
    have f1 := pS _ _ _ h1
    have f2 := pS _ _ _ h2
    simp only [frame_read_operator, frame_skip_whitespace] at f1 f2
    refine ⟨?_, by rw [frame_eprintf, f2, f1]⟩
    simp only [execute_if, h1, h2]
  · intro x y s1 s2 s3 h1 h2 h3 hc
    have f1 := pS _ _ _ h1
    have f2 := pE _ _ _ h2
    have f3 := pE _ _ _ h3
    simp only [frame_read_operator, frame_skip_whitespace, frame_set_pos] at f1 f2 f3
    obtain ⟨s', hs, hf⟩ := execute_if_then_false fuel s3
    refine ⟨s', ?_, by rw [hf, f3, f2, f1]⟩
    simp only [execute_if, h1, h2, h3, hc]
    exact hs

theorem C22_if_false_no_effect_witness :
    ∃ s', execute_if 5 (set_pos (init_interpreter []) " 1 > 2 THEN PRINT 7".toList) = some s'
      ∧ frame s' = frame (set_pos (init_interpreter []) " 1 > 2 THEN PRINT 7".toList) :=
  (C22_if_false_no_effect 5 (set_pos (init_interpreter []) " 1 > 2 THEN PRINT 7".toList)).2.2
    1 2 _ _ _ rfl rfl rfl rfl

/-! ## The cursor after a refused string operand -/

/-- C23: when `parse_string_operand` returns the NULL result on a text that, behind its
leading blanks, does not start with `LEFT$`, `RIGHT$` or `MID$`, the state is the initial
one with the leading blanks skipped: the cursor is at the first non-blank character, which
is the position it had at the call if no blank stood there. -/
theorem C23_cursor_after_null (fuel : Nat) (s s' : Interp)
    (h1 : strncasecmp0 (skip_ws s.current_pos) "LEFT$".toList = false)
    (h2 : strncasecmp0 (skip_ws s.current_pos) "RIGHT$".toList = false)
    (h3 : strncasecmp0 (skip_ws s.current_pos) "MID$".toList = false)
    (h : parse_string_operand (fuel + 1) s = some (none, s')) :
    s' = skip_whitespace s
    ∧ s'.current_pos = skip_ws s.current_pos
    ∧ (isspace (peek s.current_pos) = false → s'.current_pos = s.current_pos) := by
  have key : s' = skip_whitespace s := by
    simp only [parse_string_operand, skip_whitespace, set_pos_current_pos, h1, h2, h3,
      Bool.false_eq_true, if_false] at h
    split at h
    · rename_i hq
      simp only [read_string_literal, skip_whitespace, set_pos_current_pos, skip_ws_idem, hq,
        ne_eq, not_true_eq_false, if_false, Option.some.injEq, Prod.mk.injEq] at h
      exact absurd h.1 (by simp)
    · split at h
      · split at h
        · split at h <;> simp at h
        · simp only [Option.some.injEq, Prod.mk.injEq, true_and] at h
          exact h.symm
      · simp only [Option.some.injEq, Prod.mk.injEq, true_and] at h
        exact h.symm
  refine ⟨key, by rw [key]; rfl, ?_⟩
  intro hsp
  rw [key]
  show skip_ws s.current_pos = s.current_pos
  cases hp : s.current_pos with
  | nil => rfl
  | cons c t =>
    rw [hp] at hsp
    exact skip_ws_of_head c t hsp

theorem C23_cursor_after_null_witness :
    set_pos (init_interpreter []) "A + 1".toList
      = skip_whitespace (set_pos (init_interpreter []) "A + 1".toList)
    ∧ (set_pos (init_interpreter []) "A + 1".toList).current_pos
      = skip_ws (set_pos (init_interpreter []) "A + 1".toList).current_pos
    ∧ (isspace (peek (set_pos (init_interpreter []) "A + 1".toList).current_pos) = false →
      (set_pos (init_interpreter []) "A + 1".toList).current_pos
        = (set_pos (init_interpreter []) "A + 1".toList).current_pos) :=
  C23_cursor_after_null 0 (set_pos (init_interpreter []) "A + 1".toList)
    (set_pos (init_interpreter []) "A + 1".toList) (by decide) (by decide) (by decide) rfl

/-- C23 as stated fails on a `LEFT$` call whose first argument is not a string operand:
`parse_string_operand` returns the NULL result with the cursor behind the opening
parenthesis; and on a text with a leading blank the cursor is left behind the blank. -/
theorem C23_counterexample :
    parse_string_operand 5 (set_pos (init_interpreter []) "LEFT$(1,2)".toList)
      = some (none, set_pos (init_interpreter []) "1,2)".toList)
    ∧ (set_pos (init_interpreter []) "1,2)".toList).current_pos
      ≠ (set_pos (init_interpreter []) "LEFT$(1,2)".toList).current_pos
    ∧ parse_string_operand 1 (set_pos (init_interpreter []) " 5".toList)
      = some (none, set_pos (init_interpreter []) "5".toList) := by
  refine ⟨rfl, by decide, rfl⟩

/-! ## The scan for the matching NEXT -/

/-- The decimal digits of a number are digits. -/
theorem toDigits_isdigit (n : Nat) : ∀ c ∈ Nat.toDigits 10 n, isdigit c = true := by
  induction n using Nat.strong_induction_on with
  | _ n ih =>
    intro c hc
    by_cases h : n < 10
    · rw [toDigits_small n h] at hc
      simp only [List.mem_singleton] at hc
      rw [hc]
      exact (digitChar_isdigit n h).1
    · rw [toDigits_step n (by omega)] at hc
      rcases List.mem_append.1 hc with hc | hc
      · exact ih (n / 10) (by omega) c hc
      · simp only [List.mem_singleton] at hc
        rw [hc]
        exact (digitChar_isdigit (n % 10) (by omega)).1

/-- The text of `%d` has no newline. -/
theorem fmt_d_no_newline (v : Int) : '\n' ∉ fmt_d v := by
  intro h
  unfold fmt_d at h
  split at h
  · rcases List.mem_cons.1 h with h | h
    · exact absurd h (by decide)
    · exact absurd (toDigits_isdigit _ _ h) (by decide)
  · exact absurd (toDigits_isdigit _ _ h) (by decide)

/-- The call `fgets` on a line that ends with a newline. -/
theorem fgets_loop_line (rest : List Char) : ∀ (line : List Char) (k : Nat), '\n' ∉ line →
    fgets_loop k (line ++ '\n' :: rest)
      = if line.length < k then (line ++ ['\n'], rest)
        else (line.take k, line.drop k ++ '\n' :: rest) := by
  intro line
  induction line with
  | nil =>
    intro k _
    cases k with
    | zero => rfl
    | succ k => simp [fgets_loop]
  | cons c cs ih =>
    intro k hn
    have hc : c ≠ '\n' := fun h => hn (by simp [h])
    have hcs : '\n' ∉ cs := fun h => hn (List.mem_cons_of_mem _ h)
    cases k with
    | zero => rfl
    | succ k =>
      have e : fgets_loop (k + 1) ((c :: cs) ++ '\n' :: rest)
          = ((c :: (fgets_loop k (cs ++ '\n' :: rest)).1),
              (fgets_loop k (cs ++ '\n' :: rest)).2) := by
        show fgets_loop (k + 1) (c :: (cs ++ '\n' :: rest)) = _
        simp only [fgets_loop, hc, if_false]
      rw [e, ih k hcs]
      by_cases h : cs.length < k
      · simp [h]
      · simp [h]

/-- Cutting a line at its newline. -/
theorem takeWhile_newline (line rest : List Char) (hn : '\n' ∉ line) :
    (line ++ '\n' :: rest).takeWhile (fun c => c ≠ '\n') = line := by
  induction line with
  | nil => simp
  | cons c cs ih =>
    have hc : c ≠ '\n' := fun h => hn (by simp [h])
    have hcs : '\n' ∉ cs := fun h => hn (List.mem_cons_of_mem _ h)
    have e := ih hcs
    simp only [List.cons_append, List.takeWhile_cons, hc, decide_not, decide_False,
      Bool.not_false, if_true] at e ⊢
    rw [e]

/-- A line without newline is not cut. -/
theorem takeWhile_no_newline (line : List Char) (hn : '\n' ∉ line) :
    line.takeWhile (fun c => c ≠ '\n') = line := by
  induction line with
  | nil => simp
  | cons c cs ih =>
    have hc : c ≠ '\n' := fun h => hn (by simp [h])
    have hcs : '\n' ∉ cs := fun h => hn (List.mem_cons_of_mem _ h)
    have e := ih hcs
    simp only [List.takeWhile_cons, hc, decide_not, decide_False,
      Bool.not_false, if_true] at e ⊢
    rw [e]

/-- Reading back with `%d` what `%d` has written. -/
theorem scanf_d_fmt_d (n : Int) (hr : INT_MIN ≤ n ∧ n ≤ INT_MAX) (rest : List Char)
    (h : isdigit (peek rest) = false) :
    scanf_d (fmt_d n ++ rest) = (some n, rest) := by
  rcases fmt_d_cases n with ⟨hneg, c, t, hf, hd, hct⟩ | ⟨hpos, c, t, hf, hd, hct⟩
  · have hm : isspace '-' = false := by decide
    have hp := parse_digits_nat (-n).toNat rest h
    rw [← hct] at hp
    have hc : c ≠ '-' := (isdigit_props c hd).2.2.2.1
    simp only [scanf_d, hf, List.cons_append, skip_ws_of_head _ _ hm, peek_cons, true_or,
      if_true, List.drop_succ_cons, List.drop_zero, hd]
    have hv : wrap32 (-(wrap32 ((-n).toNat : Int))) = n := by
      unfold INT_MIN INT_MAX at hr
      unfold wrap32
      omega
    rw [show (c :: (t ++ rest)) = (c :: t) ++ rest from rfl, hp]
    simp only [if_true, hv]
  · obtain ⟨h1, _, _, h4, _, _⟩ := isdigit_props c hd
    have hp := parse_digits_nat n.toNat rest h
    rw [← hct] at hp
    have hplus : c ≠ '+' := by
      rintro rfl
      exact absurd hd (by decide)
    simp only [scanf_d, hf, List.cons_append, skip_ws_of_head _ _ h1, peek_cons, h4, hplus,
      or_self, if_false, hd, if_true]
    have hv : wrap32 (wrap32 (n.toNat : Int)) = n := by
      unfold INT_MIN INT_MAX at hr
      unfold wrap32
      omega
    rw [show (c :: (t ++ rest)) = (c :: t) ++ rest from rfl, hp]
    simp only [hv]

/-- The call `sscanf` of `load_program` on a line written by `save_program`. -/
theorem sscanf_line_saved (n : Int) (hr : INT_MIN ≤ n ∧ n ≤ INT_MAX) (text : List Char)
    (ht : text ≠ []) (hw : isspace (peek text) = false) (hn : '\n' ∉ text) :
    sscanf_line (fmt_d n ++ ' ' :: text) = some (n, text) := by
  have hsp : isdigit (peek (' ' :: text)) = false := rfl
  unfold sscanf_line
  rw [scanf_d_fmt_d n hr _ hsp]
  obtain ⟨c, t, rfl⟩ := List.exists_cons_of_ne_nil ht
  simp only [peek_cons] at hw
  have hsp2 : isspace ' ' = true := by decide
  simp only [skip_ws_cons, hsp2, if_true, hw, Bool.false_eq_true, if_false]
  rw [takeWhile_no_newline _ hn]
  simp

/-- One pass of the read loop. -/
theorem load_loop_succ (fuel : Nat) (input : List Char) (s : Interp) :
    load_loop (fuel + 1) input s
      = match fgets MAX_LINE_LENGTH input with
        | none => some s
        | some (line, input1) =>
          match sscanf_line (line.takeWhile (fun c => c ≠ '\n')) with
          | some (line_num, rest) => load_loop fuel input1 (insert_line s line_num rest)
          | none => load_loop fuel input1 s := rfl

/-- The read loop on one saved line that fits the line buffer of `load_program`: the line
is inserted after one pass, or after two when the newline is left for a second call of
`fgets`. -/
theorem load_loop_line (n : Int) (hr : INT_MIN ≤ n ∧ n ≤ INT_MAX) (text : List Char)
    (ht : text ≠ []) (hw : isspace (peek text) = false) (hn : '\n' ∉ text)
    (hlen : (fmt_d n).length + 1 + text.length ≤ 255) :
    ∃ k, 1 ≤ k ∧ k ≤ 2 ∧ ∀ (fuel : Nat) (s : Interp) (rest : List Char),
      load_loop (fuel + k) (fmt_d n ++ ' ' :: text ++ '\n' :: rest) s
        = load_loop fuel rest (insert_line s n text) := by
  have hline : '\n' ∉ fmt_d n ++ ' ' :: text := by
    intro h
    rcases List.mem_append.1 h with h | h
    · exact fmt_d_no_newline n h
    · rcases List.mem_cons.1 h with h | h
      · exact absurd h (by decide)
      · exact hn h
  have hl : (fmt_d n ++ ' ' :: text).length = (fmt_d n).length + 1 + text.length := by
    simp
    omega
  have hne : ∀ rest : List Char, ¬ (fmt_d n ++ ' ' :: text ++ '\n' :: rest = []) := by
    intro rest
    simp
  by_cases hlt : (fmt_d n ++ ' ' :: text).length < 255
  · refine ⟨1, le_refl 1, by omega, ?_⟩
    intro fuel s rest
    rw [load_loop_succ]
    unfold fgets
    rw [if_neg (hne rest)]
    simp only [MAX_LINE_LENGTH, Nat.add_one_sub_one]
    rw [fgets_loop_line rest _ 255 hline, if_pos hlt]
    simp only []
    rw [takeWhile_newline _ [] hline, sscanf_line_saved n hr text ht hw hn]
  · have h255 : (fmt_d n ++ ' ' :: text).length = 255 := by omega
    refine ⟨2, by omega, le_refl 2, ?_⟩
    intro fuel s rest
    rw [show fuel + 2 = (fuel + 1) + 1 from rfl, load_loop_succ]
    unfold fgets
    rw [if_neg (hne rest)]
    simp only [MAX_LINE_LENGTH, Nat.add_one_sub_one]
    rw [fgets_loop_line rest _ 255 hline, if_neg hlt]
    simp only []
    rw [List.take_of_length_le (le_of_eq h255), List.drop_of_length_le (le_of_eq h255),
      takeWhile_no_newline _ hline, sscanf_line_saved n hr text ht hw hn]
    simp only [List.nil_append]
    rw [load_loop_succ]
    rfl

/-- The read loop on the lines written by the write loop appends them to the program that
is there, when all of its lines have smaller numbers. -/
theorem load_loop_saved : ∀ (P : List ProgramLine), program_sorted P →
    (∀ l ∈ P, Loadable l) → ∀ (s : Interp),
    (∀ a ∈ s.program, ∀ l ∈ P, a.line_number < l.line_number) →
    s.program.length + P.length ≤ 1000 →
    ∃ K, K ≤ 2 * P.length ∧ ∀ fuel : Nat,
      load_loop (fuel + K + 1) (save_loop P) s = some { s with program := s.program ++ P } := by
  intro P
  induction P with
  | nil =>
    intro _ _ s _ _
    refine ⟨0, le_refl _, ?_⟩
    intro fuel
    rw [load_loop_succ]
    simp [save_loop, fgets]
  | cons l ls ih =>
    intro hs hL s hA hsz
    obtain ⟨h1, h2, h3, h4, h5, h6⟩ := hL l (List.mem_cons_self _ _)
    obtain ⟨k, hk1, hk2, hk⟩ := load_loop_line l.line_number ⟨h1, h2⟩ l.text h3 h4 h5 h6
    have hsl : program_sorted ls := by
      unfold program_sorted at hs ⊢
      simp only [List.map_cons, List.pairwise_cons] at hs
      exact hs.2
    have hlt : ∀ x ∈ ls, l.line_number < x.line_number := by
      unfold program_sorted at hs
      simp only [List.map_cons, List.pairwise_cons, List.mem_map, forall_exists_index,
        and_imp, forall_apply_eq_imp_iff₂] at hs
      exact hs.1
    have hins : insert_line s l.line_number l.text
        = { s with program := s.program ++ [l] } := by
      rw [insert_line_absent s l.line_number l.text s.program [] (by simp)
        (fun x hx => hA x hx l (List.mem_cons_self _ _)) (by simp)]
      have hc : l.text ≠ [] ∧ program_size s < 1000 := by
        refine ⟨h3, ?_⟩
        unfold program_size
        simp only [List.length_cons] at hsz
        omega
      rw [if_pos hc]
      have ht : l.text.take 255 = l.text := List.take_of_length_le (by omega)
      rw [ht]
    obtain ⟨K, hK, hload⟩ := ih hsl (fun x hx => hL x (List.mem_cons_of_mem _ hx))
      { s with program := s.program ++ [l] }
      (by
        intro a ha x hx
        simp only [List.mem_append, List.mem_singleton] at ha
        rcases ha with ha | ha
        · exact hA a ha x (List.mem_cons_of_mem _ hx)
        · rw [ha]
          exact hlt x hx)
      (by
        simp only [List.length_append, List.length_cons, List.length_nil] at hsz ⊢
        omega)
    refine ⟨K + k, by simp only [List.length_cons]; omega, ?_⟩
    intro fuel
    have e : fuel + (K + k) + 1 = (fuel + K + 1) + k := by omega
    rw [e]
    show load_loop (fuel + K + 1 + k)
      (fmt_d l.line_number ++ ' ' :: l.text ++ '\n' :: save_loop ls) s = _
    rw [hk, hins, hload]
    simp

/-- The round trip of a program whose saved lines fit the line buffer of `load_program`:
for a program with strictly increasing line numbers and at most 1000 lines, each
with a number in the range of `int`, a text that is not empty, starts with no whitespace
character and has no newline, and a saved line `<line_number> <text>` of at most 255
characters, `load_program` applied in any state to the content written by `save_program`
returns, with fuel for two passes per line and one more, a state whose program is the
saved program, of the same size. -/
theorem save_load_roundtrip (s s0 : Interp) (filename : List Char) (fuel : Nat)
    (hs : program_sorted s.program) (hsz : s.program.length ≤ 1000)
    (hL : ∀ l ∈ s.program, Loadable l) (hf : 2 * s.program.length + 1 ≤ fuel) :
    (save_program filename true s).1 = some (save_loop s.program)
    ∧ load_program fuel filename (save_program filename true s).1 s0
        = some (printf { clear_program s0 with program := s.program }
            ("Program loaded from ".toList ++ filename ++ "\n".toList))
    ∧ ∃ s', load_program fuel filename (save_program filename true s).1 s0 = some s'
        ∧ s'.program = s.program ∧ program_size s' = program_size s := by
  obtain ⟨K, hK, hload⟩ := load_loop_saved s.program hs hL (clear_program s0)
    (by intro a ha; simp [clear_program] at ha) (by simp [clear_program]; exact hsz)
  have e : fuel = (fuel - K - 1) + K + 1 := by omega
  have hl : load_program fuel filename (save_program filename true s).1 s0
      = some (printf { clear_program s0 with program := s.program }
          ("Program loaded from ".toList ++ filename ++ "\n".toList)) := by
    have hsv : (save_program filename true s).1 = some (save_loop s.program) := rfl
    rw [hsv]
    unfold load_program
    simp only []
    rw [e, hload]
    rfl
  exact ⟨rfl, hl, _, hl, rfl, rfl⟩

/-- The round trip of the three-line example program. -/
theorem save_load_roundtrip_example :
    (save_program "f".toList true goto_example).1
      = some "10 GOTO 30\n20 PRINT 1\n30 END\n".toList
    ∧ (save_program "f".toList true goto_example).1 = some (save_loop goto_example.program)
    ∧ load_program 7 "f".toList (save_program "f".toList true goto_example).1
          (init_interpreter [])
        = some (printf { clear_program (init_interpreter []) with
              program := goto_example.program }
            ("Program loaded from ".toList ++ "f".toList ++ "\n".toList))
    ∧ ∃ s', load_program 7 "f".toList (save_program "f".toList true goto_example).1
          (init_interpreter []) = some s'
        ∧ s'.program = goto_example.program
        ∧ program_size s' = program_size goto_example :=
  ⟨rfl, save_load_roundtrip goto_example (init_interpreter []) "f".toList 7
    (by simp [program_sorted, goto_example]) (by decide)
    (by
      intro l hl
      simp only [goto_example, List.mem_cons, List.mem_singleton, List.not_mem_nil,
        or_false] at hl
      rcases hl with rfl | rfl | rfl <;> unfold Loadable <;> decide)
    (by decide)⟩

/-! ## A saved line longer than the line buffer of `load_program` -/

/-- The call `sscanf` of `load_program` on a single character stores no text. -/
theorem sscanf_line_single (c : Char) : sscanf_line [c] = none := by
  unfold sscanf_line scanf_d
  by_cases hs : isspace c = true
  · simp [skip_ws_cons, hs, peek, isdigit]
  · have hs' : isspace c = false := by simpa using hs
    by_cases hm : c = '-'
    · subst hm
      simp [skip_ws_cons, peek, isdigit, isspace]
    · by_cases hp : c = '+'
      · subst hp
        simp [skip_ws_cons, peek, isdigit, isspace]
      · by_cases hd : isdigit c = true
        · have e : parse_digits 0 [c] = (wrap32 (0 * 10 + ((c.toNat : Int) - 48)), []) := by
            simp [parse_digits, hd]
          simp [skip_ws_cons, hs', peek, hm, hp, hd, e]
        · simp [skip_ws_cons, hs', peek, hm, hp, hd]

/-- The call `sscanf` on a typed line whose text follows the number directly. -/
theorem sscanf_line_typed (n : Int) (hr : INT_MIN ≤ n ∧ n ≤ INT_MAX) (text : List Char)
    (ht : text ≠ []) (hw : isspace (peek text) = false) (hd : isdigit (peek text) = false)
    (hn : '\n' ∉ text) :
    sscanf_line (fmt_d n ++ text) = some (n, text) := by
  unfold sscanf_line
  rw [scanf_d_fmt_d n hr _ hd]
  obtain ⟨c, t, rfl⟩ := List.exists_cons_of_ne_nil ht
  simp only [peek_cons] at hw
  simp only [skip_ws_cons, hw, Bool.false_eq_true, if_false]
  rw [takeWhile_no_newline _ hn]
  simp

/-- The call of `insert_line` on the empty program. -/
theorem insert_line_empty (s : Interp) (n : Int) (text : List Char) (hP : s.program = [])
    (ht : text ≠ []) (hl : text.length ≤ 255) :
    insert_line s n text = { s with program := [⟨n, text⟩] } := by
  rw [insert_line_absent s n text [] [] (by simp [hP]) (by simp) (by simp)]
  have hc : text ≠ [] ∧ program_size s < 1000 := by
    refine ⟨ht, ?_⟩
    unfold program_size
    rw [hP]
    decide
  rw [if_pos hc, List.take_of_length_le hl]
  rfl

/-- The read loop on a saved line that is one character longer than the line buffer of
`load_program`: the first call of `fgets` stores the line without its last character, which
is inserted; the second call stores the last character, which `sscanf` refuses. -/
theorem load_loop_long_line (n : Int) (hr : INT_MIN ≤ n ∧ n ≤ INT_MAX) (text : List Char)
    (h2 : 2 ≤ text.length) (hw : isspace (peek text) = false) (hn : '\n' ∉ text)
    (hlen : (fmt_d n).length + text.length = 255) (fuel : Nat) (s : Interp) :
    load_loop (fuel + 3) (fmt_d n ++ ' ' :: text ++ ['\n']) s
      = some (insert_line s n text.dropLast) := by
  have hne : text ≠ [] := by
    intro h
    rw [h] at h2
    simp at h2
  have hsplit : text = text.dropLast ++ [text.getLast hne] :=
    (List.dropLast_append_getLast hne).symm
  have hdl : text.dropLast.length = text.length - 1 := List.length_dropLast text
  have hne' : text.dropLast ≠ [] := by
    intro h
    rw [h] at hdl
    simp at hdl
    omega
  have hn' : '\n' ∉ text.dropLast := fun h => hn (List.mem_of_mem_dropLast h)
  have hc : text.getLast hne ≠ '\n' := by
    intro h
    exact hn (h ▸ List.getLast_mem hne)
  have hw' : isspace (peek text.dropLast) = false := by
    obtain ⟨a, t, rfl⟩ := List.exists_cons_of_ne_nil hne
    obtain ⟨b, t', rfl⟩ : ∃ b t', t = b :: t' := by
      cases t with
      | nil => simp at h2
      | cons b t' => exact ⟨b, t', rfl⟩
    simpa [List.dropLast, peek] using hw
  have hline : '\n' ∉ fmt_d n ++ ' ' :: text.dropLast := by
    intro h
    rcases List.mem_append.1 h with h | h
    · exact fmt_d_no_newline n h
    · rcases List.mem_cons.1 h with h | h
      · exact absurd h (by decide)
      · exact hn' h
  have hline2 : '\n' ∉ (fmt_d n ++ ' ' :: text.dropLast) ++ [text.getLast hne] := by
    intro h
    rcases List.mem_append.1 h with h | h
    · exact hline h
    · simp only [List.mem_singleton] at h
      exact hc h.symm
  have hl255 : (fmt_d n ++ ' ' :: text.dropLast).length = 255 := by
    simp only [List.length_append, List.length_cons, hdl]
    omega
  have hinput : fmt_d n ++ ' ' :: text ++ ['\n']
      = ((fmt_d n ++ ' ' :: text.dropLast) ++ [text.getLast hne]) ++ '\n' :: [] := by
    conv_lhs => rw [hsplit]
    simp
  rw [hinput, show fuel + 3 = (fuel + 2) + 1 from rfl, load_loop_succ]
  unfold fgets
  rw [if_neg (by simp)]
  simp only [MAX_LINE_LENGTH, Nat.add_one_sub_one]
  have hl256 : ((fmt_d n ++ ' ' :: text.dropLast) ++ [text.getLast hne]).length = 256 := by
    rw [List.length_append, hl255]
    rfl
  rw [fgets_loop_line [] _ 255 hline2, if_neg (by rw [hl256]; decide)]
  simp only []
  rw [List.take_left' hl255, List.drop_left' hl255, takeWhile_no_newline _ hline,
    sscanf_line_saved n hr _ hne' hw' hn']
  simp only []
  rw [show fuel + 2 = (fuel + 1) + 1 from rfl, load_loop_succ]
  unfold fgets
  rw [if_neg (by simp)]
  simp only [MAX_LINE_LENGTH, Nat.add_one_sub_one]
  rw [fgets_loop_line [] [text.getLast hne] 255 (by simpa using hc.symm), if_pos (by simp)]
  simp only []
  rw [takeWhile_newline _ [] (by simpa using hc.symm), sscanf_line_single]
  simp only []
  rw [load_loop_succ]
  rfl

/-- C21: the round trip fails for a line that fills the input buffer of the prompt. Let
the line number `n` be followed directly by a text of at least two characters, without
whitespace or a digit at its start and without newline, so that number and text make 255
characters. The `sscanf` call of `main` stores the text whole under `n`. `save_program`
writes the number, a blank, the text and a newline, which is one character more than the
line buffer of `load_program` holds, and `load_program` returns a program whose only line
has the text without its last character. -/
theorem C21_load_long_line (n : Int) (text : List Char) (s s0 : Interp)
    (filename : List Char) (fuel : Nat) (hr : INT_MIN ≤ n ∧ n ≤ INT_MAX)
    (h2 : 2 ≤ text.length) (hw : isspace (peek text) = false)
    (hd : isdigit (peek text) = false) (hn : '\n' ∉ text)
    (hlen : (fmt_d n).length + text.length = 255) (hP : s.program = [⟨n, text⟩])
    (hf : 3 ≤ fuel) :
    sscanf_line (fmt_d n ++ text) = some (n, text)
    ∧ insert_line (clear_program s0) n text
        = { clear_program s0 with program := [⟨n, text⟩] }
    ∧ (save_program filename true s).1 = some (fmt_d n ++ ' ' :: text ++ ['\n'])
    ∧ load_program fuel filename (save_program filename true s).1 s0
        = some (printf { clear_program s0 with program := [⟨n, text.dropLast⟩] }
            ("Program loaded from ".toList ++ filename ++ "\n".toList))
    ∧ text.dropLast.length + 1 = text.length := by
  have hne : text ≠ [] := by
    intro h
    rw [h] at h2
    simp at h2
  have hdl : text.dropLast.length = text.length - 1 := List.length_dropLast text
  have hne' : text.dropLast ≠ [] := by
    intro h
    rw [h] at hdl
    simp at hdl
    omega
  have hsv : (save_program filename true s).1 = some (fmt_d n ++ ' ' :: text ++ ['\n']) := by
    simp [save_program, save_loop, hP]
  refine ⟨sscanf_line_typed n hr text hne hw hd hn,
    insert_line_empty (clear_program s0) n text rfl hne (by omega), hsv, ?_, by omega⟩
  rw [hsv]
  unfold load_program
  simp only []
  obtain ⟨g, rfl⟩ : ∃ g, fuel = g + 3 := ⟨fuel - 3, by omega⟩
  rw [load_loop_long_line n hr text h2 hw hn hlen g (clear_program s0),
    insert_line_empty (clear_program s0) n text.dropLast rfl hne' (by omega)]

theorem C21_load_long_line_witness :
    load_program 3 "f".toList
        (save_program "f".toList true (with_program [⟨5, List.replicate 254 'A'⟩])).1
        (init_interpreter [])
      = some (printf { clear_program (init_interpreter []) with
            program := [⟨5, (List.replicate 254 'A').dropLast⟩] }
          ("Program loaded from ".toList ++ "f".toList ++ "\n".toList))
    ∧ (List.replicate 254 'A').dropLast = List.replicate 253 'A'
    ∧ sscanf_line ('5' :: List.replicate 254 'A') = some (5, List.replicate 254 'A') :=
  ⟨(C21_load_long_line 5 (List.replicate 254 'A')
      (with_program [⟨5, List.replicate 254 'A'⟩]) (init_interpreter []) "f".toList 3
      (by decide) (by rw [List.length_replicate]; decide) rfl rfl
      (fun h => absurd (List.eq_of_mem_replicate h) (by decide))
      (by rw [List.length_replicate]; decide) rfl (le_refl 3)).2.2.2.1,
    by set_option maxRecDepth 100000 in rfl,
    by set_option maxRecDepth 100000 in rfl⟩

/-! ## Where the scan for the matching NEXT stops -/

end BasicInterp
